import Mathlib

/-!
Verification of the vimsite `editor.ts` content engine.

Strings are modelled as `List Char` (`Str`).  JavaScript string primitives
(`indexOf`, `lastIndexOf`, `slice`, `split`, `replace`, `match`-counting) are
given executable models, and the editor's functions are translated from
`src/editor.ts` on top of them.
-/

namespace Vimsite

/-- A string, modelled as its list of characters. -/
abbrev Str := List Char

/-- Shorthand for turning a Lean string literal into a `Str`. -/
def str (s : String) : Str := s.data

/-- First occurrence of `pat` in `s`: returns `(before, after)` with
`s = before ++ pat ++ after` at the leftmost occurrence, `none` if absent. -/
def splitOnFirst (pat : Str) : Str → Option (Str × Str)
  | [] => if pat.isEmpty then some ([], []) else none
  | c :: rest =>
    if pat.isPrefixOf (c :: rest) then some ([], (c :: rest).drop pat.length)
    else match splitOnFirst pat rest with
      | some (a, b) => some (c :: a, b)
      | none => none

theorem splitOnFirst_sound {pat s a b : Str} (h : splitOnFirst pat s = some (a, b)) :
    s = a ++ pat ++ b := by
  induction s generalizing a b with
  | nil =>
    by_cases hp : pat.isEmpty <;> simp [splitOnFirst, hp] at h
    rcases h with ⟨h1, h2⟩
    simp [List.isEmpty_iff] at hp
    simp [← h1, ← h2, hp]
    rw [h1, h2]
  | cons c rest ih =>
    by_cases hp : pat.isPrefixOf (c :: rest)
    · simp [splitOnFirst, hp] at h
      rcases h with ⟨h1, h2⟩
      have hpre : pat <+: (c :: rest) := List.isPrefixOf_iff_prefix.mp hp
      rcases hpre with ⟨t, ht⟩
      subst h1
      simp only [List.nil_append]
      rw [← ht, ← h2, ← ht]
      simp [List.drop_left]
    · simp only [splitOnFirst, hp, if_false] at h
      rcases hsp : splitOnFirst pat rest with _ | ⟨a', b'⟩ <;> rw [hsp] at h
      · simp at h
      · simp at h
        rcases h with ⟨h1, h2⟩
        have := ih hsp
        rw [← h1, ← h2]
        simp [this]

theorem splitOnFirst_snd_lt {pat s a b : Str} (hpat : pat ≠ [])
    (h : splitOnFirst pat s = some (a, b)) : b.length < s.length := by
  have hs := splitOnFirst_sound h
  rw [hs]
  simp [List.length_append]
  have : 0 < pat.length := List.length_pos.mpr hpat
  omega

/-- No occurrence of `pat` can start inside `s`, whatever text follows `s`. -/
def SafePre (pat s : Str) : Prop :=
  ∀ t : Str, ∀ i, i < s.length → ¬ pat <+: (s ++ t).drop i

theorem safePre_nil (pat : Str) : SafePre pat [] := by
  intro t i hi
  simp at hi

theorem safePre_cons_tail {pat : Str} {c : Char} {s : Str}
    (h : SafePre pat (c :: s)) : SafePre pat s := by
  intro t i hi
  have := h t (i + 1) (by simpa using Nat.succ_lt_succ hi)
  simpa using this

theorem safePre_append {pat a b : Str} (ha : SafePre pat a) (hb : SafePre pat b) :
    SafePre pat (a ++ b) := by
  intro t i hi
  rcases Nat.lt_or_ge i a.length with h | h
  · have := ha (b ++ t) i h
    simpa [List.append_assoc] using this
  · have hj : i - a.length < b.length := by
      simp [List.length_append] at hi
      omega
    have := hb t (i - a.length) hj
    intro hcon
    apply this
    have : (a ++ b ++ t).drop i = (b ++ t).drop (i - a.length) := by
      rw [List.append_assoc, List.drop_append_eq_append_drop]
      have : a.drop i = [] := List.drop_eq_nil_of_le h
      simp [this]
    rwa [this] at hcon

theorem safePre_head {pat s : Str} {c : Char} (hpat : pat.head? = some c)
    (hc : ∀ x ∈ s, x ≠ c) : SafePre pat s := by
  intro t i hi hcon
  rcases hcon with ⟨u, hu⟩
  have hdrop : (s ++ t).drop i = s.drop i ++ t := by
    rw [List.drop_append_eq_append_drop]
    have : i - s.length = 0 := by omega
    simp [this]
  rw [hdrop] at hu
  have hne : s.drop i ≠ [] := by
    intro hcon2
    have := List.drop_eq_nil_iff.mp hcon2
    omega
  rcases hd : s.drop i with _ | ⟨d, ds⟩
  · exact hne hd
  · have hdmem : d ∈ s := by
      have : d ∈ s.drop i := by rw [hd]; exact List.mem_cons_self d ds
      exact List.mem_of_mem_drop this
    have hhead : pat.head? = some d := by
      rcases pat with _ | ⟨p, ps⟩
      · simp at hpat
      · rw [hd] at hu
        simp at hu
        simp [hu.1]
    rw [hpat] at hhead
    exact hc d hdmem (by injection hhead with h; exact h.symm) |>.elim

/-- Decidable sufficient condition for `SafePre` on a concrete string. -/
def cleanStarts (pat : Str) : Str → Bool
  | [] => true
  | c :: rest =>
    (if pat.length ≤ (c :: rest).length then !pat.isPrefixOf (c :: rest)
     else !(c :: rest).isPrefixOf pat) && cleanStarts pat rest

theorem prefix_append_iff_of_le {pat x t : Str} (h : pat.length ≤ x.length) :
    pat <+: x ++ t ↔ pat <+: x := by
  constructor
  · intro hp
    have h1 := List.prefix_iff_eq_take.mp hp
    rw [List.take_append_eq_append_take] at h1
    have h2 : pat.length - x.length = 0 := by omega
    rw [h2] at h1
    simp at h1
    rw [List.prefix_iff_eq_take]
    exact h1
  · intro hp
    exact hp.trans (List.prefix_append x t)

theorem safePre_of_cleanStarts {pat s : Str} (h : cleanStarts pat s = true) :
    SafePre pat s := by
  induction s with
  | nil => exact safePre_nil pat
  | cons c rest ih =>
    simp only [cleanStarts, Bool.and_eq_true] at h
    rcases h with ⟨h1, h2⟩
    intro t i hi
    rcases i with _ | j
    · simp only [List.drop_zero]
      intro hcon
      by_cases hl : pat.length ≤ (c :: rest).length
      · rw [if_pos hl] at h1
        have : pat <+: (c :: rest) := (prefix_append_iff_of_le hl).mp hcon
        rw [Bool.not_eq_true', ← Bool.not_eq_true] at h1
        exact h1 (List.isPrefixOf_iff_prefix.mpr this)
      · rw [if_neg hl] at h1
        push_neg at hl
        have hpre1 : (c :: rest) <+: ((c :: rest) ++ t) := List.prefix_append _ _
        have : (c :: rest) <+: pat :=
          List.prefix_of_prefix_length_le hpre1 hcon (by omega)
        rw [Bool.not_eq_true', ← Bool.not_eq_true] at h1
        exact h1 (List.isPrefixOf_iff_prefix.mpr this)
    · have := ih h2 t j (by simpa using Nat.lt_of_succ_lt_succ hi)
      simpa using this

theorem split_append_safe {pat a : Str} (ha : SafePre pat a) (b : Str) :
    splitOnFirst pat (a ++ b) =
      (splitOnFirst pat b).map fun p => (a ++ p.1, p.2) := by
  induction a with
  | nil =>
    simp only [List.nil_append]
    rcases h : splitOnFirst pat b with _ | ⟨x, y⟩ <;> simp
  | cons c a' ih =>
    have hnp : ¬ pat.isPrefixOf (c :: (a' ++ b)) := by
      intro hcon
      have := ha b 0 (by simp)
      simp at this
      exact this (List.isPrefixOf_iff_prefix.mp hcon)
    have ha' : SafePre pat a' := safePre_cons_tail ha
    simp only [List.cons_append, splitOnFirst, List.append_eq]
    rw [if_neg hnp, ih ha']
    rcases h : splitOnFirst pat b with _ | ⟨x, y⟩ <;> simp

theorem split_cons_self {pat : Str} (hpat : pat ≠ []) (b : Str) :
    splitOnFirst pat (pat ++ b) = some ([], b) := by
  rcases hp : pat with _ | ⟨p, ps⟩
  · exact absurd hp hpat
  · rw [← hp]
    have hne : pat ++ b ≠ [] := by simp [hp]
    rcases hq : pat ++ b with _ | ⟨q, qs⟩
    · exact absurd hq hne
    · have hpre : pat.isPrefixOf (q :: qs) := by
        rw [← hq]
        exact List.isPrefixOf_iff_prefix.mpr (List.prefix_append pat b)
      rw [splitOnFirst, if_pos hpre, ← hq]
      simp [List.drop_left]

theorem split_at {pat a b : Str} (hpat : pat ≠ []) (ha : SafePre pat a) :
    splitOnFirst pat (a ++ pat ++ b) = some (a, b) := by
  rw [List.append_assoc, split_append_safe ha, split_cons_self hpat]
  simp

theorem split_none_of_safe {pat s : Str} (hpat : pat ≠ []) (hs : SafePre pat s) :
    splitOnFirst pat s = none := by
  have := split_append_safe hs []
  simp only [List.append_nil] at this
  rw [this]
  have : splitOnFirst pat [] = none := by
    simp [splitOnFirst, List.isEmpty_iff, hpat]
  simp [this]

/-- No occurrence of `pat` straddles the boundary between `a` and `b`. -/
def NoStraddle (pat a b : Str) : Prop :=
  ∀ k, 0 < k → k < pat.length → ¬ (pat.take k <:+ a ∧ pat.drop k <+: b)

theorem noStraddle_of_tail {pat a a' b : Str} (hsuf : a' <:+ a)
    (h : NoStraddle pat a b) : NoStraddle pat a' b := by
  intro k hk1 hk2 hcon
  exact h k hk1 hk2 ⟨hcon.1.trans hsuf, hcon.2⟩

theorem noStraddle_of_head {pat a b : Str} {c : Char} (hb : b.head? = some c)
    (hpat : ∀ k, 0 < k → k < pat.length → pat[k]? ≠ some c) :
    NoStraddle pat a b := by
  intro k hk1 hk2 hcon
  rcases hcon with ⟨_, hdrop⟩
  have hne : pat.drop k ≠ [] := by
    intro hn
    have := List.drop_eq_nil_iff.mp hn
    omega
  have h1 : (pat.drop k).head? = b.head? := by
    rcases hdrop with ⟨t, ht⟩
    rw [← ht]
    rcases hd : pat.drop k with _ | ⟨d, ds⟩
    · exact absurd hd hne
    · simp
  rw [List.head?_drop, hb] at h1
  exact hpat k hk1 hk2 h1

theorem noStraddle_of_suffix {pat a b lit : Str} (hs : lit <:+ a)
    (h1 : ∀ k, 0 < k → k < pat.length → k ≤ lit.length → ¬ pat.take k <:+ lit)
    (h2 : ∀ k, k < pat.length → lit.length < k → ¬ lit <:+ pat.take k) :
    NoStraddle pat a b := by
  intro k hk1 hk2 hcon
  rcases hcon with ⟨htake, _⟩
  have hlen : (pat.take k).length = k := by
    simp [List.length_take]
    omega
  rcases le_or_lt k lit.length with hle | hlt
  · have : pat.take k <:+ lit := by
      apply List.suffix_of_suffix_length_le htake hs
      omega
    exact h1 k hk1 hk2 hle this
  · have : lit <:+ pat.take k := by
      apply List.suffix_of_suffix_length_le hs htake
      omega
    exact h2 k hk2 hlt this

theorem split_append_left {pat b : Str} :
    ∀ {a x y : Str}, splitOnFirst pat a = some (x, y) →
      splitOnFirst pat (a ++ b) = some (x, y ++ b) := by
  intro a
  induction a with
  | nil =>
    intro x y h
    by_cases hp : pat.isEmpty <;> simp [splitOnFirst, hp] at h
    rcases h with ⟨h1, h2⟩
    subst h1
    subst h2
    simp [List.isEmpty_iff] at hp
    subst hp
    rcases b with _ | ⟨c, cs⟩
    · simp [splitOnFirst]
    · simp [splitOnFirst, List.isPrefixOf]
  | cons c rest ih =>
    intro x y h
    by_cases hp : pat.isPrefixOf (c :: rest)
    · have hpre : pat <+: (c :: rest) := List.isPrefixOf_iff_prefix.mp hp
      have hlen : pat.length ≤ (c :: rest).length := hpre.length_le
      simp only [splitOnFirst, hp, if_true, Option.some.injEq, Prod.mk.injEq] at h
      rcases h with ⟨h1, h2⟩
      subst h1
      subst h2
      have hp2 : pat.isPrefixOf (c :: (rest ++ b)) := by
        apply List.isPrefixOf_iff_prefix.mpr
        have h3 : pat <+: (c :: rest) ++ b := hpre.trans (List.prefix_append _ _)
        simpa using h3
      simp only [List.cons_append, splitOnFirst, List.append_eq]
      rw [if_pos hp2]
      have he2 : List.drop pat.length (c :: (rest ++ b)) =
          List.drop pat.length (c :: rest) ++ b := by
        rw [show (c :: (rest ++ b)) = (c :: rest) ++ b by simp,
          List.drop_append_eq_append_drop]
        have h0 : pat.length - (rest.length + 1) = 0 := by
          simp at hlen
          omega
        simp [h0]
      rw [he2]
    · simp only [splitOnFirst, hp, if_false] at h
      rcases hsp : splitOnFirst pat rest with _ | ⟨a', b'⟩ <;> rw [hsp] at h
      · simp at h
      · simp only [Bool.false_eq_true, if_false, Option.some.injEq, Prod.mk.injEq] at h
        obtain ⟨h1, h2⟩ := h
        subst h1
        subst h2
        have hrestlen : pat.length ≤ rest.length := by
          have hs := splitOnFirst_sound hsp
          rw [hs]
          simp [List.length_append]
          omega
        have hnp2 : ¬ pat.isPrefixOf (c :: (rest ++ b)) := by
          intro hcon
          apply hp
          have hpre := List.isPrefixOf_iff_prefix.mp hcon
          have h3 : pat <+: (c :: rest) ++ b := by
            simpa using hpre
          exact List.isPrefixOf_iff_prefix.mpr
            ((prefix_append_iff_of_le (by simp; omega)).mp h3)
        simp only [List.cons_append, splitOnFirst, List.append_eq]
        rw [if_neg hnp2, ih hsp]

theorem split_none_append {pat b : Str} :
    ∀ a : Str, splitOnFirst pat a = none → NoStraddle pat a b →
      splitOnFirst pat (a ++ b) =
        (splitOnFirst pat b).map fun p => (a ++ p.1, p.2) := by
  intro a
  induction a with
  | nil =>
    intro _ _
    simp only [List.nil_append]
    rcases h : splitOnFirst pat b with _ | ⟨x, y⟩ <;> simp
  | cons c rest ih =>
    intro hnone hns
    by_cases hp : pat.isPrefixOf (c :: rest)
    · simp [splitOnFirst, hp] at hnone
    · simp only [splitOnFirst, hp, if_false] at hnone
      rcases hsp : splitOnFirst pat rest with _ | ⟨a', b'⟩ <;> rw [hsp] at hnone
      · have hnp2 : ¬ pat.isPrefixOf (c :: (rest ++ b)) := by
          intro hcon
          have hpre := List.isPrefixOf_iff_prefix.mp hcon
          rcases le_or_lt pat.length (c :: rest).length with hle | hlt
          · have h3 : pat <+: (c :: rest) := by
              apply (prefix_append_iff_of_le hle).mp
              simpa using hpre
            exact hp (List.isPrefixOf_iff_prefix.mpr h3)
          · have hk1 : 0 < (c :: rest).length := by simp
            have hpre2 : pat <+: (c :: rest) ++ b := by simpa using hpre
            have htk : pat.take (c :: rest).length = c :: rest := by
              have h1 := List.prefix_iff_eq_take.mp hpre2
              rw [List.take_append_eq_append_take] at h1
              rw [h1, List.take_append_eq_append_take]
              have e1 : ((c :: rest).take pat.length) = c :: rest := by
                apply List.take_of_length_le
                omega
              simp [e1]
            apply hns (c :: rest).length hk1 hlt
            constructor
            · rw [htk]
            · rcases hpre2 with ⟨t, ht⟩
              refine ⟨t, ?_⟩
              have hsplit : pat = (c :: rest) ++ pat.drop (c :: rest).length := by
                conv_lhs => rw [← List.take_append_drop (c :: rest).length pat]
                rw [htk]
              rw [hsplit] at ht
              simpa using ht
        simp only [List.cons_append, splitOnFirst, List.append_eq]
        rw [if_neg hnp2]
        have ihr := ih hsp (noStraddle_of_tail (List.suffix_cons c rest) hns)
        rw [ihr]
        rcases h : splitOnFirst pat b with _ | ⟨x, y⟩ <;> simp
      · simp at hnone

/-- Number of (leftmost, non-overlapping) occurrences of `pat`;
models a JavaScript global-regex match count. -/
def countOccur (pat : Str) (s : Str) : Nat :=
  if hp : pat = [] then 0
  else
    match h : splitOnFirst pat s with
    | none => 0
    | some x => 1 + countOccur pat x.2
termination_by s.length
decreasing_by
  exact splitOnFirst_snd_lt hp (by rw [h])

theorem countOccur_of_split_some {pat s a b : Str} (hpat : pat ≠ [])
    (h : splitOnFirst pat s = some (a, b)) :
    countOccur pat s = 1 + countOccur pat b := by
  rw [countOccur]
  rw [dif_neg hpat]
  split
  · rename_i heq
    rw [heq] at h
    simp at h
  · rename_i x' heq
    rw [heq] at h
    simp at h
    rw [h]

theorem countOccur_of_split_none {pat s : Str} (hpat : pat ≠ [])
    (h : splitOnFirst pat s = none) : countOccur pat s = 0 := by
  rw [countOccur]
  rw [dif_neg hpat]
  split
  · rfl
  · rename_i x' heq
    rw [heq] at h
    simp at h

theorem countOccur_zero_of_safe {pat s : Str} (hpat : pat ≠ []) (hs : SafePre pat s) :
    countOccur pat s = 0 :=
  countOccur_of_split_none hpat (split_none_of_safe hpat hs)

theorem countOccur_append_safe {pat a b : Str} (hpat : pat ≠ []) (ha : SafePre pat a) :
    countOccur pat (a ++ b) = countOccur pat b := by
  have hsp := split_append_safe ha b
  rcases h : splitOnFirst pat b with _ | ⟨x, y⟩ <;> rw [h] at hsp
  · simp at hsp
    rw [countOccur_of_split_none hpat hsp, countOccur_of_split_none hpat h]
  · simp at hsp
    rw [countOccur_of_split_some hpat hsp, countOccur_of_split_some hpat h]

theorem countOccur_append_aux {pat : Str} (hpat : pat ≠ []) :
    ∀ n, ∀ a b : Str, a.length ≤ n → NoStraddle pat a b →
      countOccur pat (a ++ b) = countOccur pat a + countOccur pat b := by
  intro n
  induction n with
  | zero =>
    intro a b hlen _
    have ha : a = [] := List.length_eq_zero.mp (Nat.le_zero.mp hlen)
    subst ha
    have h0 : countOccur pat [] = 0 :=
      countOccur_of_split_none hpat (by simp [splitOnFirst, List.isEmpty_iff, hpat])
    simp [h0]
  | succ n ih =>
    intro a b hlen hns
    rcases hsp : splitOnFirst pat a with _ | ⟨x, y⟩
    · rw [countOccur_of_split_none hpat hsp]
      have h2 := split_none_append a hsp hns
      rcases h : splitOnFirst pat b with _ | ⟨u, v⟩ <;> rw [h] at h2
      · simp at h2
        rw [countOccur_of_split_none hpat h2, countOccur_of_split_none hpat h]
      · simp at h2
        rw [countOccur_of_split_some hpat h2, countOccur_of_split_some hpat h]
        omega
    · have hleft := split_append_left (b := b) hsp
      rw [countOccur_of_split_some hpat hleft, countOccur_of_split_some hpat hsp]
      have hy : y <:+ a := by
        have hs := splitOnFirst_sound hsp
        exact ⟨x ++ pat, by rw [hs]⟩
      have hylen : y.length ≤ n := by
        have := splitOnFirst_snd_lt hpat hsp
        omega
      have hrec := ih y b hylen (noStraddle_of_tail hy hns)
      rw [hrec]
      omega

theorem countOccur_append_of_noStraddle {pat a b : Str} (hpat : pat ≠ [])
    (hns : NoStraddle pat a b) :
    countOccur pat (a ++ b) = countOccur pat a + countOccur pat b :=
  countOccur_append_aux hpat a.length a b le_rfl hns

theorem countOccur_at {pat a b : Str} (hpat : pat ≠ []) (ha : SafePre pat a) :
    countOccur pat (a ++ pat ++ b) = 1 + countOccur pat b := by
  have h := split_at (b := b) hpat ha
  rw [countOccur_of_split_some hpat h]

/-- Characters up to (excluding) the first occurrence of `c`;
models reading a DOM text node that ends at the next markup character. -/
def takeUntil (c : Char) (s : Str) : Str := s.takeWhile fun x => x != c

theorem takeUntil_nil (c : Char) : takeUntil c [] = [] := rfl

theorem takeUntil_cons (c x : Char) (s : Str) :
    takeUntil c (x :: s) = if x = c then [] else x :: takeUntil c s := by
  by_cases h : x = c <;> simp [takeUntil, List.takeWhile_cons, h]

theorem takeUntil_append {c : Char} {a b : Str} (ha : ∀ x ∈ a, x ≠ c)
    (hb : b.head? = some c) : takeUntil c (a ++ b) = a := by
  induction a with
  | nil =>
    rcases b with _ | ⟨d, ds⟩
    · simp at hb
    · simp at hb
      subst hb
      simp [takeUntil_cons]
  | cons x xs ih =>
    have hx : x ≠ c := ha x (by simp)
    rw [List.cons_append, takeUntil_cons, if_neg hx,
      ih fun y hy => ha y (by simp [hy])]

/-- The full set of characters stripped by JavaScript `String.prototype.trim`:
ECMAScript WhiteSpace (TAB, VT, FF, SP, NBSP, ZWNBSP and every Unicode
space separator Zs) together with the LineTerminators (LF, CR, LS, PS). -/
def isJsWS (c : Char) : Bool :=
  c = ' ' || c = '\t' || c = '\n' || c = '\r' || c = '\x0b' || c = '\x0c' ||
  c = '\u00A0' || c = '\u1680' || ('\u2000' ≤ c && c ≤ '\u200A') ||
  c = '\u2028' || c = '\u2029' || c = '\u202F' || c = '\u205F' ||
  c = '\u3000' || c = '\uFEFF'

def trimStr (s : Str) : Str :=
  ((s.dropWhile isJsWS).reverse.dropWhile isJsWS).reverse

theorem dropWhile_append_of_all {p : Char → Bool} {a b : Str}
    (ha : ∀ x ∈ a, p x) : (a ++ b).dropWhile p = b.dropWhile p := by
  induction a with
  | nil => simp
  | cons x xs ih =>
    have hx : p x := ha x (by simp)
    simp [List.dropWhile_cons, hx]
    exact ih fun y hy => ha y (by simp [hy])

theorem dropWhile_of_head_neg {p : Char → Bool} {s : Str} {c : Char}
    (hh : s.head? = some c) (hc : ¬ p c) : s.dropWhile p = s := by
  rcases s with _ | ⟨d, ds⟩
  · simp at hh
  · simp at hh
    subst hh
    simp [List.dropWhile_cons, hc]

theorem trimStr_sandwich {w1 p w2 : Str} (hw1 : ∀ x ∈ w1, isJsWS x)
    (hw2 : ∀ x ∈ w2, isJsWS x) (hne : p ≠ [])
    (hh : ∀ c, p.head? = some c → ¬ isJsWS c)
    (hl : ∀ c, p.getLast? = some c → ¬ isJsWS c) :
    trimStr (w1 ++ p ++ w2) = p := by
  unfold trimStr
  rw [List.append_assoc, dropWhile_append_of_all hw1]
  rcases hph : p.head? with _ | c
  · rcases p with _ | ⟨d, ds⟩
    · exact absurd rfl hne
    · simp at hph
  have hhead : (p ++ w2).head? = some c := by
    rcases p with _ | ⟨d, ds⟩
    · exact absurd rfl hne
    · simpa using hph
  rw [dropWhile_of_head_neg hhead (hh c hph)]
  rw [List.reverse_append, dropWhile_append_of_all (by simpa using hw2)]
  rcases hpl : p.getLast? with _ | d
  · rcases p with _ | ⟨e, es⟩
    · exact absurd rfl hne
    · simp [List.getLast?_eq_getLast] at hpl
  have hrh : p.reverse.head? = some d := by
    rw [List.head?_reverse]
    exact hpl
  rw [dropWhile_of_head_neg hrh (hl d hpl)]
  simp

/-- HTML escaping of `&`, `<`, `>` as performed by `esc` in editor.ts:
three successive global single-character replacements. -/
def replaceAllChar (c : Char) (r : Str) (s : Str) : Str :=
  s.flatMap fun x => if x = c then r else [x]

def esc (s : Str) : Str :=
  replaceAllChar '>' (str "&gt;")
    (replaceAllChar '<' (str "&lt;")
      (replaceAllChar '&' (str "&amp;") s))

def escChar (c : Char) : Str :=
  if c = '&' then str "&amp;"
  else if c = '<' then str "&lt;"
  else if c = '>' then str "&gt;"
  else [c]

theorem replaceAllChar_nil (c : Char) (r : Str) : replaceAllChar c r [] = [] := rfl

theorem replaceAllChar_cons (c : Char) (r : Str) (x : Char) (s : Str) :
    replaceAllChar c r (x :: s) =
      (if x = c then r else [x]) ++ replaceAllChar c r s := by
  simp [replaceAllChar]

theorem replaceAllChar_append (c : Char) (r : Str) (a b : Str) :
    replaceAllChar c r (a ++ b) = replaceAllChar c r a ++ replaceAllChar c r b := by
  simp [replaceAllChar]

theorem esc_nil : esc [] = [] := rfl

theorem esc_cons (x : Char) (s : Str) : esc (x :: s) = escChar x ++ esc s := by
  show replaceAllChar '>' (str "&gt;") (replaceAllChar '<' (str "&lt;")
    (replaceAllChar '&' (str "&amp;") (x :: s))) = _
  rw [replaceAllChar_cons '&', replaceAllChar_append, replaceAllChar_append]
  congr 1
  by_cases h1 : x = '&'
  · subst h1
    rfl
  · rw [if_neg h1]
    by_cases h2 : x = '<'
    · subst h2
      rfl
    · by_cases h3 : x = '>'
      · subst h3
        rfl
      · simp [replaceAllChar, h1, h2, h3, escChar]

theorem esc_append (a b : Str) : esc (a ++ b) = esc a ++ esc b := by
  simp [esc, replaceAllChar_append]

theorem escChar_no_lt (x : Char) : '<' ∉ escChar x := by
  unfold escChar
  by_cases h1 : x = '&'
  · simp [h1, str]
  · by_cases h2 : x = '<'
    · simp [h1, h2, str]
    · by_cases h3 : x = '>'
      · simp [h1, h2, h3, str]
      · simp [h1, h2, h3]
        exact fun h => h2 h.symm

theorem escChar_no_gt (x : Char) : '>' ∉ escChar x := by
  unfold escChar
  by_cases h1 : x = '&'
  · simp [h1, str]
  · by_cases h2 : x = '<'
    · simp [h1, h2, str]
    · by_cases h3 : x = '>'
      · simp [h1, h2, h3, str]
      · simp [h1, h2, h3]
        exact fun h => h3 h.symm

theorem esc_no_lt {s : Str} : '<' ∉ esc s := by
  induction s with
  | nil => simp [esc_nil]
  | cons x xs ih =>
    rw [esc_cons]
    intro hcon
    rcases List.mem_append.mp hcon with h | h
    · exact escChar_no_lt x h
    · exact ih h

theorem esc_no_gt {s : Str} : '>' ∉ esc s := by
  induction s with
  | nil => simp [esc_nil]
  | cons x xs ih =>
    rw [esc_cons]
    intro hcon
    rcases List.mem_append.mp hcon with h | h
    · exact escChar_no_gt x h
    · exact ih h

/-- Entity decoding, as a DOM text-node read would perform it, restricted to
the three entities the encoder emits. -/
def unescape : Str → Str
  | [] => []
  | c :: rest =>
    if c = '&' then
      if (str "amp;").isPrefixOf rest then '&' :: unescape (rest.drop 4)
      else if (str "lt;").isPrefixOf rest then '<' :: unescape (rest.drop 3)
      else if (str "gt;").isPrefixOf rest then '>' :: unescape (rest.drop 3)
      else '&' :: unescape rest
    else c :: unescape rest
termination_by s => s.length
decreasing_by
  all_goals simp [List.length_drop]
  all_goals omega

theorem unescape_nil : unescape [] = [] := by
  rw [unescape]

theorem unescape_cons_ne {c : Char} (rest : Str) (h : c ≠ '&') :
    unescape (c :: rest) = c :: unescape rest := by
  rw [unescape, if_neg h]

theorem unescape_amp (rest : Str) :
    unescape ('&' :: (str "amp;" ++ rest)) = '&' :: unescape rest := by
  rw [unescape, if_pos rfl,
    if_pos (List.isPrefixOf_iff_prefix.mpr ⟨rest, rfl⟩)]
  have h4 : List.drop 4 (str "amp;" ++ rest) = rest := rfl
  rw [h4]

theorem head_ne_not_isPrefixOf {a b : Str} {c d : Char} (ha : a.head? = some c)
    (hb : b.head? = some d) (hcd : c ≠ d) : ¬ a.isPrefixOf b := by
  intro hcon
  rcases List.isPrefixOf_iff_prefix.mp hcon with ⟨u, hu⟩
  rcases a with _ | ⟨a0, as⟩
  · simp at ha
  · rcases b with _ | ⟨b0, bs⟩
    · simp at hb
    · simp at ha hb hu
      exact hcd (by rw [← ha, ← hb, hu.1])

theorem unescape_lt (rest : Str) :
    unescape ('&' :: (str "lt;" ++ rest)) = '<' :: unescape rest := by
  rw [unescape, if_pos rfl,
    if_neg (head_ne_not_isPrefixOf (a := str "amp;") (b := str "lt;" ++ rest)
      rfl rfl (by decide)),
    if_pos (List.isPrefixOf_iff_prefix.mpr ⟨rest, rfl⟩)]
  have h3 : List.drop 3 (str "lt;" ++ rest) = rest := rfl
  rw [h3]

theorem unescape_gt (rest : Str) :
    unescape ('&' :: (str "gt;" ++ rest)) = '>' :: unescape rest := by
  rw [unescape, if_pos rfl,
    if_neg (head_ne_not_isPrefixOf (a := str "amp;") (b := str "gt;" ++ rest)
      rfl rfl (by decide)),
    if_neg (head_ne_not_isPrefixOf (a := str "lt;") (b := str "gt;" ++ rest)
      rfl rfl (by decide)),
    if_pos (List.isPrefixOf_iff_prefix.mpr ⟨rest, rfl⟩)]
  have h3 : List.drop 3 (str "gt;" ++ rest) = rest := rfl
  rw [h3]

theorem unescape_append_no_amp {a b : Str} (ha : '&' ∉ a) :
    unescape (a ++ b) = a ++ unescape b := by
  induction a with
  | nil => simp
  | cons x xs ih =>
    have hx : x ≠ '&' := by
      intro hcon
      exact ha (by simp [hcon])
    rw [List.cons_append, unescape_cons_ne _ hx, ih (fun hcon => ha (by simp [hcon]))]
    rfl

theorem unescape_esc_append (s t : Str) : unescape (esc s ++ t) = s ++ unescape t := by
  induction s with
  | nil => simp [esc_nil]
  | cons x xs ih =>
    rw [esc_cons, List.append_assoc]
    by_cases h1 : x = '&'
    · subst h1
      rw [show escChar '&' = '&' :: str "amp;" from rfl, List.cons_append, unescape_amp, ih]
      rfl
    · by_cases h2 : x = '<'
      · subst h2
        rw [show escChar '<' = '&' :: str "lt;" from rfl, List.cons_append, unescape_lt, ih]
        rfl
      · by_cases h3 : x = '>'
        · subst h3
          rw [show escChar '>' = '&' :: str "gt;" from rfl, List.cons_append,
            unescape_gt, ih]
          rfl
        · have hx : escChar x = [x] := by simp [escChar, h1, h2, h3]
          rw [hx, List.singleton_append, unescape_cons_ne _ h1, ih]
          rfl

theorem unescape_esc (s : Str) : unescape (esc s) = s := by
  have h := unescape_esc_append s []
  simpa [unescape_nil] using h

theorem unescape_of_no_amp {s : Str} (hs : '&' ∉ s) : unescape s = s := by
  have h := unescape_append_no_amp (b := []) hs
  simpa [unescape_nil] using h

/-- JavaScript `String.prototype.replace` with a plain-string pattern:
replaces only the first occurrence. -/
def replaceFirst (pat repl s : Str) : Str :=
  match splitOnFirst pat s with
  | none => s
  | some (a, b) => a ++ repl ++ b

theorem replaceFirst_at {pat repl a b : Str} (hpat : pat ≠ []) (ha : SafePre pat a) :
    replaceFirst pat repl (a ++ pat ++ b) = a ++ repl ++ b := by
  unfold replaceFirst
  rw [split_at hpat ha]

/-- All fragments tagged by `pat`: repeatedly finds `pat` and reads the
following text up to the next markup character, like a
`querySelectorAll(...).map(e => text)` over documents of the generated shape. -/
def collectAll (pat : Str) (s : Str) : List Str :=
  if hp : pat = [] then []
  else
    match h : splitOnFirst pat s with
    | none => []
    | some x => takeUntil '<' x.2 :: collectAll pat x.2
termination_by s.length
decreasing_by
  exact splitOnFirst_snd_lt hp (by rw [h])

theorem collectAll_of_split_none {pat s : Str} (hpat : pat ≠ [])
    (h : splitOnFirst pat s = none) : collectAll pat s = [] := by
  rw [collectAll, dif_neg hpat]
  split
  · rfl
  · rename_i x heq
    rw [heq] at h
    simp at h

theorem collectAll_of_safe {pat s : Str} (hpat : pat ≠ []) (hs : SafePre pat s) :
    collectAll pat s = [] :=
  collectAll_of_split_none hpat (split_none_of_safe hpat hs)

theorem collectAll_of_split_some {pat s a b : Str} (hpat : pat ≠ [])
    (h : splitOnFirst pat s = some (a, b)) :
    collectAll pat s = takeUntil '<' b :: collectAll pat b := by
  rw [collectAll, dif_neg hpat]
  split
  · rename_i heq
    rw [heq] at h
    simp at h
  · rename_i x heq
    rw [heq] at h
    simp at h
    rw [h]

theorem collectAll_at {pat a b : Str} (hpat : pat ≠ []) (ha : SafePre pat a) :
    collectAll pat (a ++ pat ++ b) = takeUntil '<' b :: collectAll pat b :=
  collectAll_of_split_some hpat (split_at hpat ha)

/-- Text between the first occurrence of `opn` and the first following
occurrence of `cls`; models reading the contents of the first element
matching a selector. -/
def between (opn cls s : Str) : Option Str :=
  match splitOnFirst opn s with
  | none => none
  | some (_, rest) =>
    match splitOnFirst cls rest with
    | none => none
    | some (mid, _) => some mid

theorem between_at {opn cls a mid b : Str} (ho : opn ≠ []) (hc : cls ≠ [])
    (ha : SafePre opn a) (hm : SafePre cls mid) :
    between opn cls (a ++ opn ++ (mid ++ cls ++ b)) = some mid := by
  unfold between
  rw [split_at ho ha]
  dsimp only
  rw [split_at hc hm]

theorem between_none {opn cls s : Str} (ho : opn ≠ []) (hs : SafePre opn s) :
    between opn cls s = none := by
  unfold between
  rw [split_none_of_safe ho hs]

/-- Splitting on runs of two-or-more newlines followed by dropping empty
pieces; models `content.split(/\n\n+/).filter(Boolean)` composed in
`generatePost`. -/
theorem length_dropWhile_le_self (p : Char → Bool) (l : Str) :
    (l.dropWhile p).length ≤ l.length := by
  induction l with
  | nil => simp
  | cons x xs ih =>
    rw [List.dropWhile_cons]
    by_cases h : p x <;> simp [h] <;> omega

def splitParasAux (acc : Str) : Str → List Str
  | [] => [acc.reverse]
  | c :: rest =>
    if c = '\n' ∧ rest.head? = some '\n' then
      acc.reverse :: splitParasAux [] (rest.dropWhile (· = '\n'))
    else splitParasAux (c :: acc) rest
termination_by s => s.length
decreasing_by
  · have := length_dropWhile_le_self (fun c => decide (c = '\n')) rest
    simp
    omega
  · simp

def splitParas (s : Str) : List Str :=
  (splitParasAux [] s).filter fun p => !p.isEmpty

/-- JavaScript `String.prototype.split` on a single-character separator. -/
def splitOnCharAux (c : Char) (acc : Str) : Str → List Str
  | [] => [acc.reverse]
  | x :: rest =>
    if x = c then acc.reverse :: splitOnCharAux c [] rest
    else splitOnCharAux c (x :: acc) rest

def splitOnChar (c : Char) (s : Str) : List Str := splitOnCharAux c [] s

/-- JavaScript `String.prototype.slice` index normalisation. -/
def jsNormIdx (len : Nat) (i : Int) : Nat :=
  if i < 0 then ((len : Int) + i).toNat else min i.toNat len

def jsSlice (s : Str) (a b : Int) : Str :=
  (s.take (jsNormIdx s.length b)).drop (jsNormIdx s.length a)

def jsSliceFrom (s : Str) (a : Int) : Str := s.drop (jsNormIdx s.length a)

/-- JavaScript `indexOf` with a start position; `-1` when absent. -/
def jsIndexOf (s pat : Str) (start : Nat := 0) : Int :=
  match splitOnFirst pat (s.drop start) with
  | some (a, _) => ((start + a.length : Nat) : Int)
  | none => -1

def matchesAt (pat s : Str) (i : Nat) : Bool := pat.isPrefixOf (s.drop i)

/-- JavaScript `lastIndexOf(pat, fromIndex)`: the greatest occurrence start
that is `≤ fromIndex`; `-1` when there is none. -/
def jsLastIndexOf (s pat : Str) (fromI : Nat) : Int :=
  match ((List.range (fromI + 1)).filter fun i => matchesAt pat s i).getLast? with
  | some i => (i : Int)
  | none => -1

/-- JavaScript unary `+` on the strings this code feeds it: empty/whitespace
gives 0, digit strings their value, anything else NaN (`none`). -/
def jsToNumber (s : Str) : Option Nat :=
  let t := trimStr s
  if t.isEmpty then some 0
  else if t.all Char.isDigit then
    some (t.foldl (fun n c => 10 * n + (c.toNat - '0'.toNat)) 0)
  else none

/-- `arr[i]` with JavaScript out-of-range semantics: `undefined`, which
stringifies to `"undefined"` when concatenated into a template. -/
def jsAt (l : List Str) (i : Nat) : Str := l.getD i (str "undefined")

def jsAtNum (l : List Str) (i : Option Nat) : Str :=
  match i with
  | some n => l.getD n (str "undefined")
  | none => str "undefined"

/-! ## editor.ts, translated -/

inductive PostType
  | spoken
  | written
deriving DecidableEq, Repr

def PostType.toStr : PostType → Str
  | .spoken => str "spoken"
  | .written => str "written"

structure Post where
  slug : Str
  date : Str
  type : PostType
  content : Str
  tags : List Str
  prevSlug : Option Str
  nextSlug : Option Str
deriving DecidableEq, Repr

structure FileEntry where
  path : Str
  content : Option Str
  delete : Bool
deriving DecidableEq, Repr

structure EditorSaveResult where
  slug : Str
  type : PostType
  content : Str
  desc : Str
  tags : List Str
deriving DecidableEq, Repr

def MONTHS : List Str :=
  [str "", str "january", str "february", str "march", str "april", str "may",
   str "june", str "july", str "august", str "september", str "october",
   str "november", str "december"]

/-- JavaScript truthiness of a nullable string: null and `""` are falsy. -/
def jsTruthy : Option Str → Bool
  | none => false
  | some s => !s.isEmpty

/-- Normalise a nullable string through JavaScript truthiness: the values
`null` and `""` behave identically in `if (x)` tests. -/
def jsTruthyOpt : Option Str → Option Str
  | none => none
  | some s => if s.isEmpty then none else some s

def isLowerAlnum (c : Char) : Bool := ('a' ≤ c && c ≤ 'z') || ('0' ≤ c && c ≤ '9')

/-- `replace(/[^a-z0-9]+/g, '-')`: each maximal run of non-alphanumeric
characters becomes a single hyphen. -/
def collapseNonAlnum : Str → Str
  | [] => []
  | c :: rest =>
    if isLowerAlnum c then c :: collapseNonAlnum rest
    else '-' :: collapseNonAlnum (rest.dropWhile fun x => !isLowerAlnum x)
termination_by s => s.length
decreasing_by
  all_goals have h1 := length_dropWhile_le_self (fun x => !isLowerAlnum x) rest
  all_goals simp
  all_goals omega

/-- `replace(/^-|-$/g, '')`: with the `g` flag and no `m` flag this removes
one hyphen at index 0 and one hyphen at the end. -/
def stripEdgeHyphens (s : Str) : Str :=
  let s1 := match s with
    | '-' :: t => t
    | t => t
  if s1.getLast? = some '-' then s1.dropLast else s1

/-- editor.ts `slugify` (lines 111-117): lower-case, collapse runs of
non-`[a-z0-9]` to single hyphens, strip edge hyphens, then `slice(0, 50)`.
`toLowerCase` is modelled by `Char.toLower` (ASCII mapping; adequate because
the following replacement only distinguishes `[a-z0-9]`). -/
def slugify (t : Str) : Str :=
  (stripEdgeHyphens (collapseNonAlnum (t.map Char.toLower))).take 50

/-- Nav anchors built from `prevSlug`/`nextSlug`; this block appears verbatim
in both `generatePost` (258-265) and `updatePostNav` (339-346). -/
def navLinks (prevSlug nextSlug : Option Str) : List Str :=
  (match prevSlug with
   | some p =>
     if !p.isEmpty then
       [str "    <a class=\"prev\" href=\"" ++ p ++ str ".html\">← " ++ p ++ str "</a>"]
     else []
   | none => []) ++
  [str "    <a class=\"back\" href=\"../index.html\">" ++
    (if jsTruthy prevSlug then str "" else str "← ") ++ str "~/log</a>"] ++
  (match nextSlug with
   | some n =>
     if !n.isEmpty then
       [str "    <a class=\"next\" href=\"" ++ n ++ str ".html\">" ++ n ++ str " →</a>"]
     else []
   | none => [])

/-- editor.ts `generatePost` (lines 234-304). -/
def generatePost (o : Post) : Str :=
  let paras :=
    List.intercalate (str "\n\n")
      ((splitParas o.content).map fun p =>
        str "      <p>\n        " ++
          replaceAllChar '\n' (str "\n        ") (esc (trimStr p)) ++
          str "\n      </p>")
  let body :=
    match o.type with
    | .spoken =>
        str "    <div class=\"spoken-transcript\">\n      <p class=\"spoken-label\">transcribed via spokenly · lightly edited</p>\n\n" ++
          paras ++ str "\n    </div>"
    | .written => paras
  let tags :=
    List.intercalate (str "\n")
      (o.tags.map fun t => str "      <span class=\"tag\">" ++ esc t ++ str "</span>")
  let nav := navLinks o.prevSlug o.nextSlug
  str "<!DOCTYPE html>\n<html lang=\"en\">\n<head>\n" ++
  str "  <meta charset=\"UTF-8\">\n  <meta name=\"viewport\" content=\"width=device-width, initial-scale=1.0\">\n" ++
  str "  <title>" ++ o.slug ++ str " — log</title>\n" ++
  str "  <link rel=\"stylesheet\" href=\"../assets/css/style.css\">\n</head>\n<body>\n" ++
  str "  <header>\n    <nav style=\"font-size: 0.8rem; color: var(--fg-dim);\">\n" ++
  str "      <a href=\"../index.html\">~/log</a> / " ++ o.slug ++ str "\n    </nav>\n  </header>\n\n" ++
  str "  <main class=\"post-content\">\n" ++
  str "    <div class=\"post-meta\">\n      <time datetime=\"" ++ o.date ++ str "\">" ++
    o.date ++ str "</time>\n" ++
  str "      <span class=\"post-type " ++ o.type.toStr ++ str "\">" ++ o.type.toStr ++
    str "</span>\n    </div>\n" ++
  str "    <h1>" ++ o.slug ++ str "</h1>\n\n" ++
  body ++ str "\n\n" ++
  str "    <div class=\"post-tags\">\n" ++ tags ++ str "\n    </div>\n  </main>\n\n" ++
  str "  <nav class=\"post-nav\">\n" ++ List.intercalate (str "\n") nav ++
    str "\n  </nav>\n\n" ++
  str "  <footer>\n    <p class=\"vim-hint\">← → between posts · backspace ~/log · e edit</p>\n" ++
  str "    <p class=\"footer-eof\">EOF</p>\n  </footer>\n\n" ++
  str "  <script src=\"../assets/js/main.js\"></script>\n</body>\n</html>\n"

def transcriptOpen : Str := str "<div class=\"spoken-transcript\">"
def mainOpen : Str := str "<main class=\"post-content\">"
def navOpenTag : Str := str "<nav class=\"post-nav\">"
def pOpen : Str := str "<p>"
def tagOpen : Str := str "<span class=\"tag\">"
def typeOpen : Str := str "<span class=\"post-type "
def timeOpen : Str := str "<time datetime=\""
def h1Open : Str := str "<h1>"
def prevOpen : Str := str "<a class=\"prev\" href=\""
def nextOpen : Str := str "<a class=\"next\" href=\""

/-- An extracted text node: entity-decode, then trim, matching the
`textContent?.trim()` reads in `parsePost`. -/
def textOf (s : Str) : Str := trimStr (unescape s)

/-- editor.ts `parsePost` (lines 306-333).  The `DOMParser` queries are
modelled as string scans, valid for documents of the shape `generatePost`
emits (including such documents whose nav block was re-written by
`updatePostNav`): `querySelector('h1')` reads the text after the unique
`<h1>`; `querySelector('time')` reads the `datetime` attribute of the unique
`time` element; `querySelector('.post-type')` tests the class list of the
unique `post-type` span; the transcript / `:scope > p` paragraph collections
and `.tag` collection scan for the literal markers; `.post-nav .prev` /
`.next` read `href` attributes inside the nav element, stripping the first
`".html"`. -/
def parsePost (html : Str) : Post :=
  let content :=
    match between transcriptOpen (str "</div>") html with
    | some region =>
        List.intercalate (str "\n\n") ((collectAll pOpen region).map textOf)
    | none =>
        match between mainOpen (str "</main>") html with
        | some region =>
            List.intercalate (str "\n\n") ((collectAll pOpen region).map textOf)
        | none => []
  let ty : PostType :=
    match splitOnFirst typeOpen html with
    | some (_, rest) =>
        if (splitOnChar ' ' (takeUntil '"' rest)).contains (str "spoken") then .spoken
        else .written
    | none => .written
  let slug :=
    match splitOnFirst h1Open html with
    | some (_, rest) => unescape (takeUntil '<' rest)
    | none => []
  let date :=
    match splitOnFirst timeOpen html with
    | some (_, rest) => unescape (takeUntil '"' rest)
    | none => []
  let tags := (collectAll tagOpen html).map textOf
  let navRegion := between navOpenTag (str "</nav>") html
  let prevSlug :=
    match navRegion with
    | none => none
    | some r =>
      match splitOnFirst prevOpen r with
      | some (_, rest) =>
          some (replaceFirst (str ".html") [] (unescape (takeUntil '"' rest)))
      | none => none
  let nextSlug :=
    match navRegion with
    | none => none
    | some r =>
      match splitOnFirst nextOpen r with
      | some (_, rest) =>
          some (replaceFirst (str ".html") [] (unescape (takeUntil '"' rest)))
      | none => none
  { slug := slug, date := date, type := ty, content := content, tags := tags,
    prevSlug := prevSlug, nextSlug := nextSlug }

/-- editor.ts `updatePostNav` (lines 335-354): replace the nav block.
`s = indexOf('<nav class="post-nav">')`, `e = indexOf('</nav>', s) + 6`; the
text in `[s, e)` is replaced.  `'</nav>'` cannot start inside the opening
tag, so searching from `s` equals searching the text after the opening tag.
When `'</nav>'` is missing, `e = -1 + 6 = 5` and the source keeps
`html.slice(5)`; when the opening tag is missing the function returns
`html` unchanged (the source computes `e` first but returns before use). -/
def updatePostNav (html : Str) (prevSlug nextSlug : Option Str) : Str :=
  match splitOnFirst navOpenTag html with
  | none => html
  | some (before, rest) =>
    let repl := str "  <nav class=\"post-nav\">\n" ++
      List.intercalate (str "\n") (navLinks prevSlug nextSlug) ++ str "\n  </nav>"
    match splitOnFirst (str "</nav>") rest with
    | some (_, after) => before ++ repl ++ after
    | none => before ++ repl ++ html.drop 5

def rowMarker : Str := str "<!-- post-row -->"
def rowEndMarker : Str := str "<!-- /post-row -->"
def countPre : Str := str "<p class=\"ls-count\">"

/-- First match of the regex `/<p class="ls-count">[^<]*<\/p>/`: at each
occurrence of the literal opening, `[^<]*` reaches exactly to the next `<`,
which must start `</p>`; otherwise the engine advances to the next
occurrence of the opening. -/
def findCountPara (s : Str) : Option (Str × Str × Str) :=
  match h : splitOnFirst countPre s with
  | none => none
  | some x =>
    let cur := takeUntil '<' x.2
    if (str "</p>").isPrefixOf (x.2.drop cur.length) then
      some (x.1, cur, (x.2.drop cur.length).drop 4)
    else
      match findCountPara x.2 with
      | none => none
      | some (a2, c2, b2) => some (x.1 ++ countPre ++ a2, c2, b2)
termination_by s.length
decreasing_by
  exact @splitOnFirst_snd_lt countPre s x.1 x.2 (by decide) (by rw [h])

/-- Decimal digits of `n`, modelling the `${n}` template interpolation. -/
def natDigits (n : Nat) : Str :=
  if n < 10 then [Char.ofNat (48 + n)]
  else natDigits (n / 10) ++ [Char.ofNat (48 + n % 10)]
termination_by n
decreasing_by exact Nat.div_lt_self (by omega) (by decide)

def renderCount (n : Nat) : Str :=
  if n = 1 then str "1 entry" else natDigits n ++ str " entries"

/-- editor.ts `updateCount` (lines 437-444): count `<!-- post-row -->`
markers, then rewrite the first `<p class="ls-count">…</p>`. -/
def updateCount (html : Str) : Str :=
  let n := countOccur rowMarker html
  match findCountPara html with
  | none => html
  | some (a, _, b) => a ++ countPre ++ renderCount n ++ str "</p>" ++ b

/-- `while (s > 0 && html[s-1] === ' ') s--`. -/
def backOverSpaces (html : Str) : Nat → Nat
  | 0 => 0
  | n + 1 => if html.getD n '\x00' = ' ' then backOverSpaces html n else n + 1

/-- editor.ts `removeFromIndex` (lines 426-435). -/
def removeFromIndex (html : Str) (slug : Str) : Str :=
  let marker := str "posts/" ++ slug ++ str ".html"
  let pos := jsIndexOf html marker
  if pos = -1 then html
  else
    let posN := pos.toNat
    let s0 := jsLastIndexOf html rowMarker posN
    let e := jsIndexOf html rowEndMarker posN + 18
    let s1 : Int := if s0 ≤ 0 then s0 else (backOverSpaces html s0.toNat : Int)
    let s2 : Int :=
      if s1 > 0 ∧ html.getD (s1.toNat - 1) '\x00' = '\n' then s1 - 1 else s1
    updateCount (jsSlice html 0 s2 ++ jsSliceFrom html e)

/-- editor.ts `addToIndex` (lines 357-424). -/
def addToIndex (html0 : Str) (date : Str) (ty : PostType) (slug desc : Str) : Str :=
  let parts := splitOnChar '-' date
  let day := jsAt parts 2
  let ts := match ty with | .spoken => str "spkn" | .written => str "writ"
  let month := jsAtNum MONTHS (jsToNumber (jsAt parts 1))
  let year := jsAt parts 0
  let row :=
    str "          <!-- post-row -->\n          <tr class=\"" ++ ty.toStr ++
    str "\">\n            <td class=\"ls-date\" data-date=\"" ++ date ++ str "\">" ++
    day ++ str "</td>\n            <td class=\"ls-type " ++ ty.toStr ++ str "\">" ++
    ts ++ str "</td>\n            <td><a href=\"posts/" ++ slug ++ str ".html\">" ++
    slug ++ str "</a> <span class=\"ls-desc\">— " ++ esc desc ++
    str "</span></td>\n          </tr>\n          <!-- /post-row -->"
  let hasYear :=
    jsIndexOf html0 (str "ls-group-year\"><td colspan=\"3\">" ++ year ++ str "<") > -1
  let hasMonth :=
    jsIndexOf html0 (str "ls-group-month\"><td colspan=\"3\">" ++ month ++ str "<") > -1
  let html1 :=
    if hasMonth then
      let tag := str "ls-group-month\"><td colspan=\"3\">" ++ month ++ str "</td></tr>"
      let pos := jsIndexOf html0 tag + tag.length
      jsSlice html0 0 pos ++ str "\n" ++ row ++ jsSliceFrom html0 pos
    else if hasYear then
      let tag := str "ls-group-year\"><td colspan=\"3\">" ++ year ++ str "</td></tr>"
      let pos := jsIndexOf html0 tag + tag.length
      jsSlice html0 0 pos ++
        str "\n          <tr class=\"ls-group-month\"><td colspan=\"3\">" ++ month ++
        str "</td></tr>\n" ++ row ++ jsSliceFrom html0 pos
    else
      let pos := jsIndexOf html0 (str "<tbody>") + 7
      jsSlice html0 0 pos ++
        str "\n          <tr class=\"ls-group-year\"><td colspan=\"3\">" ++ year ++
        str "</td></tr>\n          <tr class=\"ls-group-month\"><td colspan=\"3\">" ++
        month ++ str "</td></tr>\n" ++ row ++ jsSliceFrom html0 pos
  updateCount html1

/-- The regex scan `/posts\/([^.]+)\.html/`: first position where `posts/`
is followed by a non-empty dot-free run and then `.html`. -/
def findPostLink : Str → Option Str
  | [] => none
  | c :: rest =>
    if (str "posts/").isPrefixOf (c :: rest) then
      let after := (c :: rest).drop 6
      let cap := takeUntil '.' after
      if !cap.isEmpty && (str ".html").isPrefixOf (after.drop cap.length) then some cap
      else findPostLink rest
    else findPostLink rest

/-- editor.ts `getNewestSlug` (lines 446-452). -/
def getNewestSlug (html : Str) : Option Str :=
  match splitOnFirst rowMarker html with
  | none => none
  | some (a, _) =>
    let chunk := jsSlice html (a.length : Int) ((a.length : Int) + 500)
    findPostLink chunk

/-- editor.ts `newEntry` onSave (lines 695-731): the changeset built for a
create.  `idx` is the fetched `index.html` content, `date` the result of
`today()` (ambient wall-clock, passed as an argument), and `fetchPost` gives
the fetched content of `posts/<slug>.html` for the current head post. -/
def newEntryFiles (idx : Str) (date : Str) (r : EditorSaveResult)
    (fetchPost : Str → Str) : List FileEntry :=
  let newest := getNewestSlug idx
  let postHtml := generatePost
    { slug := r.slug, date := date, type := r.type, content := r.content,
      tags := r.tags, prevSlug := none, nextSlug := newest }
  let newIndex := addToIndex idx date r.type r.slug r.desc
  let files : List FileEntry :=
    [⟨str "posts/" ++ r.slug ++ str ".html", some postHtml, false⟩,
     ⟨str "index.html", some newIndex, false⟩]
  match newest with
  | none => files
  | some h =>
    let f := fetchPost h
    files ++ [⟨str "posts/" ++ h ++ str ".html",
      some (updatePostNav f (some r.slug) (parsePost f).nextSlug), false⟩]

/-- editor.ts `editEntry` onSave (lines 733-765): the changeset built for an
edit of `slug`, given the fetched post document and index. -/
def editEntryFiles (slug : Str) (postFileContent idx : Str)
    (r : EditorSaveResult) : List FileEntry :=
  let post := parsePost postFileContent
  let postHtml := generatePost
    { slug := slug, date := post.date, type := r.type, content := r.content,
      tags := r.tags, prevSlug := post.prevSlug, nextSlug := post.nextSlug }
  let newIndex := addToIndex (removeFromIndex idx slug) post.date r.type slug r.desc
  [⟨str "posts/" ++ slug ++ str ".html", some postHtml, false⟩,
   ⟨str "index.html", some newIndex, false⟩]

/-- editor.ts `deleteEntry` onConfirm (lines 767-804): the changeset built
for a delete.  In the source the two neighbour patches are pushed by
concurrently resolved promises; membership, not order, is what the claims
state, and the model fixes the prev-then-next order. -/
def deleteEntryFiles (slug : Str) (idx : Str) (fetchPost : Str → Str) :
    List FileEntry :=
  let post := parsePost (fetchPost slug)
  let newIndex := removeFromIndex idx slug
  let base : List FileEntry :=
    [⟨str "posts/" ++ slug ++ str ".html", none, true⟩,
     ⟨str "index.html", some newIndex, false⟩]
  let pPatch : List FileEntry :=
    match post.prevSlug with
    | some p =>
      if !p.isEmpty then
        let f := fetchPost p
        [⟨str "posts/" ++ p ++ str ".html",
          some (updatePostNav f (parsePost f).prevSlug post.nextSlug), false⟩]
      else []
    | none => []
  let nPatch : List FileEntry :=
    match post.nextSlug with
    | some nx =>
      if !nx.isEmpty then
        let f := fetchPost nx
        [⟨str "posts/" ++ nx ++ str ".html",
          some (updatePostNav f post.prevSlug (parsePost f).nextSlug), false⟩]
      else []
    | none => []
  base ++ pPatch ++ nPatch

/-- editor.ts `gh` failure message (line 187): `r.status + ': ' + t`. -/
def ghErrorMsg (status : Nat) (body : Str) : Str :=
  (Nat.repr status).data ++ str ": " ++ body

/-- editor.ts `execCmd` onSave rejection handler (lines 563-569): the status
line shows the error; when the message contains "401" or "403" the stored
token is removed and the status overwritten. -/
def saveRejection (msg : Str) (token : Option Str) : Option Str × Str :=
  if jsIndexOf msg (str "401") > -1 ∨ jsIndexOf msg (str "403") > -1 then
    (none, str "bad token — cleared. reload and try again.")
  else (token, str "error: " ++ msg)

/-- editor.ts `showDeleteConfirm` onConfirm rejection handler (lines
677-680): only the message is shown; the stored token is left untouched. -/
def deleteRejection (msg : Str) (token : Option Str) : Option Str × Str :=
  (token, str "error: " ++ msg)

structure AppState where
  token : Option Str
  remote : List (Str × Str)
  status : Str
deriving DecidableEq, Repr

/-- Modelled from the spec: the host-side effect of `commitAll` (spec §4.1,
editor.ts `multiCommit` drives the host's five-step protocol, which is
network I/O and absent from the local code): apply every entry of the
changeset to the branch contents. -/
def applyChangeset (remote : List (Str × Str)) (files : List FileEntry) :
    List (Str × Str) :=
  files.foldl
    (fun acc f =>
      if f.delete then acc.filter fun e => e.1 ≠ f.path
      else (acc.filter fun e => e.1 ≠ f.path) ++ [(f.path, f.content.getD [])])
    remote

inductive CommitOutcome
  | ok
  | failed (status : Nat) (body : Str)
deriving DecidableEq

inductive OpKind
  | create
  | edit
  | delete
deriving DecidableEq, Repr

/-- One workflow attempt, from the commit call to settlement: on success the
changeset is committed (spec §4.1: all-or-nothing); on failure the host
leaves the store as it was and the matching rejection handler of editor.ts
runs (563-569 for the save overlay, 677-680 for the delete overlay). -/
def runOp (k : OpKind) (st : AppState) (files : List FileEntry)
    (outcome : CommitOutcome) : AppState :=
  match outcome with
  | .ok => { st with remote := applyChangeset st.remote files }
  | .failed code body =>
    let msg := ghErrorMsg code body
    match k with
    | .create | .edit =>
        let p := saveRejection msg st.token
        { st with token := p.1, status := p.2 }
    | .delete =>
        let p := deleteRejection msg st.token
        { st with token := p.1, status := p.2 }

/-- Slugs of the index's post-link anchors in document order (reads every
`<a href="posts/X.html">` target), used to state row order. -/
def rowSlugsAux (s : Str) : List Str :=
  match h : splitOnFirst (str "<a href=\"posts/") s with
  | none => []
  | some x => takeUntil '.' x.2 :: rowSlugsAux x.2
termination_by s.length
decreasing_by
  exact @splitOnFirst_snd_lt (str "<a href=\"posts/") s x.1 x.2 (by decide)
    (by rw [h])

def rowSlugs (html : Str) : List Str := rowSlugsAux html

/-- Follow `nextSlug` links through a finite collection of posts. -/
def walkFrom (posts : List Post) : Nat → Post → List Str
  | 0, p => [p.slug]
  | n + 1, p =>
    p.slug ::
      (match p.nextSlug with
       | none => []
       | some nx =>
         match posts.find? (fun q => q.slug = nx) with
         | none => []
         | some q => walkFrom posts n q)

/-- The chronology walk: start from the post whose `prevSlug` is null and
follow `nextSlug` links (spec §3, §8). -/
def chronWalk (posts : List Post) : List Str :=
  match posts.find? (fun p => p.prevSlug = none) with
  | none => []
  | some h => walkFrom posts posts.length h

/-! ## Validity predicates for posts -/

/-- A character a slug may contain: lowercase letter, digit, or hyphen. -/
def slugChar (c : Char) : Prop := ('a' ≤ c ∧ c ≤ 'z') ∨ ('0' ≤ c ∧ c ≤ '9') ∨ c = '-'

/-- A character of a `YYYY-MM-DD` date: digit or hyphen. -/
def dateChar (c : Char) : Prop := c.isDigit = true ∨ c = '-'

def slugOk (s : Str) : Prop := ∀ c ∈ s, slugChar c

def dateOk (d : Str) : Prop := ∀ c ∈ d, dateChar c

/-- A content paragraph that survives the codec: non-empty, no newline,
and not starting or ending in whitespace. -/
def paraOk (p : Str) : Prop :=
  p ≠ [] ∧ '\n' ∉ p ∧ (∀ c, p.head? = some c → ¬ isJsWS c = true) ∧
    (∀ c, p.getLast? = some c → ¬ isJsWS c = true)

/-- A tag that survives the codec: not starting or ending in whitespace. -/
def tagOk (t : Str) : Prop :=
  (∀ c, t.head? = some c → ¬ isJsWS c = true) ∧
    (∀ c, t.getLast? = some c → ¬ isJsWS c = true)

def navOk : Option Str → Prop
  | none => True
  | some s => slugOk s

theorem slugChar_ne {c : Char} (h : slugChar c) :
    c ≠ '<' ∧ c ≠ '>' ∧ c ≠ '&' ∧ c ≠ '"' ∧ c ≠ '.' ∧ c ≠ '\n' := by
  rcases h with ⟨h1, h2⟩ | ⟨h1, h2⟩ | h1
  · refine ⟨?_, ?_, ?_, ?_, ?_, ?_⟩ <;> (intro hc; subst hc; revert h1 h2; decide)
  · refine ⟨?_, ?_, ?_, ?_, ?_, ?_⟩ <;> (intro hc; subst hc; revert h1 h2; decide)
  · subst h1
    refine ⟨by decide, by decide, by decide, by decide, by decide, by decide⟩

theorem dateChar_ne {c : Char} (h : dateChar c) :
    c ≠ '<' ∧ c ≠ '>' ∧ c ≠ '&' ∧ c ≠ '"' := by
  rcases h with h1 | h1
  · refine ⟨?_, ?_, ?_, ?_⟩ <;> (intro hc; subst hc; revert h1; decide)
  · subst h1
    refine ⟨by decide, by decide, by decide, by decide⟩

theorem slugOk_no_lt {s : Str} (h : slugOk s) : ∀ c ∈ s, c ≠ '<' :=
  fun c hc => (slugChar_ne (h c hc)).1

theorem slugOk_no_amp {s : Str} (h : slugOk s) : '&' ∉ s := by
  intro hc
  exact (slugChar_ne (h '&' hc)).2.2.1 rfl

theorem dateOk_no_lt {d : Str} (h : dateOk d) : ∀ c ∈ d, c ≠ '<' :=
  fun c hc => (dateChar_ne (h c hc)).1

theorem dateOk_no_amp {d : Str} (h : dateOk d) : '&' ∉ d := by
  intro hc
  exact (dateChar_ne (h '&' hc)).2.2.1 rfl

/-! ## Text-node round-trip lemmas -/

theorem trimStr_eq_self {p : Str}
    (hh : ∀ c, p.head? = some c → ¬ isJsWS c = true)
    (hl : ∀ c, p.getLast? = some c → ¬ isJsWS c = true) : trimStr p = p := by
  rcases p with _ | ⟨c, cs⟩
  · rfl
  · have h := @trimStr_sandwich [] (c :: cs) []
      (by simp) (by simp) (by simp) hh hl
    simpa using h

theorem esc_no_nl {p : Str} (h : '\n' ∉ p) : '\n' ∉ esc p := by
  induction p with
  | nil => simp [esc_nil]
  | cons x xs ih =>
    rw [esc_cons]
    intro hcon
    rcases List.mem_append.mp hcon with hm | hm
    · unfold escChar at hm
      by_cases h1 : x = '&'
      · simp [h1, str] at hm
      · by_cases h2 : x = '<'
        · simp [h1, h2, str] at hm
        · by_cases h3 : x = '>'
          · simp [h1, h2, h3, str] at hm
          · simp [h1, h2, h3] at hm
            exact h (by simp [← hm])
    · exact ih (fun hc => h (by simp [hc])) hm

theorem replaceAllChar_id {c : Char} {r s : Str} (h : c ∉ s) :
    replaceAllChar c r s = s := by
  induction s with
  | nil => rfl
  | cons x xs ih =>
    rw [replaceAllChar_cons, if_neg (by intro hc; exact h (by simp [hc]))]
    rw [ih (fun hc => h (by simp [hc]))]
    rfl

/-- Under `paraOk`, a rendered paragraph is the plain escaped text between
the fixed markup. -/
def paraPre : Str := str "      <p>\n        "
def paraInner (p : Str) : Str := str "\n        " ++ esc p ++ str "\n      "
def paraEnd : Str := str "</p>"

theorem renderPara_eq {p : Str} (hp : paraOk p) :
    str "      <p>\n        " ++
        replaceAllChar '\n' (str "\n        ") (esc (trimStr p)) ++
        str "\n      </p>" =
      (str "      " ++ pOpen) ++ (paraInner p ++ paraEnd) := by
  obtain ⟨hne, hnl, hh, hl⟩ := hp
  rw [trimStr_eq_self hh hl, replaceAllChar_id (esc_no_nl hnl)]
  simp [paraInner, paraEnd, pOpen, str]

theorem textOf_paraInner {p : Str} (hp : paraOk p) : textOf (paraInner p) = p := by
  obtain ⟨hne, hnl, hh, hl⟩ := hp
  unfold textOf paraInner
  rw [List.append_assoc, unescape_append_no_amp (a := str "\n        ") (by decide),
    unescape_esc_append p (str "\n      "),
    unescape_of_no_amp (s := str "\n      ") (by decide), ← List.append_assoc]
  exact trimStr_sandwich (by decide) (by decide) hne hh hl

theorem textOf_escTag {t : Str} (ht : tagOk t) : textOf (esc t) = t := by
  unfold textOf
  rw [unescape_esc]
  exact trimStr_eq_self ht.1 ht.2

/-! ## Intercalate and collection lemmas -/

theorem intercalate_nil (sep : Str) : List.intercalate sep ([] : List Str) = [] := by
  simp [List.intercalate]

theorem intercalate_single (sep x : Str) : List.intercalate sep [x] = x := by
  simp [List.intercalate]

theorem intercalate_cons₂ (sep x y : Str) (l : List Str) :
    List.intercalate sep (x :: y :: l) = x ++ sep ++ List.intercalate sep (y :: l) := by
  simp [List.intercalate, List.intersperse]

theorem collectAll_append_safe {pat a b : Str} (hpat : pat ≠ []) (ha : SafePre pat a) :
    collectAll pat (a ++ b) = collectAll pat b := by
  have hsp := split_append_safe ha b
  rcases h : splitOnFirst pat b with _ | ⟨x, y⟩ <;> rw [h] at hsp
  · simp at hsp
    rw [collectAll_of_split_none hpat hsp, collectAll_of_split_none hpat h]
  · simp at hsp
    rw [collectAll_of_split_some hpat hsp, collectAll_of_split_some hpat h]

/-- The paragraph block as `generatePost` renders it. -/
def parasBlock (paras : List Str) : Str :=
  List.intercalate (str "\n\n")
    (paras.map fun p =>
      str "      <p>\n        " ++
        replaceAllChar '\n' (str "\n        ") (esc (trimStr p)) ++
        str "\n      </p>")

theorem pOpen_ne : pOpen ≠ [] := by decide

theorem safePre_pOpen_of_no_lt {s : Str} (h : ∀ c ∈ s, c ≠ '<') : SafePre pOpen s :=
  safePre_head (c := '<') rfl h

theorem paraInner_no_lt (p : Str) : ∀ x ∈ paraInner p, x ≠ '<' := by
  intro x hx
  unfold paraInner at hx
  rw [List.append_assoc] at hx
  rcases List.mem_append.mp hx with h | h
  · intro hc
    subst hc
    revert h
    decide
  · rcases List.mem_append.mp h with h2 | h2
    · exact fun hc => esc_no_lt (hc ▸ h2)
    · intro hc
      subst hc
      revert h2
      decide

theorem safePre_paraInner (p : Str) : SafePre pOpen (paraInner p) :=
  safePre_pOpen_of_no_lt (paraInner_no_lt p)

theorem takeUntil_paraInner (p : Str) (x : Str) :
    takeUntil '<' (paraInner p ++ (paraEnd ++ x)) = paraInner p :=
  takeUntil_append (paraInner_no_lt p) rfl

theorem collect_parasBlock (tail : Str) (htail : SafePre pOpen tail) :
    ∀ paras : List Str, (∀ p ∈ paras, paraOk p) →
      (collectAll pOpen (parasBlock paras ++ tail)).map textOf = paras := by
  intro paras
  induction paras with
  | nil =>
    intro _
    rw [show parasBlock [] = [] from intercalate_nil _]
    rw [List.nil_append, collectAll_of_safe pOpen_ne htail]
    rfl
  | cons p rest ih =>
    intro hok
    have hp : paraOk p := hok p (by simp)
    rcases rest with _ | ⟨r, rs⟩
    · have he : parasBlock [p] ++ tail =
          str "      " ++ pOpen ++ (paraInner p ++ (paraEnd ++ tail)) := by
        unfold parasBlock
        rw [List.map_singleton, intercalate_single, renderPara_eq hp]
        simp [List.append_assoc]
      rw [he, collectAll_at pOpen_ne (safePre_of_cleanStarts (by decide)),
        takeUntil_paraInner]
      have hrest : collectAll pOpen (paraInner p ++ (paraEnd ++ tail)) = [] := by
        apply collectAll_of_safe pOpen_ne
        exact safePre_append (safePre_paraInner p)
          (safePre_append (safePre_of_cleanStarts (by decide)) htail)
      rw [hrest]
      simp [textOf_paraInner hp]
    · have he : parasBlock (p :: r :: rs) ++ tail =
          str "      " ++ pOpen ++
            (paraInner p ++ (paraEnd ++ (str "\n\n" ++ (parasBlock (r :: rs) ++ tail)))) := by
        unfold parasBlock
        rw [List.map_cons, List.map_cons, intercalate_cons₂, renderPara_eq hp]
        simp [List.append_assoc]
      rw [he, collectAll_at pOpen_ne (safePre_of_cleanStarts (by decide))]
      have ht2 : takeUntil '<'
          (paraInner p ++ (paraEnd ++ (str "\n\n" ++ (parasBlock (r :: rs) ++ tail)))) =
          paraInner p := takeUntil_paraInner p _
      rw [ht2]
      have hskip : collectAll pOpen
          (paraInner p ++ (paraEnd ++ (str "\n\n" ++ (parasBlock (r :: rs) ++ tail)))) =
          collectAll pOpen (parasBlock (r :: rs) ++ tail) := by
        rw [show paraInner p ++ (paraEnd ++ (str "\n\n" ++ (parasBlock (r :: rs) ++ tail))) =
            (paraInner p ++ (paraEnd ++ str "\n\n")) ++ (parasBlock (r :: rs) ++ tail) by
          simp [List.append_assoc]]
        apply collectAll_append_safe pOpen_ne
        exact safePre_append (safePre_paraInner p) (safePre_of_cleanStarts (by decide))
      rw [hskip]
      rw [List.map_cons, textOf_paraInner hp, ih (fun q hq => hok q (by simp [hq]))]

/-! ## splitParas round-trip -/

theorem splitParasAux_nil (acc : Str) : splitParasAux acc [] = [acc.reverse] := by
  rw [splitParasAux]

theorem splitParasAux_cons_sep {acc rest : Str} (h : rest.head? = some '\n') :
    splitParasAux acc ('\n' :: rest) =
      acc.reverse :: splitParasAux [] (rest.dropWhile (· = '\n')) := by
  rw [splitParasAux, if_pos ⟨rfl, h⟩]

theorem splitParasAux_cons_keep {acc : Str} {c : Char} {rest : Str}
    (h : ¬ (c = '\n' ∧ rest.head? = some '\n')) :
    splitParasAux acc (c :: rest) = splitParasAux (c :: acc) rest := by
  rw [splitParasAux, if_neg h]

theorem splitParasAux_no_nl {p : Str} (hnl : '\n' ∉ p) :
    ∀ acc, splitParasAux acc p = [acc.reverse ++ p] := by
  induction p with
  | nil =>
    intro acc
    rw [splitParasAux_nil]
    simp
  | cons c cs ih =>
    intro acc
    have hc : c ≠ '\n' := fun h => hnl (by simp [h])
    rw [splitParasAux_cons_keep (by intro hcon; exact hc hcon.1)]
    rw [ih (fun h => hnl (by simp [h])) (c :: acc)]
    simp

theorem splitParasAux_prefix {p : Str} (hnl : '\n' ∉ p) :
    ∀ acc s, splitParasAux acc (p ++ s) = splitParasAux (p.reverse ++ acc) s := by
  induction p with
  | nil => intro acc s; simp
  | cons c cs ih =>
    intro acc s
    have hc : c ≠ '\n' := fun h => hnl (by simp [h])
    rw [List.cons_append, splitParasAux_cons_keep (by intro hcon; exact hc hcon.1)]
    rw [ih (fun h => hnl (by simp [h])) (c :: acc) s]
    simp

theorem splitParasAux_intercalate :
    ∀ paras : List Str, paras ≠ [] → (∀ p ∈ paras, p ≠ [] ∧ '\n' ∉ p) →
      splitParasAux [] (List.intercalate (str "\n\n") paras) = paras := by
  intro paras
  induction paras with
  | nil => intro h; exact absurd rfl h
  | cons p rest ih =>
    intro _ hok
    obtain ⟨hpne, hpnl⟩ := hok p (by simp)
    rcases rest with _ | ⟨q, qs⟩
    · rw [intercalate_single]
      rw [splitParasAux_no_nl hpnl []]
      simp
    · obtain ⟨hqne, hqnl⟩ := hok q (by simp)
      rw [intercalate_cons₂]
      rw [List.append_assoc, splitParasAux_prefix hpnl [] _]
      have hsep : str "\n\n" ++ List.intercalate (str "\n\n") (q :: qs) =
          '\n' :: ('\n' :: List.intercalate (str "\n\n") (q :: qs)) := rfl
      rw [hsep, splitParasAux_cons_sep (by simp)]
      have hhead : (List.intercalate (str "\n\n") (q :: qs)).head? ≠ some '\n' := by
        rcases qs with _ | ⟨r, rs⟩
        · rw [intercalate_single]
          rcases q with _ | ⟨c, cs⟩
          · exact absurd rfl hqne
          · simp
            intro hc
            exact hqnl (by simp [hc])
        · rw [intercalate_cons₂]
          rcases hq : q with _ | ⟨c, cs⟩
          · exact absurd hq hqne
          · simp
            intro hc
            exact hqnl (by simp [hq, hc])
      have hdrop : (List.intercalate (str "\n\n") (q :: qs)).dropWhile (· = '\n') =
          List.intercalate (str "\n\n") (q :: qs) := by
        rcases hI : List.intercalate (str "\n\n") (q :: qs) with _ | ⟨c, cs⟩
        · rfl
        · have hcn : c ≠ '\n' := by
            intro hc
            apply hhead
            rw [hI, hc]
            rfl
          rw [List.dropWhile_cons]
          simp [hcn]
      have hstep : List.dropWhile (fun x => decide (x = '\n'))
          ('\n' :: List.intercalate (str "\n\n") (q :: qs)) =
          List.dropWhile (fun x => decide (x = '\n'))
            (List.intercalate (str "\n\n") (q :: qs)) := by
        rw [List.dropWhile_cons]
        simp
      rw [hstep, hdrop, ih (by simp) (fun r hr => hok r (by simp [hr]))]
      simp

theorem splitParas_intercalate (paras : List Str)
    (h : ∀ p ∈ paras, p ≠ [] ∧ '\n' ∉ p) :
    splitParas (List.intercalate (str "\n\n") paras) = paras := by
  rcases hps : paras with _ | ⟨p, rest⟩
  · rw [intercalate_nil]
    unfold splitParas
    rw [splitParasAux_nil]
    rfl
  · rw [← hps]
    unfold splitParas
    rw [splitParasAux_intercalate paras (by rw [hps]; simp) h]
    rw [List.filter_eq_self.mpr]
    intro a ha
    have := (h a ha).1
    simpa [List.isEmpty_iff] using this

/-! ## SafePre aggregation -/

theorem safePre_flatten {pat : Str} : ∀ {l : List Str},
    (∀ x ∈ l, SafePre pat x) → SafePre pat l.flatten := by
  intro l
  induction l with
  | nil => intro _; simpa using safePre_nil pat
  | cons x xs ih =>
    intro h
    rw [List.flatten_cons]
    exact safePre_append (h x (by simp)) (ih fun y hy => h y (by simp [hy]))

theorem safePre_intercalate {pat sep : Str} (hsep : SafePre pat sep) :
    ∀ {l : List Str}, (∀ x ∈ l, SafePre pat x) →
      SafePre pat (List.intercalate sep l) := by
  intro l
  induction l with
  | nil =>
    intro _
    rw [intercalate_nil]
    exact safePre_nil pat
  | cons x xs ih =>
    intro h
    rcases xs with _ | ⟨y, ys⟩
    · rw [intercalate_single]
      exact h x (by simp)
    · rw [intercalate_cons₂]
      exact safePre_append (safePre_append (h x (by simp)) hsep)
        (ih fun z hz => h z (by simp [hz]))

theorem replaceAllNl_no_lt (x : Str) :
    ∀ c ∈ replaceAllChar '\n' (str "\n        ") (esc x), c ≠ '<' := by
  intro c hc
  unfold replaceAllChar at hc
  rw [List.mem_flatMap] at hc
  obtain ⟨y, hy, hcy⟩ := hc
  by_cases hyn : y = '\n'
  · rw [if_pos hyn] at hcy
    intro hceq
    subst hceq
    revert hcy
    decide
  · rw [if_neg hyn] at hcy
    simp at hcy
    subst hcy
    exact fun hceq => esc_no_lt (hceq ▸ hy)

theorem safePre_parasBlock {pat : Str} (hpat : pat.head? = some '<')
    (h1 : SafePre pat (str "      <p>\n        "))
    (h2 : SafePre pat (str "\n      </p>"))
    (hsep : SafePre pat (str "\n\n")) (paras : List Str) :
    SafePre pat (parasBlock paras) := by
  unfold parasBlock
  apply safePre_intercalate hsep
  intro x hx
  rw [List.mem_map] at hx
  obtain ⟨q, _, hq⟩ := hx
  rw [← hq]
  exact safePre_append (safePre_append h1
    (safePre_head hpat (replaceAllNl_no_lt (trimStr q)))) h2

/-- The tags block as `generatePost` renders it. -/
def tagsBlock (tags : List Str) : Str :=
  List.intercalate (str "\n")
    (tags.map fun t => str "      <span class=\"tag\">" ++ esc t ++ str "</span>")

theorem safePre_tagsBlock {pat : Str} (hpat : pat.head? = some '<')
    (h1 : SafePre pat (str "      <span class=\"tag\">"))
    (h2 : SafePre pat (str "</span>"))
    (hsep : SafePre pat (str "\n")) (tags : List Str) :
    SafePre pat (tagsBlock tags) := by
  unfold tagsBlock
  apply safePre_intercalate hsep
  intro x hx
  rw [List.mem_map] at hx
  obtain ⟨t, _, ht⟩ := hx
  rw [← ht]
  exact safePre_append (safePre_append h1
    (safePre_head hpat fun c hc hceq => esc_no_lt (hceq ▸ hc))) h2

theorem tagOpen_ne : tagOpen ≠ [] := by decide

theorem collect_tagsBlock (tail : Str) (htail : SafePre tagOpen tail) :
    ∀ tags : List Str, (∀ t ∈ tags, tagOk t) →
      (collectAll tagOpen (tagsBlock tags ++ tail)).map textOf = tags := by
  intro tags
  induction tags with
  | nil =>
    intro _
    rw [show tagsBlock [] = [] from intercalate_nil _]
    rw [List.nil_append, collectAll_of_safe tagOpen_ne htail]
    rfl
  | cons t rest ih =>
    intro hok
    have ht : tagOk t := hok t (by simp)
    have hesc_safe : SafePre tagOpen (esc t) :=
      safePre_head (c := '<') rfl fun c hc hceq => esc_no_lt (hceq ▸ hc)
    have htake : ∀ x, takeUntil '<' (esc t ++ (str "</span>" ++ x)) = esc t :=
      fun x => takeUntil_append (fun c hc hceq => esc_no_lt (hceq ▸ hc)) rfl
    rcases rest with _ | ⟨r, rs⟩
    · have he : tagsBlock [t] ++ tail =
          str "      " ++ tagOpen ++ (esc t ++ (str "</span>" ++ tail)) := by
        unfold tagsBlock
        rw [List.map_singleton, intercalate_single]
        rw [show str "      <span class=\"tag\">" = str "      " ++ tagOpen by decide]
        simp [List.append_assoc]
      rw [he, collectAll_at tagOpen_ne (safePre_of_cleanStarts (by decide)), htake]
      have hrest : collectAll tagOpen (esc t ++ (str "</span>" ++ tail)) = [] := by
        apply collectAll_of_safe tagOpen_ne
        exact safePre_append hesc_safe
          (safePre_append (safePre_of_cleanStarts (by decide)) htail)
      rw [hrest]
      simp [textOf_escTag ht]
    · have he : tagsBlock (t :: r :: rs) ++ tail =
          str "      " ++ tagOpen ++
            (esc t ++ (str "</span>" ++ (str "\n" ++ (tagsBlock (r :: rs) ++ tail)))) := by
        unfold tagsBlock
        rw [List.map_cons, List.map_cons, intercalate_cons₂]
        rw [show str "      <span class=\"tag\">" = str "      " ++ tagOpen by decide]
        simp [List.append_assoc]
      rw [he, collectAll_at tagOpen_ne (safePre_of_cleanStarts (by decide))]
      rw [show esc t ++ (str "</span>" ++ (str "\n" ++ (tagsBlock (r :: rs) ++ tail))) =
          esc t ++ (str "</span>" ++ (str "\n" ++ (tagsBlock (r :: rs) ++ tail))) from rfl]
      rw [htake]
      have hskip : collectAll tagOpen
          (esc t ++ (str "</span>" ++ (str "\n" ++ (tagsBlock (r :: rs) ++ tail)))) =
          collectAll tagOpen (tagsBlock (r :: rs) ++ tail) := by
        rw [show esc t ++ (str "</span>" ++ (str "\n" ++ (tagsBlock (r :: rs) ++ tail))) =
            (esc t ++ (str "</span>" ++ str "\n")) ++ (tagsBlock (r :: rs) ++ tail) by
          simp [List.append_assoc]]
        apply collectAll_append_safe tagOpen_ne
        exact safePre_append hesc_safe (safePre_of_cleanStarts (by decide))
      rw [hskip]
      rw [List.map_cons, textOf_escTag ht, ih (fun q hq => hok q (by simp [hq]))]

/-! ## Navigation block -/

def prevAnchor (p : Str) : Str :=
  str "    <a class=\"prev\" href=\"" ++ p ++ str ".html\">← " ++ p ++ str "</a>"

def backAnchor (hasPrev : Bool) : Str :=
  str "    <a class=\"back\" href=\"../index.html\">" ++
    (if hasPrev then str "" else str "← ") ++ str "~/log</a>"

def nextAnchor (n : Str) : Str :=
  str "    <a class=\"next\" href=\"" ++ n ++ str ".html\">" ++ n ++ str " →</a>"

theorem navLinks_eq (p n : Option Str) :
    navLinks p n =
      (match jsTruthyOpt p with | some q => [prevAnchor q] | none => []) ++
        [backAnchor (jsTruthy p)] ++
        (match jsTruthyOpt n with | some q => [nextAnchor q] | none => []) := by
  unfold navLinks jsTruthyOpt jsTruthy prevAnchor backAnchor nextAnchor
  rcases p with _ | p0 <;> rcases n with _ | n0
  · simp
  · by_cases hn : n0 = [] <;> simp [hn, List.isEmpty_iff]
  · by_cases hp : p0 = [] <;> simp [hp, List.isEmpty_iff]
  · by_cases hp : p0 = [] <;> by_cases hn : n0 = [] <;> simp [hp, hn, List.isEmpty_iff]

/-- Join of the nav anchors, as rendered betweeen the nav tags. -/
def navJoin (p n : Option Str) : Str :=
  List.intercalate (str "\n") (navLinks p n)

/-! ## Document decomposition

The output of `generatePost` written with each scanned-for marker split out
of the source literal that contains it; all other literal boundaries are the
source's own. -/

def spokenLabelSeg : Str := str "\n      <p class=\"spoken-label\">transcribed via spokenly · lightly edited</p>\n\n"

def docTail2 : Str :=
  str "\n\n" ++
  str "  <footer>\n    <p class=\"vim-hint\">← → between posts · backspace ~/log · e edit</p>\n" ++
  str "    <p class=\"footer-eof\">EOF</p>\n  </footer>\n\n" ++
  str "  <script src=\"../assets/js/main.js\"></script>\n</body>\n</html>\n"

/-- The document body: the transcript wrapper for spoken posts, bare
paragraphs for written posts. -/
def bodyBlock (ty : PostType) (paras : Str) : Str :=
  match ty with
  | .spoken =>
      str "    " ++ transcriptOpen ++ spokenLabelSeg ++ paras ++ str "\n    " ++
        str "</div>"
  | .written => paras

def docCore (o : Post) : Str :=
  str "<!DOCTYPE html>\n<html lang=\"en\">\n<head>\n" ++
  str "  <meta charset=\"UTF-8\">\n  <meta name=\"viewport\" content=\"width=device-width, initial-scale=1.0\">\n" ++
  str "  <title>" ++ o.slug ++ str " — log</title>\n" ++
  str "  <link rel=\"stylesheet\" href=\"../assets/css/style.css\">\n</head>\n<body>\n" ++
  str "  <header>\n    <nav style=\"font-size: 0.8rem; color: var(--fg-dim);\">\n" ++
  str "      <a href=\"../index.html\">~/log</a> / " ++ o.slug ++
  str "\n    </nav>\n  </header>\n\n" ++
  str "  " ++ mainOpen ++ str "\n" ++
  str "    <div class=\"post-meta\">\n      " ++ timeOpen ++ o.date ++ str "\">" ++
  o.date ++ str "</time>\n" ++
  str "      " ++ typeOpen ++ o.type.toStr ++ str "\">" ++ o.type.toStr ++
  str "</span>\n    </div>\n" ++
  str "    " ++ h1Open ++ o.slug ++ str "</h1>\n\n" ++
  bodyBlock o.type (parasBlock (splitParas o.content)) ++ str "\n\n" ++
  str "    <div class=\"post-tags\">\n" ++ tagsBlock o.tags ++
  str "\n    </div>\n  " ++ str "</main>" ++ str "\n\n"

/-- A generated document whose nav block may have been replaced `k` times by
`updatePostNav` (each replacement prepends two more spaces of indent). -/
def docAssembled (o : Post) (ind : Str) (p n : Option Str) : Str :=
  docCore o ++ ind ++ str "  " ++ navOpenTag ++ str "\n" ++ navJoin p n ++
    str "\n  " ++ str "</nav>" ++ docTail2

theorem generatePost_eq (o : Post) :
    generatePost o = docAssembled o [] o.prevSlug o.nextSlug := by
  have sp1 : str "  <main class=\"post-content\">\n" =
      str "  " ++ mainOpen ++ str "\n" := by decide
  have sp2 : str "    <div class=\"post-meta\">\n      <time datetime=\"" =
      str "    <div class=\"post-meta\">\n      " ++ timeOpen := by decide
  have sp3 : str "      <span class=\"post-type " =
      str "      " ++ typeOpen := by decide
  have sp4 : str "    <h1>" = str "    " ++ h1Open := by decide
  have sp5 : str "    <div class=\"spoken-transcript\">\n      <p class=\"spoken-label\">transcribed via spokenly · lightly edited</p>\n\n" =
      str "    " ++ transcriptOpen ++ spokenLabelSeg := by decide
  have sp6 : str "\n    </div>" = str "\n    " ++ str "</div>" := by decide
  have sp7 : str "\n    </div>\n  </main>\n\n" =
      str "\n    </div>\n  " ++ str "</main>" ++ str "\n\n" := by decide
  have sp8 : str "  <nav class=\"post-nav\">\n" =
      str "  " ++ navOpenTag ++ str "\n" := by decide
  have sp9 : str "\n  </nav>\n\n" = str "\n  " ++ str "</nav>" ++ str "\n\n" := by decide
  simp only [generatePost, docAssembled, docCore, bodyBlock, navJoin, parasBlock,
    tagsBlock, docTail2]
  cases o.type <;>
    rw [sp1, sp2, sp3, sp4] <;>
    simp [sp5, sp6, sp7, sp8, sp9, List.append_assoc]

/-! ## Scan lemmas over assembled documents -/

theorem toStr_no_lt (ty : PostType) : ∀ c ∈ ty.toStr, c ≠ '<' := by
  cases ty <;> decide

theorem navOk_truthy {p : Option Str} {q : Str} (hp : navOk p)
    (hq : jsTruthyOpt p = some q) : slugOk q := by
  rcases p with _ | s
  · simp [jsTruthyOpt] at hq
  · simp only [jsTruthyOpt] at hq
    by_cases hs : s.isEmpty
    · simp [hs] at hq
    · simp [hs] at hq
      subst hq
      exact hp

/-- The anchors' literal fragments that contain `<`. -/
theorem safePre_prevAnchor {pat q : Str} (hpat : pat.head? = some '<')
    (hq : slugOk q)
    (h1 : SafePre pat (str "    <a class=\"prev\" href=\""))
    (h2 : SafePre pat (str "</a>")) : SafePre pat (prevAnchor q) := by
  unfold prevAnchor
  have hqs : SafePre pat q := safePre_head hpat (slugOk_no_lt hq)
  exact safePre_append (safePre_append (safePre_append (safePre_append h1 hqs)
    (safePre_head hpat (by decide))) hqs) h2

theorem safePre_backAnchor {pat : Str} (hpat : pat.head? = some '<')
    (hasPrev : Bool)
    (h1 : SafePre pat (str "    <a class=\"back\" href=\"../index.html\">"))
    (h2 : SafePre pat (str "~/log</a>")) : SafePre pat (backAnchor hasPrev) := by
  unfold backAnchor
  cases hasPrev
  · exact safePre_append (safePre_append h1 (safePre_head hpat (by decide))) h2
  · exact safePre_append (safePre_append h1 (safePre_head hpat (by decide))) h2

theorem safePre_nextAnchor {pat q : Str} (hpat : pat.head? = some '<')
    (hq : slugOk q)
    (h1 : SafePre pat (str "    <a class=\"next\" href=\""))
    (h2 : SafePre pat (str " →</a>")) : SafePre pat (nextAnchor q) := by
  unfold nextAnchor
  have hqs : SafePre pat q := safePre_head hpat (slugOk_no_lt hq)
  exact safePre_append (safePre_append (safePre_append (safePre_append h1 hqs)
    (safePre_head hpat (by decide))) hqs) h2

theorem toStr_no_quot (ty : PostType) : ∀ c ∈ ty.toStr, c ≠ '"' := by
  cases ty <;> decide

theorem jsTruthy_eq_isSome (p : Option Str) : jsTruthy p = (jsTruthyOpt p).isSome := by
  rcases p with _ | s
  · rfl
  · simp only [jsTruthy, jsTruthyOpt]
    by_cases h : s.isEmpty <;> simp [h]

theorem safePre_spaces {pat s : Str} (hpat : pat.head? = some '<')
    (hs : ∀ c ∈ s, c = ' ') : SafePre pat s :=
  safePre_head hpat fun c hc => by rw [hs c hc]; decide

theorem safePre_bodyBlock {pat : Str} {X : Str} (ty : PostType)
    (hpat : pat.head? = some '<') (hX : SafePre pat X)
    (ht : SafePre pat transcriptOpen)
    (hl : SafePre pat spokenLabelSeg)
    (hd : SafePre pat (str "</div>")) :
    SafePre pat (bodyBlock ty X) := by
  cases ty
  · simp only [bodyBlock]
    exact safePre_append (safePre_append (safePre_append (safePre_append
      (safePre_append (safePre_head hpat (by decide)) ht) hl) hX)
      (safePre_head hpat (by decide))) hd
  · exact hX

/-- The literal fragments of `docCore`, for uniform occurrence-freedom checks. -/
def docCoreLits : List Str :=
  [str "<!DOCTYPE html>\n<html lang=\"en\">\n<head>\n",
   str "  <meta charset=\"UTF-8\">\n  <meta name=\"viewport\" content=\"width=device-width, initial-scale=1.0\">\n",
   str "  <title>",
   str " — log</title>\n",
   str "  <link rel=\"stylesheet\" href=\"../assets/css/style.css\">\n</head>\n<body>\n",
   str "  <header>\n    <nav style=\"font-size: 0.8rem; color: var(--fg-dim);\">\n",
   str "      <a href=\"../index.html\">~/log</a> / ",
   str "\n    </nav>\n  </header>\n\n",
   str "  ", mainOpen, str "\n",
   str "    <div class=\"post-meta\">\n      ", timeOpen, str "\">",
   str "</time>\n", str "      ", typeOpen,
   str "</span>\n    </div>\n", str "    ", h1Open, str "</h1>\n\n",
   str "\n\n", str "    <div class=\"post-tags\">\n",
   str "\n    </div>\n  ", str "</main>"]

theorem safePre_docCore {pat : Str} (o : Post) (hpat : pat.head? = some '<')
    (hslug : ∀ c ∈ o.slug, c ≠ '<') (hdate : ∀ c ∈ o.date, c ≠ '<')
    (hlits : ∀ l ∈ docCoreLits, SafePre pat l)
    (hbody : SafePre pat (bodyBlock o.type (parasBlock (splitParas o.content))))
    (htags : SafePre pat (tagsBlock o.tags)) :
    SafePre pat (docCore o) := by
  simp only [docCore]
  repeat' apply safePre_append
  all_goals first
    | exact hbody
    | exact htags
    | exact safePre_head hpat hslug
    | exact safePre_head hpat hdate
    | exact safePre_head hpat (toStr_no_lt o.type)
    | exact hlits _ (by simp [docCoreLits])

/-! Suffix chain of the assembled document at each scanned marker. -/

def tailNav (ind : Str) (p n : Option Str) : Str :=
  ind ++ str "  " ++ navOpenTag ++ str "\n" ++ navJoin p n ++ str "\n  " ++
    str "</nav>" ++ docTail2

def tailTags (o : Post) (ind : Str) (p n : Option Str) : Str :=
  tagsBlock o.tags ++ str "\n    </div>\n  " ++ str "</main>" ++ str "\n\n" ++
    tailNav ind p n

def tailBody (o : Post) (ind : Str) (p n : Option Str) : Str :=
  bodyBlock o.type (parasBlock (splitParas o.content)) ++ str "\n\n" ++
    str "    <div class=\"post-tags\">\n" ++ tailTags o ind p n

def tailH1 (o : Post) (ind : Str) (p n : Option Str) : Str :=
  o.slug ++ str "</h1>\n\n" ++ tailBody o ind p n

def tailType (o : Post) (ind : Str) (p n : Option Str) : Str :=
  o.type.toStr ++ str "\">" ++ o.type.toStr ++ str "</span>\n    </div>\n" ++
    str "    " ++ h1Open ++ tailH1 o ind p n

def tailTime (o : Post) (ind : Str) (p n : Option Str) : Str :=
  o.date ++ str "\">" ++ o.date ++ str "</time>\n" ++ str "      " ++ typeOpen ++
    tailType o ind p n

def preHead (o : Post) : Str :=
  str "<!DOCTYPE html>\n<html lang=\"en\">\n<head>\n" ++
  str "  <meta charset=\"UTF-8\">\n  <meta name=\"viewport\" content=\"width=device-width, initial-scale=1.0\">\n" ++
  str "  <title>" ++ o.slug ++ str " — log</title>\n" ++
  str "  <link rel=\"stylesheet\" href=\"../assets/css/style.css\">\n</head>\n<body>\n" ++
  str "  <header>\n    <nav style=\"font-size: 0.8rem; color: var(--fg-dim);\">\n" ++
  str "      <a href=\"../index.html\">~/log</a> / " ++ o.slug ++
  str "\n    </nav>\n  </header>\n\n" ++ str "  "

def preTime (o : Post) : Str :=
  preHead o ++ mainOpen ++ str "\n" ++ str "    <div class=\"post-meta\">\n      "

theorem docAssembled_decomp (o : Post) (ind : Str) (p n : Option Str) :
    docAssembled o ind p n = preTime o ++ timeOpen ++ tailTime o ind p n := by
  simp only [docAssembled, docCore, preHead, preTime, tailTime, tailType, tailH1,
    tailBody, tailTags, tailNav]
  simp [List.append_assoc]

theorem split_time_assembled (o : Post) (ind : Str) (p n : Option Str)
    (hslug : slugOk o.slug) :
    splitOnFirst timeOpen (docAssembled o ind p n) =
      some (preTime o, tailTime o ind p n) := by
  rw [docAssembled_decomp]
  refine split_at (by decide) ?_
  simp only [preTime, preHead]
  repeat' apply safePre_append
  all_goals first
    | exact safePre_head rfl (slugOk_no_lt hslug)
    | exact safePre_of_cleanStarts (by decide)

theorem date_assembled (o : Post) (ind : Str) (p n : Option Str)
    (hdate : dateOk o.date) :
    unescape (takeUntil '"' (tailTime o ind p n)) = o.date := by
  have h1 : takeUntil '"' (tailTime o ind p n) = o.date := by
    simp only [tailTime, List.append_assoc]
    exact takeUntil_append (fun c hc => (dateChar_ne (hdate c hc)).2.2.2) rfl
  rw [h1]
  exact unescape_of_no_amp (dateOk_no_amp hdate)

theorem split_type_assembled (o : Post) (ind : Str) (p n : Option Str)
    (hslug : slugOk o.slug) (hdate : dateOk o.date) :
    splitOnFirst typeOpen (docAssembled o ind p n) =
      some (preTime o ++ timeOpen ++ o.date ++ str "\">" ++ o.date ++
        str "</time>\n" ++ str "      ", tailType o ind p n) := by
  rw [docAssembled_decomp]
  rw [show preTime o ++ timeOpen ++ tailTime o ind p n =
      (preTime o ++ timeOpen ++ o.date ++ str "\">" ++ o.date ++
        str "</time>\n" ++ str "      ") ++ typeOpen ++ tailType o ind p n from by
    simp only [tailTime]
    simp [List.append_assoc]]
  refine split_at (by decide) ?_
  simp only [preTime, preHead]
  repeat' apply safePre_append
  all_goals first
    | exact safePre_head rfl (slugOk_no_lt hslug)
    | exact safePre_head rfl (dateOk_no_lt hdate)
    | exact safePre_of_cleanStarts (by decide)

theorem typeTake_assembled (o : Post) (ind : Str) (p n : Option Str) :
    takeUntil '"' (tailType o ind p n) = o.type.toStr := by
  simp only [tailType, List.append_assoc]
  exact takeUntil_append (toStr_no_quot o.type) rfl

theorem split_h1_assembled (o : Post) (ind : Str) (p n : Option Str)
    (hslug : slugOk o.slug) (hdate : dateOk o.date) :
    splitOnFirst h1Open (docAssembled o ind p n) =
      some (preTime o ++ timeOpen ++ o.date ++ str "\">" ++ o.date ++
        str "</time>\n" ++ str "      " ++ typeOpen ++ o.type.toStr ++ str "\">" ++
        o.type.toStr ++ str "</span>\n    </div>\n" ++ str "    ",
        tailH1 o ind p n) := by
  rw [docAssembled_decomp]
  rw [show preTime o ++ timeOpen ++ tailTime o ind p n =
      (preTime o ++ timeOpen ++ o.date ++ str "\">" ++ o.date ++
        str "</time>\n" ++ str "      " ++ typeOpen ++ o.type.toStr ++ str "\">" ++
        o.type.toStr ++ str "</span>\n    </div>\n" ++ str "    ") ++ h1Open ++
        tailH1 o ind p n from by
    simp only [tailTime, tailType]
    simp [List.append_assoc]]
  refine split_at (by decide) ?_
  simp only [preTime, preHead]
  repeat' apply safePre_append
  all_goals first
    | exact safePre_head rfl (slugOk_no_lt hslug)
    | exact safePre_head rfl (dateOk_no_lt hdate)
    | exact safePre_head rfl (toStr_no_lt o.type)
    | exact safePre_of_cleanStarts (by decide)

theorem slugTake_assembled (o : Post) (ind : Str) (p n : Option Str)
    (hslug : slugOk o.slug) :
    unescape (takeUntil '<' (tailH1 o ind p n)) = o.slug := by
  have h1 : takeUntil '<' (tailH1 o ind p n) = o.slug := by
    simp only [tailH1, List.append_assoc]
    exact takeUntil_append (slugOk_no_lt hslug) rfl
  rw [h1]
  exact unescape_of_no_amp (slugOk_no_amp hslug)

theorem safePre_navJoin {pat : Str} {p n : Option Str} (hpat : pat.head? = some '<')
    (hp : navOk p) (hn : navOk n)
    (hpl1 : SafePre pat (str "    <a class=\"prev\" href=\""))
    (hbl1 : SafePre pat (str "    <a class=\"back\" href=\"../index.html\">"))
    (hbl2 : SafePre pat (str "~/log</a>"))
    (hnl1 : SafePre pat (str "    <a class=\"next\" href=\""))
    (hnl2 : SafePre pat (str " →</a>"))
    (ha : SafePre pat (str "</a>")) : SafePre pat (navJoin p n) := by
  unfold navJoin
  rw [navLinks_eq]
  apply safePre_intercalate (safePre_head hpat (by decide))
  intro x hx
  rcases hP : jsTruthyOpt p with _ | q <;> rcases hN : jsTruthyOpt n with _ | r <;>
    rw [hP, hN] at hx <;> simp at hx
  · rw [hx]
    exact safePre_backAnchor hpat _ hbl1 hbl2
  · rcases hx with hx | hx <;> rw [hx]
    · exact safePre_backAnchor hpat _ hbl1 hbl2
    · exact safePre_nextAnchor hpat (navOk_truthy hn hN) hnl1 hnl2
  · rcases hx with hx | hx <;> rw [hx]
    · exact safePre_prevAnchor hpat (navOk_truthy hp hP) hpl1 ha
    · exact safePre_backAnchor hpat _ hbl1 hbl2
  · rcases hx with hx | hx | hx <;> rw [hx]
    · exact safePre_prevAnchor hpat (navOk_truthy hp hP) hpl1 ha
    · exact safePre_backAnchor hpat _ hbl1 hbl2
    · exact safePre_nextAnchor hpat (navOk_truthy hn hN) hnl1 hnl2

theorem collect_tags_assembled (o : Post) (ind : Str) (p n : Option Str)
    (hslug : slugOk o.slug) (hdate : dateOk o.date)
    (htags : ∀ t ∈ o.tags, tagOk t) (hp : navOk p) (hn : navOk n)
    (hind : ∀ c ∈ ind, c = ' ') :
    (collectAll tagOpen (docAssembled o ind p n)).map textOf = o.tags := by
  rw [show docAssembled o ind p n =
      (preTime o ++ timeOpen ++ o.date ++ str "\">" ++ o.date ++ str "</time>\n" ++
        str "      " ++ typeOpen ++ o.type.toStr ++ str "\">" ++ o.type.toStr ++
        str "</span>\n    </div>\n" ++ str "    " ++ h1Open ++ o.slug ++
        str "</h1>\n\n" ++ bodyBlock o.type (parasBlock (splitParas o.content)) ++
        str "\n\n" ++ str "    <div class=\"post-tags\">\n") ++
      (tagsBlock o.tags ++
        (str "\n    </div>\n  " ++ str "</main>" ++ str "\n\n" ++
          tailNav ind p n)) from by
    rw [docAssembled_decomp]
    simp only [tailTime, tailType, tailH1, tailBody, tailTags]
    simp [List.append_assoc]]
  have hpk : tagOpen.head? = some '<' := rfl
  have hpre : SafePre tagOpen
      (preTime o ++ timeOpen ++ o.date ++ str "\">" ++ o.date ++ str "</time>\n" ++
        str "      " ++ typeOpen ++ o.type.toStr ++ str "\">" ++ o.type.toStr ++
        str "</span>\n    </div>\n" ++ str "    " ++ h1Open ++ o.slug ++
        str "</h1>\n\n" ++ bodyBlock o.type (parasBlock (splitParas o.content)) ++
        str "\n\n" ++ str "    <div class=\"post-tags\">\n") := by
    simp only [preTime, preHead]
    repeat' apply safePre_append
    all_goals first
      | exact safePre_bodyBlock o.type hpk
          (safePre_parasBlock hpk (safePre_of_cleanStarts (by decide))
            (safePre_of_cleanStarts (by decide)) (safePre_head hpk (by decide)) _)
          (safePre_of_cleanStarts (by decide)) (safePre_of_cleanStarts (by decide))
          (safePre_of_cleanStarts (by decide))
      | exact safePre_head hpk (slugOk_no_lt hslug)
      | exact safePre_head hpk (dateOk_no_lt hdate)
      | exact safePre_head hpk (toStr_no_lt o.type)
      | exact safePre_of_cleanStarts (by decide)
  rw [collectAll_append_safe (by decide) hpre]
  refine collect_tagsBlock _ ?_ o.tags htags
  repeat' apply safePre_append
  all_goals first
    | exact safePre_navJoin hpk hp hn (safePre_of_cleanStarts (by decide))
        (safePre_of_cleanStarts (by decide)) (safePre_of_cleanStarts (by decide))
        (safePre_of_cleanStarts (by decide)) (safePre_of_cleanStarts (by decide))
        (safePre_of_cleanStarts (by decide))
    | exact safePre_spaces hpk hind
    | exact safePre_of_cleanStarts (by decide)

theorem between_transcript_spoken (o : Post) (ind : Str) (p n : Option Str)
    (hty : o.type = .spoken) (hslug : slugOk o.slug) (hdate : dateOk o.date) :
    between transcriptOpen (str "</div>") (docAssembled o ind p n) =
      some (spokenLabelSeg ++ (parasBlock (splitParas o.content) ++ str "\n    ")) := by
  rw [show docAssembled o ind p n =
      (preTime o ++ timeOpen ++ o.date ++ str "\">" ++ o.date ++ str "</time>\n" ++
        str "      " ++ typeOpen ++ o.type.toStr ++ str "\">" ++ o.type.toStr ++
        str "</span>\n    </div>\n" ++ str "    " ++ h1Open ++ o.slug ++
        str "</h1>\n\n" ++ str "    ") ++ transcriptOpen ++
      ((spokenLabelSeg ++ (parasBlock (splitParas o.content) ++ str "\n    ")) ++
        str "</div>" ++
        (str "\n\n" ++ str "    <div class=\"post-tags\">\n" ++
          tailTags o ind p n)) from by
    rw [docAssembled_decomp]
    simp only [tailTime, tailType, tailH1, tailBody, hty, bodyBlock]
    simp [List.append_assoc]]
  have hpk1 : transcriptOpen.head? = some '<' := rfl
  have hpk2 : (str "</div>").head? = some '<' := rfl
  refine between_at (by decide) (by decide) ?_ ?_
  · simp only [preTime, preHead]
    repeat' apply safePre_append
    all_goals first
      | exact safePre_head hpk1 (slugOk_no_lt hslug)
      | exact safePre_head hpk1 (dateOk_no_lt hdate)
      | exact safePre_head hpk1 (toStr_no_lt o.type)
      | exact safePre_of_cleanStarts (by decide)
  · repeat' apply safePre_append
    all_goals first
      | exact safePre_parasBlock hpk2 (safePre_of_cleanStarts (by decide))
          (safePre_of_cleanStarts (by decide)) (safePre_head hpk2 (by decide)) _
      | exact safePre_of_cleanStarts (by decide)

set_option maxHeartbeats 1600000 in
set_option maxRecDepth 8192 in
theorem between_transcript_written (o : Post) (ind : Str) (p n : Option Str)
    (hty : o.type = .written) (hslug : slugOk o.slug) (hdate : dateOk o.date)
    (hp : navOk p) (hn : navOk n) (hind : ∀ c ∈ ind, c = ' ') :
    between transcriptOpen (str "</div>") (docAssembled o ind p n) = none := by
  have hpk : transcriptOpen.head? = some '<' := rfl
  have hcore : SafePre transcriptOpen (docCore o) :=
    safePre_docCore o hpk (slugOk_no_lt hslug) (dateOk_no_lt hdate)
      (by intro l hl; fin_cases hl <;> exact safePre_of_cleanStarts (by decide))
      (by rw [hty]
          simp only [bodyBlock]
          exact safePre_parasBlock hpk (safePre_of_cleanStarts (by decide))
            (safePre_of_cleanStarts (by decide)) (safePre_head hpk (by decide)) _)
      (safePre_tagsBlock hpk (safePre_of_cleanStarts (by decide))
        (safePre_of_cleanStarts (by decide)) (safePre_head hpk (by decide)) _)
  have hnavJ : SafePre transcriptOpen (navJoin p n) :=
    safePre_navJoin hpk hp hn (safePre_of_cleanStarts (by decide))
      (safePre_of_cleanStarts (by decide)) (safePre_of_cleanStarts (by decide))
      (safePre_of_cleanStarts (by decide)) (safePre_of_cleanStarts (by decide))
      (safePre_of_cleanStarts (by decide))
  refine between_none (by decide) ?_
  simp only [docAssembled]
  exact safePre_append (safePre_append (safePre_append (safePre_append
    (safePre_append (safePre_append (safePre_append (safePre_append
      hcore (safePre_spaces hpk hind)) (safePre_head hpk (by decide)))
      (safePre_of_cleanStarts (by decide))) (safePre_head hpk (by decide)))
      hnavJ) (safePre_head hpk (by decide))) (safePre_of_cleanStarts (by decide)))
    (safePre_of_cleanStarts (by decide))

/-- The region between the main tags for a written post. -/
def midMain (o : Post) : Str :=
  str "\n" ++ str "    <div class=\"post-meta\">\n      " ++ timeOpen ++ o.date ++
    str "\">" ++ o.date ++ str "</time>\n" ++ str "      " ++ typeOpen ++
    o.type.toStr ++ str "\">" ++ o.type.toStr ++ str "</span>\n    </div>\n" ++
    str "    " ++ h1Open ++ o.slug ++ str "</h1>\n\n" ++
    parasBlock (splitParas o.content) ++ str "\n\n" ++
    str "    <div class=\"post-tags\">\n" ++ tagsBlock o.tags ++ str "\n    </div>\n  "

theorem between_main_written (o : Post) (ind : Str) (p n : Option Str)
    (hty : o.type = .written) (hslug : slugOk o.slug) (hdate : dateOk o.date) :
    between mainOpen (str "</main>") (docAssembled o ind p n) =
      some (midMain o) := by
  rw [show docAssembled o ind p n =
      preHead o ++ mainOpen ++
        (midMain o ++ str "</main>" ++ (str "\n\n" ++ tailNav ind p n)) from by
    rw [docAssembled_decomp]
    simp only [preTime, tailTime, tailType, tailH1, tailBody, tailTags, midMain,
      hty, bodyBlock]
    simp [List.append_assoc]]
  have hpk1 : mainOpen.head? = some '<' := rfl
  have hpk2 : (str "</main>").head? = some '<' := rfl
  refine between_at (by decide) (by decide) ?_ ?_
  · simp only [preHead]
    repeat' apply safePre_append
    all_goals first
      | exact safePre_head hpk1 (slugOk_no_lt hslug)
      | exact safePre_of_cleanStarts (by decide)
  · simp only [midMain]
    repeat' apply safePre_append
    all_goals first
      | exact safePre_head hpk2 (slugOk_no_lt hslug)
      | exact safePre_head hpk2 (dateOk_no_lt hdate)
      | exact safePre_head hpk2 (toStr_no_lt o.type)
      | exact safePre_parasBlock hpk2 (safePre_of_cleanStarts (by decide))
          (safePre_of_cleanStarts (by decide)) (safePre_head hpk2 (by decide)) _
      | exact safePre_tagsBlock hpk2 (safePre_of_cleanStarts (by decide))
          (safePre_of_cleanStarts (by decide)) (safePre_head hpk2 (by decide)) _
      | exact safePre_of_cleanStarts (by decide)

theorem collect_paras_spoken (paras : List Str) (hparas : ∀ q ∈ paras, paraOk q) :
    (collectAll pOpen (spokenLabelSeg ++ (parasBlock paras ++ str "\n    "))).map
      textOf = paras := by
  rw [collectAll_append_safe pOpen_ne (safePre_of_cleanStarts (by decide))]
  exact collect_parasBlock (str "\n    ") (safePre_pOpen_of_no_lt (by decide))
    paras hparas

theorem collect_paras_main (o : Post) (paras : List Str)
    (hslug : slugOk o.slug) (hdate : dateOk o.date)
    (hsp : splitParas o.content = paras) (hparas : ∀ q ∈ paras, paraOk q) :
    (collectAll pOpen (midMain o)).map textOf = paras := by
  rw [show midMain o =
      (str "\n" ++ str "    <div class=\"post-meta\">\n      " ++ timeOpen ++
        o.date ++ str "\">" ++ o.date ++ str "</time>\n" ++ str "      " ++
        typeOpen ++ o.type.toStr ++ str "\">" ++ o.type.toStr ++
        str "</span>\n    </div>\n" ++ str "    " ++ h1Open ++ o.slug ++
        str "</h1>\n\n") ++
      (parasBlock paras ++
        (str "\n\n" ++ str "    <div class=\"post-tags\">\n" ++ tagsBlock o.tags ++
          str "\n    </div>\n  ")) from by
    simp only [midMain, hsp]
    simp [List.append_assoc]]
  have hpk : pOpen.head? = some '<' := rfl
  have hpre : SafePre pOpen
      (str "\n" ++ str "    <div class=\"post-meta\">\n      " ++ timeOpen ++
        o.date ++ str "\">" ++ o.date ++ str "</time>\n" ++ str "      " ++
        typeOpen ++ o.type.toStr ++ str "\">" ++ o.type.toStr ++
        str "</span>\n    </div>\n" ++ str "    " ++ h1Open ++ o.slug ++
        str "</h1>\n\n") := by
    repeat' apply safePre_append
    all_goals first
      | exact safePre_head hpk (slugOk_no_lt hslug)
      | exact safePre_head hpk (dateOk_no_lt hdate)
      | exact safePre_head hpk (toStr_no_lt o.type)
      | exact safePre_of_cleanStarts (by decide)
  rw [collectAll_append_safe pOpen_ne hpre]
  refine collect_parasBlock _ ?_ paras hparas
  repeat' apply safePre_append
  all_goals first
    | exact safePre_tagsBlock hpk (safePre_of_cleanStarts (by decide))
        (safePre_of_cleanStarts (by decide)) (safePre_head hpk (by decide)) _
    | exact safePre_of_cleanStarts (by decide)

set_option maxRecDepth 8192 in
theorem between_nav_assembled (o : Post) (ind : Str) (p n : Option Str)
    (hslug : slugOk o.slug) (hdate : dateOk o.date)
    (hp : navOk p) (hn : navOk n) (hind : ∀ c ∈ ind, c = ' ') :
    between navOpenTag (str "</nav>") (docAssembled o ind p n) =
      some (str "\n" ++ navJoin p n ++ str "\n  ") := by
  have hpk : navOpenTag.head? = some '<' := rfl
  have hpk2 : (str "</nav>").head? = some '<' := rfl
  have hcore : SafePre navOpenTag (docCore o) :=
    safePre_docCore o hpk (slugOk_no_lt hslug) (dateOk_no_lt hdate)
      (by intro l hl; fin_cases hl <;> exact safePre_of_cleanStarts (by decide))
      (safePre_bodyBlock o.type hpk
        (safePre_parasBlock hpk (safePre_of_cleanStarts (by decide))
          (safePre_of_cleanStarts (by decide)) (safePre_head hpk (by decide)) _)
        (safePre_of_cleanStarts (by decide)) (safePre_of_cleanStarts (by decide))
        (safePre_of_cleanStarts (by decide)))
      (safePre_tagsBlock hpk (safePre_of_cleanStarts (by decide))
        (safePre_of_cleanStarts (by decide)) (safePre_head hpk (by decide)) _)
  have hnavJ : SafePre (str "</nav>") (navJoin p n) :=
    safePre_navJoin hpk2 hp hn (safePre_of_cleanStarts (by decide))
      (safePre_of_cleanStarts (by decide)) (safePre_of_cleanStarts (by decide))
      (safePre_of_cleanStarts (by decide)) (safePre_of_cleanStarts (by decide))
      (safePre_of_cleanStarts (by decide))
  rw [show docAssembled o ind p n =
      (docCore o ++ ind ++ str "  ") ++ navOpenTag ++
        ((str "\n" ++ navJoin p n ++ str "\n  ") ++ str "</nav>" ++ docTail2) from by
    simp only [docAssembled]
    simp [List.append_assoc]]
  refine between_at (by decide) (by decide) ?_ ?_
  · exact safePre_append (safePre_append hcore (safePre_spaces hpk hind))
      (safePre_head hpk (by decide))
  · exact safePre_append (safePre_append (safePre_head hpk2 (by decide)) hnavJ)
      (safePre_head hpk2 (by decide))

theorem split_prev_anchor (q S : Str) :
    splitOnFirst prevOpen (str "\n" ++ (prevAnchor q ++ S)) =
      some (str "\n" ++ str "    ",
        q ++ (str ".html" ++ (str "\">← " ++ (q ++ (str "</a>" ++ S))))) := by
  have hpk : prevOpen.head? = some '<' := rfl
  rw [show str "\n" ++ (prevAnchor q ++ S) =
      (str "\n" ++ str "    ") ++ prevOpen ++
        (q ++ (str ".html" ++ (str "\">← " ++ (q ++ (str "</a>" ++ S))))) from by
    simp only [prevAnchor,
      show str "    <a class=\"prev\" href=\"" = str "    " ++ prevOpen from by decide,
      show str ".html\">← " = str ".html" ++ str "\">← " from by decide]
    simp [List.append_assoc]]
  exact split_at (by decide) (safePre_head hpk (by decide))

theorem split_next_anchor (PRE r' S : Str) (hPRE : SafePre nextOpen PRE) :
    splitOnFirst nextOpen (PRE ++ (nextAnchor r' ++ S)) =
      some (PRE ++ str "    ",
        r' ++ (str ".html" ++ (str "\">" ++ (r' ++ (str " →</a>" ++ S))))) := by
  have hpk : nextOpen.head? = some '<' := rfl
  rw [show PRE ++ (nextAnchor r' ++ S) =
      (PRE ++ str "    ") ++ nextOpen ++
        (r' ++ (str ".html" ++ (str "\">" ++ (r' ++ (str " →</a>" ++ S))))) from by
    simp only [nextAnchor,
      show str "    <a class=\"next\" href=\"" = str "    " ++ nextOpen from by decide,
      show str ".html\">" = str ".html" ++ str "\">" from by decide]
    simp [List.append_assoc]]
  exact split_at (by decide) (safePre_append hPRE (safePre_head hpk (by decide)))

theorem navHref_value {q : Str} (X : Str) (hq : slugOk q) (hX : X.head? = some '"') :
    replaceFirst (str ".html") [] (unescape (takeUntil '"' (q ++ (str ".html" ++ X)))) =
      q := by
  have hmem : ∀ x ∈ q ++ str ".html", x ≠ '"' := by
    intro x hx
    rcases List.mem_append.mp hx with h | h
    · exact (slugChar_ne (hq x h)).2.2.2.1
    · exact (by decide : ∀ x ∈ str ".html", x ≠ '"') x h
  have h1 : takeUntil '"' (q ++ (str ".html" ++ X)) = q ++ str ".html" := by
    rw [← List.append_assoc]
    exact takeUntil_append hmem hX
  rw [h1]
  have h2 : unescape (q ++ str ".html") = q ++ str ".html" := by
    refine unescape_of_no_amp ?_
    intro hx
    rcases List.mem_append.mp hx with h | h
    · exact slugOk_no_amp hq h
    · exact absurd h (by decide)
  rw [h2]
  rw [show q ++ str ".html" = q ++ str ".html" ++ ([] : Str) from by simp]
  have hpd : (str ".html").head? = some '.' := rfl
  rw [replaceFirst_at (by decide)
    (safePre_head hpd fun c hc => (slugChar_ne (hq c hc)).2.2.2.2.1)]
  simp

theorem split_prev_none (p n : Option Str) (hP : jsTruthyOpt p = none)
    (hn : navOk n) :
    splitOnFirst prevOpen (str "\n" ++ navJoin p n ++ str "\n  ") = none := by
  have hpk : prevOpen.head? = some '<' := rfl
  refine split_none_of_safe (by decide) ?_
  refine safePre_append (safePre_append (safePre_head hpk (by decide)) ?_)
    (safePre_head hpk (by decide))
  rcases hN : jsTruthyOpt n with _ | r'
  · rw [show navJoin p n = backAnchor (jsTruthy p) from by
      unfold navJoin
      rw [navLinks_eq, hP, hN]
      simp [intercalate_single]]
    exact safePre_backAnchor hpk _ (safePre_of_cleanStarts (by decide))
      (safePre_of_cleanStarts (by decide))
  · rw [show navJoin p n = backAnchor (jsTruthy p) ++ str "\n" ++ nextAnchor r' from by
      unfold navJoin
      rw [navLinks_eq, hP, hN]
      simp [intercalate_cons₂, intercalate_single]]
    exact safePre_append (safePre_append
      (safePre_backAnchor hpk _ (safePre_of_cleanStarts (by decide))
        (safePre_of_cleanStarts (by decide)))
      (safePre_head hpk (by decide)))
      (safePre_nextAnchor hpk (navOk_truthy hn hN)
        (safePre_of_cleanStarts (by decide)) (safePre_of_cleanStarts (by decide)))

theorem split_next_none (p n : Option Str) (hp : navOk p)
    (hN : jsTruthyOpt n = none) :
    splitOnFirst nextOpen (str "\n" ++ navJoin p n ++ str "\n  ") = none := by
  have hpk : nextOpen.head? = some '<' := rfl
  refine split_none_of_safe (by decide) ?_
  refine safePre_append (safePre_append (safePre_head hpk (by decide)) ?_)
    (safePre_head hpk (by decide))
  rcases hP : jsTruthyOpt p with _ | q
  · rw [show navJoin p n = backAnchor (jsTruthy p) from by
      unfold navJoin
      rw [navLinks_eq, hP, hN]
      simp [intercalate_single]]
    exact safePre_backAnchor hpk _ (safePre_of_cleanStarts (by decide))
      (safePre_of_cleanStarts (by decide))
  · rw [show navJoin p n = prevAnchor q ++ str "\n" ++ backAnchor (jsTruthy p) from by
      unfold navJoin
      rw [navLinks_eq, hP, hN]
      simp [intercalate_cons₂, intercalate_single]]
    exact safePre_append (safePre_append
      (safePre_prevAnchor hpk (navOk_truthy hp hP)
        (safePre_of_cleanStarts (by decide)) (safePre_of_cleanStarts (by decide)))
      (safePre_head hpk (by decide)))
      (safePre_backAnchor hpk _ (safePre_of_cleanStarts (by decide))
        (safePre_of_cleanStarts (by decide)))

theorem split_prev_some (p n : Option Str) (q : Str)
    (hP : jsTruthyOpt p = some q) :
    ∃ S : Str, splitOnFirst prevOpen (str "\n" ++ navJoin p n ++ str "\n  ") =
      some (str "\n" ++ str "    ",
        q ++ (str ".html" ++ (str "\">← " ++ (q ++ (str "</a>" ++ S))))) := by
  rcases hN : jsTruthyOpt n with _ | r'
  · refine ⟨str "\n" ++ (backAnchor (jsTruthy p) ++ str "\n  "), ?_⟩
    rw [show str "\n" ++ navJoin p n ++ str "\n  " =
        str "\n" ++ (prevAnchor q ++
          (str "\n" ++ (backAnchor (jsTruthy p) ++ str "\n  "))) from by
      rw [show navJoin p n = prevAnchor q ++ str "\n" ++ backAnchor (jsTruthy p) from by
        unfold navJoin
        rw [navLinks_eq, hP, hN]
        simp [intercalate_cons₂, intercalate_single]]
      simp [List.append_assoc]]
    exact split_prev_anchor q _
  · refine ⟨str "\n" ++ (backAnchor (jsTruthy p) ++
      (str "\n" ++ (nextAnchor r' ++ str "\n  "))), ?_⟩
    rw [show str "\n" ++ navJoin p n ++ str "\n  " =
        str "\n" ++ (prevAnchor q ++ (str "\n" ++ (backAnchor (jsTruthy p) ++
          (str "\n" ++ (nextAnchor r' ++ str "\n  "))))) from by
      rw [show navJoin p n = prevAnchor q ++ str "\n" ++
          (backAnchor (jsTruthy p) ++ str "\n" ++ nextAnchor r') from by
        unfold navJoin
        rw [navLinks_eq, hP, hN]
        simp [intercalate_cons₂, intercalate_single]]
      simp [List.append_assoc]]
    exact split_prev_anchor q _

theorem split_next_some (p n : Option Str) (r' : Str)
    (hN : jsTruthyOpt n = some r') (hp : navOk p) :
    ∃ PRE : Str, splitOnFirst nextOpen (str "\n" ++ navJoin p n ++ str "\n  ") =
      some (PRE,
        r' ++ (str ".html" ++ (str "\">" ++ (r' ++ (str " →</a>" ++ str "\n  "))))) := by
  have hpk : nextOpen.head? = some '<' := rfl
  rcases hP : jsTruthyOpt p with _ | q
  · refine ⟨(str "\n" ++ (backAnchor (jsTruthy p) ++ str "\n")) ++ str "    ", ?_⟩
    rw [show str "\n" ++ navJoin p n ++ str "\n  " =
        (str "\n" ++ (backAnchor (jsTruthy p) ++ str "\n")) ++
          (nextAnchor r' ++ str "\n  ") from by
      rw [show navJoin p n = backAnchor (jsTruthy p) ++ str "\n" ++ nextAnchor r' from by
        unfold navJoin
        rw [navLinks_eq, hP, hN]
        simp [intercalate_cons₂, intercalate_single]]
      simp [List.append_assoc]]
    exact split_next_anchor _ r' _
      (safePre_append (safePre_head hpk (by decide))
        (safePre_append
          (safePre_backAnchor hpk _ (safePre_of_cleanStarts (by decide))
            (safePre_of_cleanStarts (by decide)))
          (safePre_head hpk (by decide))))
  · refine ⟨(str "\n" ++ (prevAnchor q ++ (str "\n" ++ (backAnchor (jsTruthy p) ++
      str "\n")))) ++ str "    ", ?_⟩
    rw [show str "\n" ++ navJoin p n ++ str "\n  " =
        (str "\n" ++ (prevAnchor q ++ (str "\n" ++ (backAnchor (jsTruthy p) ++
          str "\n")))) ++ (nextAnchor r' ++ str "\n  ") from by
      rw [show navJoin p n = prevAnchor q ++ str "\n" ++
          (backAnchor (jsTruthy p) ++ str "\n" ++ nextAnchor r') from by
        unfold navJoin
        rw [navLinks_eq, hP, hN]
        simp [intercalate_cons₂, intercalate_single]]
      simp [List.append_assoc]]
    exact split_next_anchor _ r' _
      (safePre_append (safePre_head hpk (by decide))
        (safePre_append
          (safePre_prevAnchor hpk (navOk_truthy hp hP)
            (safePre_of_cleanStarts (by decide)) (safePre_of_cleanStarts (by decide)))
          (safePre_append
            (safePre_head hpk (by decide))
            (safePre_append
              (safePre_backAnchor hpk _ (safePre_of_cleanStarts (by decide))
                (safePre_of_cleanStarts (by decide)))
              (safePre_head hpk (by decide))))))

set_option maxRecDepth 8192 in
/-- Master codec lemma: `parsePost` recovers every field from an assembled
document, for any nav payloads and any all-space extra indent (as produced by
repeated `updatePostNav` rewrites). -/
theorem parsePost_assembled (o : Post) (ind : Str) (p n : Option Str)
    (paras : List Str)
    (hslug : slugOk o.slug) (hdate : dateOk o.date)
    (hcontent : o.content = List.intercalate (str "\n\n") paras)
    (hparas : ∀ q ∈ paras, paraOk q)
    (htags : ∀ t ∈ o.tags, tagOk t)
    (hp : navOk p) (hn : navOk n)
    (hind : ∀ c ∈ ind, c = ' ') :
    parsePost (docAssembled o ind p n) =
      { slug := o.slug, date := o.date, type := o.type, content := o.content,
        tags := o.tags, prevSlug := jsTruthyOpt p, nextSlug := jsTruthyOpt n } := by
  have hsp : splitParas o.content = paras := by
    rw [hcontent]
    exact splitParas_intercalate paras fun q hq => ⟨(hparas q hq).1, (hparas q hq).2.1⟩
  have hTime := split_time_assembled o ind p n hslug
  have hType := split_type_assembled o ind p n hslug hdate
  have hH1 := split_h1_assembled o ind p n hslug hdate
  have hTags := collect_tags_assembled o ind p n hslug hdate htags hp hn hind
  have hNav := between_nav_assembled o ind p n hslug hdate hp hn hind
  rcases hty : o.type with _ | _
  · have hTr := between_transcript_spoken o ind p n hty hslug hdate
    simp only [parsePost]
    rw [hTime, hType, hH1, hNav, hTr, hTags]
    dsimp only
    rw [slugTake_assembled o ind p n hslug, date_assembled o ind p n hdate,
      typeTake_assembled o ind p n, hsp, collect_paras_spoken paras hparas,
      ← hcontent]
    simp only [Post.mk.injEq]
    refine ⟨trivial, trivial, ?_, trivial, trivial, ?_, ?_⟩
    · rw [hty]
      decide
    · rcases hP : jsTruthyOpt p with _ | q
      · rw [split_prev_none p n hP hn]
      · obtain ⟨S, hS⟩ := split_prev_some p n q hP
        rw [hS]
        exact congrArg some (navHref_value (str "\">← " ++ (q ++ (str "</a>" ++ S)))
          (navOk_truthy hp hP) rfl)
    · rcases hN : jsTruthyOpt n with _ | r'
      · rw [split_next_none p n hp hN]
      · obtain ⟨PRE, hS2⟩ := split_next_some p n r' hN hp
        rw [hS2]
        exact congrArg some (navHref_value
          (str "\">" ++ (r' ++ (str " →</a>" ++ str "\n  ")))
          (navOk_truthy hn hN) rfl)
  · have hTrN := between_transcript_written o ind p n hty hslug hdate hp hn hind
    have hMain := between_main_written o ind p n hty hslug hdate
    simp only [parsePost]
    rw [hTime, hType, hH1, hNav, hTrN, hMain, hTags]
    dsimp only
    rw [slugTake_assembled o ind p n hslug, date_assembled o ind p n hdate,
      typeTake_assembled o ind p n,
      collect_paras_main o paras hslug hdate hsp hparas, ← hcontent]
    simp only [Post.mk.injEq]
    refine ⟨trivial, trivial, ?_, trivial, trivial, ?_, ?_⟩
    · rw [hty]
      decide
    · rcases hP : jsTruthyOpt p with _ | q
      · rw [split_prev_none p n hP hn]
      · obtain ⟨S, hS⟩ := split_prev_some p n q hP
        rw [hS]
        exact congrArg some (navHref_value (str "\">← " ++ (q ++ (str "</a>" ++ S)))
          (navOk_truthy hp hP) rfl)
    · rcases hN : jsTruthyOpt n with _ | r'
      · rw [split_next_none p n hp hN]
      · obtain ⟨PRE, hS2⟩ := split_next_some p n r' hN hp
        rw [hS2]
        exact congrArg some (navHref_value
          (str "\">" ++ (r' ++ (str " →</a>" ++ str "\n  ")))
          (navOk_truthy hn hN) rfl)

set_option maxRecDepth 8192 in
/-- `updatePostNav` on an assembled document replaces exactly the nav block,
keeping the rest byte-identical and adding two spaces of indent before the
nav opening tag. -/
theorem updatePostNav_assembled (o : Post) (ind : Str) (p n p2 n2 : Option Str)
    (hslug : slugOk o.slug) (hdate : dateOk o.date)
    (hp : navOk p) (hn : navOk n) (hind : ∀ c ∈ ind, c = ' ') :
    updatePostNav (docAssembled o ind p n) p2 n2 =
      docAssembled o (ind ++ str "  ") p2 n2 := by
  have hpk : navOpenTag.head? = some '<' := rfl
  have hpk2 : (str "</nav>").head? = some '<' := rfl
  have hcore : SafePre navOpenTag (docCore o) :=
    safePre_docCore o hpk (slugOk_no_lt hslug) (dateOk_no_lt hdate)
      (by intro l hl; fin_cases hl <;> exact safePre_of_cleanStarts (by decide))
      (safePre_bodyBlock o.type hpk
        (safePre_parasBlock hpk (safePre_of_cleanStarts (by decide))
          (safePre_of_cleanStarts (by decide)) (safePre_head hpk (by decide)) _)
        (safePre_of_cleanStarts (by decide)) (safePre_of_cleanStarts (by decide))
        (safePre_of_cleanStarts (by decide)))
      (safePre_tagsBlock hpk (safePre_of_cleanStarts (by decide))
        (safePre_of_cleanStarts (by decide)) (safePre_head hpk (by decide)) _)
  have hnavJ : SafePre (str "</nav>") (navJoin p n) :=
    safePre_navJoin hpk2 hp hn (safePre_of_cleanStarts (by decide))
      (safePre_of_cleanStarts (by decide)) (safePre_of_cleanStarts (by decide))
      (safePre_of_cleanStarts (by decide)) (safePre_of_cleanStarts (by decide))
      (safePre_of_cleanStarts (by decide))
  have h1 : splitOnFirst navOpenTag (docAssembled o ind p n) =
      some (docCore o ++ ind ++ str "  ",
        str "\n" ++ navJoin p n ++ str "\n  " ++ (str "</nav>" ++ docTail2)) := by
    rw [show docAssembled o ind p n =
        (docCore o ++ ind ++ str "  ") ++ navOpenTag ++
          (str "\n" ++ navJoin p n ++ str "\n  " ++ (str "</nav>" ++ docTail2)) from by
      simp only [docAssembled]
      simp [List.append_assoc]]
    exact split_at (by decide) (safePre_append (safePre_append hcore
      (safePre_spaces hpk hind)) (safePre_head hpk (by decide)))
  have h2 : splitOnFirst (str "</nav>")
      (str "\n" ++ navJoin p n ++ str "\n  " ++ (str "</nav>" ++ docTail2)) =
      some (str "\n" ++ navJoin p n ++ str "\n  ", docTail2) := by
    rw [show str "\n" ++ navJoin p n ++ str "\n  " ++ (str "</nav>" ++ docTail2) =
        (str "\n" ++ navJoin p n ++ str "\n  ") ++ str "</nav>" ++ docTail2 from by
      simp [List.append_assoc]]
    exact split_at (by decide) (safePre_append (safePre_append
      (safePre_head hpk2 (by decide)) hnavJ) (safePre_head hpk2 (by decide)))
  unfold updatePostNav
  rw [h1]
  dsimp only
  rw [h2]
  dsimp only
  simp only [docAssembled, navJoin]
  rw [show str "  <nav class=\"post-nav\">\n" = str "  " ++ navOpenTag ++ str "\n"
      from by decide,
    show str "\n  </nav>" = str "\n  " ++ str "</nav>" from by decide]
  simp [List.append_assoc]

/-! ## Generic occurrence and slicing lemmas -/

theorem safePre_mono {p pat s : Str} (hpre : p <+: pat) (h : SafePre p s) :
    SafePre pat s := fun t i hi hcon => h t i hi (hpre.trans hcon)

theorem split_isSome_at {pat : Str} (hpat : pat ≠ []) :
    ∀ (a b : Str), (splitOnFirst pat (a ++ pat ++ b)).isSome = true := by
  intro a b
  induction a with
  | nil =>
    rcases hp : pat with _ | ⟨p, ps⟩
    · exact absurd hp hpat
    · show (splitOnFirst (p :: ps) (p :: (ps ++ b))).isSome = true
      have hpre : (p :: ps).isPrefixOf (p :: (ps ++ b)) = true :=
        List.isPrefixOf_iff_prefix.mpr (List.prefix_append _ _)

      simp [splitOnFirst, hpre]
  | cons c a' ih =>
    have hstep : splitOnFirst pat ((c :: a') ++ pat ++ b) =
        if pat.isPrefixOf (c :: (a' ++ pat ++ b))
        then some ([], (c :: (a' ++ pat ++ b)).drop pat.length)
        else match splitOnFirst pat (a' ++ pat ++ b) with
          | some (x, y) => some (c :: x, y)
          | none => none := rfl
    rw [hstep]
    by_cases hp : pat.isPrefixOf (c :: (a' ++ pat ++ b))
    · rw [if_pos hp]
      rfl
    · rw [if_neg hp]
      rcases hx : splitOnFirst pat (a' ++ pat ++ b) with _ | x
      · rw [hx] at ih
        simp at ih
      · rfl

theorem no_occurrence_of_split_none {pat s : Str} (hpat : pat ≠ [])
    (h : splitOnFirst pat s = none) : ∀ a b, s ≠ a ++ pat ++ b := by
  intro a b heq
  have hs := split_isSome_at hpat a b
  rw [← heq, h] at hs
  simp at hs

theorem jsTruthyOpt_ne {x : Option Str} {q : Str} (h : jsTruthyOpt x = some q) :
    q ≠ [] := by
  rcases x with _ | s
  · simp [jsTruthyOpt] at h
  · simp only [jsTruthyOpt] at h
    by_cases hs : s.isEmpty
    · simp [hs] at h
    · simp [hs] at h
      subst h
      simpa [List.isEmpty_iff] using hs

theorem jsTruthyOpt_idem (x : Option Str) :
    jsTruthyOpt (jsTruthyOpt x) = jsTruthyOpt x := by
  rcases x with _ | s
  · rfl
  · simp only [jsTruthyOpt]
    by_cases hs : s.isEmpty <;> simp [hs, jsTruthyOpt]

theorem navOk_truthyOpt {x : Option Str} (h : navOk x) : navOk (jsTruthyOpt x) := by
  rcases x with _ | s
  · exact trivial
  · simp only [jsTruthyOpt]
    by_cases hs : s.isEmpty
    · simp [hs]
      exact trivial
    · simpa [hs] using h

theorem jsTruthyOpt_eq_self {x : Option Str} (hx : ∀ q, x = some q → q ≠ []) :
    jsTruthyOpt x = x := by
  rcases x with _ | s
  · rfl
  · simp only [jsTruthyOpt]
    rw [if_neg]
    simp only [List.isEmpty_iff]
    exact hx s rfl

theorem findPostLink_ne : ∀ {s h : Str}, findPostLink s = some h → h ≠ [] := by
  intro s
  induction s with
  | nil =>
    intro h hcon
    simp [findPostLink] at hcon
  | cons c rest ih =>
    intro h hcon
    simp only [findPostLink] at hcon
    split at hcon
    · split at hcon
      · rename_i hcond
        simp only [Bool.and_eq_true, Bool.not_eq_true'] at hcond
        injection hcon with hcon
        rw [← hcon]
        simpa [List.isEmpty_iff] using hcond.1
      · exact ih hcon
    · exact ih hcon

theorem getNewestSlug_ne {html h : Str} (hg : getNewestSlug html = some h) :
    h ≠ [] := by
  unfold getNewestSlug at hg
  rcases hs : splitOnFirst rowMarker html with _ | x <;> rw [hs] at hg
  · simp at hg
  · exact findPostLink_ne hg

theorem jsIndexOf_at {pat a b : Str} (hpat : pat ≠ []) (ha : SafePre pat a) :
    jsIndexOf (a ++ pat ++ b) pat = (a.length : Int) := by
  unfold jsIndexOf
  rw [List.drop_zero, split_at hpat ha]
  simp

theorem jsIndexOf_start_at {s pat a b : Str} {start : Nat} (hpat : pat ≠ [])
    (hdrop : s.drop start = a ++ pat ++ b) (ha : SafePre pat a) :
    jsIndexOf s pat start = ((start + a.length : Nat) : Int) := by
  unfold jsIndexOf
  rw [hdrop, split_at hpat ha]

theorem jsIndexOf_none {s pat : Str} (h : splitOnFirst pat s = none) :
    jsIndexOf s pat = -1 := by
  unfold jsIndexOf
  rw [List.drop_zero, h]

theorem jsSlice_prefix (X Y : Str) : jsSlice (X ++ Y) 0 (X.length : Int) = X := by
  unfold jsSlice jsNormIdx
  rw [if_neg (by omega), if_neg (by omega)]
  simp [List.take_left]

theorem jsSliceFrom_at (X Y : Str) : jsSliceFrom (X ++ Y) (X.length : Int) = Y := by
  unfold jsSliceFrom jsNormIdx
  rw [if_neg (by omega)]
  simp [List.drop_left]

/-! ## Digits -/

theorem natDigits_mem (n : Nat) :
    ∀ c ∈ natDigits n, ∃ k, k < 10 ∧ c = Char.ofNat (48 + k) := by
  induction n using Nat.strong_induction_on with
  | _ n ih =>
    rw [natDigits]
    by_cases h : n < 10
    · rw [if_pos h]
      intro c hc
      simp at hc
      exact ⟨n, h, hc⟩
    · rw [if_neg h]
      intro c hc
      rcases List.mem_append.mp hc with h1 | h1
      · exact ih (n / 10) (Nat.div_lt_self (by omega) (by decide)) c h1
      · simp at h1
        exact ⟨n % 10, Nat.mod_lt _ (by decide), h1⟩

theorem digit_ne_lt {k : Nat} (hk : k < 10) : Char.ofNat (48 + k) ≠ '<' := by
  interval_cases k <;> decide

theorem digit_ne_l {k : Nat} (hk : k < 10) : Char.ofNat (48 + k) ≠ 'l' := by
  interval_cases k <;> decide

theorem renderCount_no_lt (n : Nat) : ∀ c ∈ renderCount n, c ≠ '<' := by
  unfold renderCount
  by_cases h : n = 1
  · rw [if_pos h]
    decide
  · rw [if_neg h]
    intro c hc
    rcases List.mem_append.mp hc with h1 | h1
    · obtain ⟨k, hk, hck⟩ := natDigits_mem n c h1
      rw [hck]
      exact digit_ne_lt hk
    · exact (by decide : ∀ c ∈ str " entries", c ≠ '<') c h1

theorem renderCount_no_l (n : Nat) : ∀ c ∈ renderCount n, c ≠ 'l' := by
  unfold renderCount
  by_cases h : n = 1
  · rw [if_pos h]
    decide
  · rw [if_neg h]
    intro c hc
    rcases List.mem_append.mp hc with h1 | h1
    · obtain ⟨k, hk, hck⟩ := natDigits_mem n c h1
      rw [hck]
      exact digit_ne_l hk
    · exact (by decide : ∀ c ∈ str " entries", c ≠ 'l') c h1

/-! ## The count paragraph -/

theorem findCountPara_at {a c b : Str} (ha : SafePre countPre a)
    (hc : ∀ x ∈ c, x ≠ '<') :
    findCountPara (a ++ countPre ++ (c ++ (str "</p>" ++ b))) = some (a, c, b) := by
  rw [findCountPara]
  rw [split_at (by decide) ha]
  dsimp only
  rw [takeUntil_append hc (show (str "</p>" ++ b).head? = some '<' from rfl)]
  rw [List.drop_left]
  rw [if_pos (List.isPrefixOf_iff_prefix.mpr (List.prefix_append _ _))]
  have h4 : (str "</p>" ++ b).drop 4 = b := rfl
  rw [h4]

/-- A bound on straddling occurrences, decidable for concrete `pat`/`lit`. -/
def straddleFree (pat lit : Str) : Bool :=
  (List.range pat.length).all fun k =>
    if k = 0 then true
    else if k ≤ lit.length then !(decide (pat.take k <:+ lit))
    else !(decide (lit <:+ pat.take k))

theorem noStraddle_of_straddleFree {pat a b lit : Str} (hs : lit <:+ a)
    (hf : straddleFree pat lit = true) : NoStraddle pat a b := by
  refine noStraddle_of_suffix hs ?_ ?_
  · intro k hk1 hk2 hk3
    have h := List.all_eq_true.mp hf k (List.mem_range.mpr hk2)
    rw [if_neg (by omega), if_pos hk3] at h
    simpa using h
  · intro k hk2 hk3
    have h := List.all_eq_true.mp hf k (List.mem_range.mpr hk2)
    rw [if_neg (by omega), if_neg (by omega)] at h
    simpa using h

theorem countPara_count {a c b : Str} (hc : ∀ x ∈ c, x ≠ '<') :
    countOccur rowMarker (a ++ countPre ++ (c ++ (str "</p>" ++ b))) =
      countOccur rowMarker (a ++ countPre) + countOccur rowMarker b := by
  have hpk : rowMarker.head? = some '<' := rfl
  rw [countOccur_append_of_noStraddle (by decide)
    (noStraddle_of_straddleFree (List.suffix_append a countPre) (by decide))]
  rw [countOccur_append_safe (by decide) (safePre_head hpk hc)]
  rw [countOccur_append_safe (by decide)
    (show SafePre rowMarker (str "</p>") from safePre_of_cleanStarts (by decide))]

theorem updateCount_at {a c b : Str} (ha : SafePre countPre a)
    (hc : ∀ x ∈ c, x ≠ '<') :
    updateCount (a ++ countPre ++ (c ++ (str "</p>" ++ b))) =
      a ++ countPre ++
        renderCount (countOccur rowMarker (a ++ countPre ++ (c ++ (str "</p>" ++ b)))) ++
        str "</p>" ++ b := by
  unfold updateCount
  rw [findCountPara_at ha hc]

theorem filter_range_getLast {p : Nat → Bool} :
    ∀ {n i0 : Nat}, i0 < n → p i0 = true → (∀ j, i0 < j → j < n → p j = false) →
      ((List.range n).filter p).getLast? = some i0 := by
  intro n
  induction n with
  | zero =>
    intro i0 h1 _ _
    omega
  | succ n ih =>
    intro i0 h1 h2 h3
    rw [List.range_succ, List.filter_append]
    by_cases hn : i0 = n
    · subst hn
      rw [show List.filter p [i0] = [i0] from by simp [List.filter_cons, h2]]
      exact List.getLast?_concat _
    · have hi0 : i0 < n := by omega
      rw [show List.filter p [n] = [] from by
        simp [List.filter_cons, h3 n (by omega) (by omega)]]
      rw [List.append_nil]
      exact ih hi0 h2 fun j a b => h3 j a (by omega)

theorem jsLastIndexOf_eq {s pat : Str} {fromI i0 : Nat}
    (hle : i0 ≤ fromI) (hmatch : matchesAt pat s i0 = true)
    (habove : ∀ j, i0 < j → j ≤ fromI → matchesAt pat s j = false) :
    jsLastIndexOf s pat fromI = (i0 : Int) := by
  unfold jsLastIndexOf
  rw [filter_range_getLast (by omega) hmatch fun j a b =>
    habove j a (by omega)]

theorem backOverSpaces_eq {html : Str} {k w : Nat}
    (hsp : ∀ j, k ≤ j → j < k + w → html.getD j '\x00' = ' ')
    (hstop : k = 0 ∨ html.getD (k - 1) '\x00' ≠ ' ') :
    backOverSpaces html (k + w) = k := by
  induction w with
  | zero =>
    rcases hstop with h | h
    · subst h
      rfl
    · rcases k with _ | m
      · rfl
      · show backOverSpaces html (m + 1) = m + 1
        unfold backOverSpaces
        rw [if_neg]
        simpa using h
  | succ w ih =>
    show backOverSpaces html (k + w + 1) = k
    unfold backOverSpaces
    rw [if_pos (hsp (k + w) (by omega) (by omega))]
    exact ih fun j h1 h2 => hsp j h1 (by omega)

theorem marker_ne (slug : Str) : str "posts/" ++ slug ++ str ".html" ≠ [] := by
  intro hcon
  rw [List.append_assoc] at hcon
  rcases List.append_eq_nil.mp hcon with ⟨h1, _⟩
  exact absurd h1 (by decide)

theorem matchesAt_false_of_safe {pat S T : Str} {i : Nat} (hS : SafePre pat S)
    (hi : i < S.length) : pat.isPrefixOf ((S ++ T).drop i) = false := by
  rw [Bool.eq_false_iff]
  intro htrue
  exact hS T i hi (List.isPrefixOf_iff_prefix.mp htrue)

/-- The row-removal path of `removeFromIndex`: with the targeted row laid out
as `… '\n' ⟨spaces⟩ rowMarker … marker … rowEndMarker …` and each scan's first
hit at its intended place, the slice bounds cut exactly the row (with its
leading indent and newline) and the count is recomputed on the remainder. -/
theorem removeFromIndex_at (P1 W M Q R slug : Str)
    (hW : ∀ c ∈ W, c = ' ')
    (hM : SafePre (str "posts/" ++ slug ++ str ".html")
      (P1 ++ str "\n" ++ W ++ rowMarker ++ M))
    (hRow : SafePre rowMarker (str "!-- post-row -->" ++
      (M ++ (str "posts/" ++ slug ++ str ".html"))))
    (hEnd : SafePre rowEndMarker ((str "posts/" ++ slug ++ str ".html") ++ Q)) :
    removeFromIndex (P1 ++ str "\n" ++ W ++ rowMarker ++ M ++
      (str "posts/" ++ slug ++ str ".html") ++ Q ++ rowEndMarker ++ R) slug =
    updateCount (P1 ++ R) := by
  set mk : Str := str "posts/" ++ slug ++ str ".html" with hmk
  set html : Str := P1 ++ str "\n" ++ W ++ rowMarker ++ M ++ mk ++ Q ++
    rowEndMarker ++ R with hhtml
  set pm : Nat := (P1 ++ str "\n" ++ W ++ rowMarker ++ M).length with hpm
  set pr : Nat := (P1 ++ str "\n" ++ W).length with hpr
  have hprv : pr = P1.length + 1 + W.length := by
    rw [hpr]
    simp only [List.length_append]
    rw [show (str "\n").length = 1 from rfl]
  have hpmv : pm = pr + 17 + M.length := by
    rw [hpm, hpr]
    simp only [List.length_append]
    rw [show rowMarker.length = 17 from rfl]
  have hpos : jsIndexOf html mk = (pm : Int) := by
    rw [show html = (P1 ++ str "\n" ++ W ++ rowMarker ++ M) ++ mk ++
        (Q ++ rowEndMarker ++ R) from by
      rw [hhtml]
      simp [List.append_assoc]]
    exact jsIndexOf_at (marker_ne slug) hM
  have hdrop_pr : html.drop pr = rowMarker ++ (M ++ mk ++ Q ++ rowEndMarker ++ R) := by
    rw [show html = (P1 ++ str "\n" ++ W) ++
        (rowMarker ++ (M ++ mk ++ Q ++ rowEndMarker ++ R)) from by
      rw [hhtml]
      simp [List.append_assoc]]
    rw [hpr, List.drop_left]
  have hlast : jsLastIndexOf html rowMarker pm = (pr : Int) := by
    refine jsLastIndexOf_eq (by omega) ?_ ?_
    · unfold matchesAt
      rw [hdrop_pr]
      exact List.isPrefixOf_iff_prefix.mpr (List.prefix_append _ _)
    · intro j hj1 hj2
      have hmklen : 1 ≤ mk.length := by
        rcases hq : mk with _ | ⟨x, xs⟩
        · exact absurd (hmk ▸ hq) (marker_ne slug)
        · simp only [List.length_cons]
          omega
      have hSlen : (str "!-- post-row -->" ++ (M ++ mk)).length =
          16 + M.length + mk.length := by
        simp only [List.length_append]
        rw [show (str "!-- post-row -->").length = 16 from rfl]
        omega
      have hdrop_j : html.drop j =
          ((str "!-- post-row -->" ++ (M ++ mk)) ++ (Q ++ rowEndMarker ++ R)).drop
            (j - pr - 1) := by
        rw [show html = ((P1 ++ str "\n" ++ W) ++ ['<']) ++
            ((str "!-- post-row -->" ++ (M ++ mk)) ++ (Q ++ rowEndMarker ++ R)) from by
          rw [hhtml, show rowMarker = '<' :: str "!-- post-row -->" from rfl]
          simp [List.append_assoc]]
        rw [List.drop_append_eq_append_drop]
        have hjlen : j - ((P1 ++ str "\n" ++ W) ++ ['<']).length = j - pr - 1 := by
          simp only [List.length_append, List.length_cons, List.length_nil, hpr]
          omega
        have hnil : (((P1 ++ str "\n" ++ W) ++ ['<']).drop j) = [] := by
          apply List.drop_eq_nil_iff.mpr
          simp [List.length_append, hpr] at hj1 ⊢
          omega
        rw [hjlen, hnil, List.nil_append]
      unfold matchesAt
      rw [hdrop_j]
      exact matchesAt_false_of_safe hRow (by omega)
  have hdrop_pm : html.drop pm = (mk ++ Q) ++ (rowEndMarker ++ R) := by
    rw [show html = (P1 ++ str "\n" ++ W ++ rowMarker ++ M) ++
        ((mk ++ Q) ++ (rowEndMarker ++ R)) from by
      rw [hhtml]
      simp [List.append_assoc]]
    rw [hpm, List.drop_left]
  have hend : jsIndexOf html rowEndMarker pm =
      ((pm + (mk ++ Q).length : Nat) : Int) := by
    refine jsIndexOf_start_at (b := R) (by decide) ?_ hEnd
    rw [hdrop_pm]
    simp [List.append_assoc]
  have hgetD_nl : html.getD P1.length '\x00' = '\n' := by
    rw [show html = P1 ++ (str "\n" ++
        (W ++ rowMarker ++ M ++ mk ++ Q ++ rowEndMarker ++ R)) from by
      rw [hhtml]
      simp [List.append_assoc]]
    rw [List.getD_append_right _ _ _ _ (le_refl P1.length)]
    simp only [Nat.sub_self]
    rfl
  have hback : backOverSpaces html pr = P1.length + 1 := by
    rw [show pr = (P1.length + 1) + W.length from by omega]
    refine backOverSpaces_eq ?_ ?_
    · intro j hj1 hj2
      rw [show html = (P1 ++ str "\n") ++
          (W ++ (rowMarker ++ M ++ mk ++ Q ++ rowEndMarker ++ R)) from by
        rw [hhtml]
        simp [List.append_assoc]]
      have hlen1 : (P1 ++ str "\n").length = P1.length + 1 := by simp [str]
      rw [List.getD_append_right _ _ _ _ (by omega)]
      rw [hlen1]
      have hjW : j - (P1.length + 1) < W.length := by omega
      rw [List.getD_append _ _ _ _ (by omega)]
      rw [List.getD_eq_getElem _ _ hjW]
      exact hW _ (List.getElem_mem hjW)
    · right
      simp only [Nat.add_sub_cancel]
      rw [hgetD_nl]
      decide
  -- assemble
  simp only [removeFromIndex]
  rw [← hmk, hpos]
  rw [if_neg (by omega)]
  rw [show ((pm : Int)).toNat = pm from Int.toNat_natCast pm]
  rw [hlast, hend]
  have hs0pos : ¬ ((pr : Int) ≤ 0) := by
    rw [hprv]
    omega
  rw [if_neg hs0pos]
  rw [show ((pr : Int)).toNat = pr from Int.toNat_natCast pr]
  rw [hback]
  have hcond : ((P1.length + 1 : Nat) : Int) > 0 ∧
      html.getD (((P1.length + 1 : Nat) : Int).toNat - 1) '\x00' = '\n' := by
    constructor
    · omega
    · rw [show (((P1.length + 1 : Nat) : Int)).toNat - 1 = P1.length from by omega]
      exact hgetD_nl
  rw [if_pos hcond]
  have hslice1 : jsSlice html 0 (((P1.length + 1 : Nat) : Int) - 1) = P1 := by
    rw [show (((P1.length + 1 : Nat) : Int)) - 1 = (P1.length : Int) from by omega]
    rw [show html = P1 ++ (str "\n" ++
        (W ++ rowMarker ++ M ++ mk ++ Q ++ rowEndMarker ++ R)) from by
      rw [hhtml]
      simp [List.append_assoc]]
    exact jsSlice_prefix _ _
  have hslice2 : jsSliceFrom html (((pm + (mk ++ Q).length : Nat) : Int) + 18) = R := by
    have hlen : (P1 ++ str "\n" ++ W ++ rowMarker ++ M ++ mk ++ Q ++
        rowEndMarker).length = pm + (mk ++ Q).length + 18 := by
      rw [hpm]
      simp [List.length_append]
      rw [show rowEndMarker.length = 18 from rfl]
      omega
    rw [show (((pm + (mk ++ Q).length : Nat) : Int) + 18) =
        (((P1 ++ str "\n" ++ W ++ rowMarker ++ M ++ mk ++ Q ++
          rowEndMarker).length : Nat) : Int) from by
      rw [hlen]
      push_cast
      ring]
    rw [show html = (P1 ++ str "\n" ++ W ++ rowMarker ++ M ++ mk ++ Q ++
        rowEndMarker) ++ R from by rw [hhtml]]
    exact jsSliceFrom_at _ _
  rw [hslice1, hslice2]

/-- The table row `addToIndex` builds (its `row` local). -/
def rowOf (date : Str) (ty : PostType) (slug desc : Str) : Str :=
  str "          <!-- post-row -->\n          <tr class=\"" ++ ty.toStr ++
  str "\">\n            <td class=\"ls-date\" data-date=\"" ++ date ++ str "\">" ++
  jsAt (splitOnChar '-' date) 2 ++ str "</td>\n            <td class=\"ls-type " ++
  ty.toStr ++ str "\">" ++
  (match ty with | .spoken => str "spkn" | .written => str "writ") ++
  str "</td>\n            <td><a href=\"posts/" ++ slug ++ str ".html\">" ++
  slug ++ str "</a> <span class=\"ls-desc\">— " ++ esc desc ++
  str "</span></td>\n          </tr>\n          <!-- /post-row -->"

/-- The month-group header row, for the month parsed out of `date`. -/
def monthTagOf (date : Str) : Str :=
  str "ls-group-month\"><td colspan=\"3\">" ++
    jsAtNum MONTHS (jsToNumber (jsAt (splitOnChar '-' date) 1)) ++ str "</td></tr>"

theorem monthTagOf_split (date : Str) :
    monthTagOf date =
      (str "ls-group-month\"><td colspan=\"3\">" ++
        jsAtNum MONTHS (jsToNumber (jsAt (splitOnChar '-' date) 1)) ++ str "<") ++
      str "/td></tr>" := by
  unfold monthTagOf
  rw [show str "</td></tr>" = str "<" ++ str "/td></tr>" from by decide]
  simp [List.append_assoc]

theorem monthTag1_ne (date : Str) :
    str "ls-group-month\"><td colspan=\"3\">" ++
      jsAtNum MONTHS (jsToNumber (jsAt (splitOnChar '-' date) 1)) ++ str "<" ≠ [] := by
  intro hcon
  rw [List.append_assoc] at hcon
  rcases List.append_eq_nil.mp hcon with ⟨h1, _⟩
  exact absurd h1 (by decide)

theorem monthTag2_ne (date : Str) : monthTagOf date ≠ [] := by
  intro hcon
  unfold monthTagOf at hcon
  rw [List.append_assoc] at hcon
  rcases List.append_eq_nil.mp hcon with ⟨h1, _⟩
  exact absurd h1 (by decide)

/-- The `hasMonth` branch of `addToIndex`: the new row goes right after the
month header's `</td></tr>`, and the count is recomputed. -/
theorem addToIndex_month (A B date : Str) (ty : PostType) (slug desc : Str)
    (hA : SafePre (str "ls-group-month\"><td colspan=\"3\">" ++
      jsAtNum MONTHS (jsToNumber (jsAt (splitOnChar '-' date) 1)) ++ str "<") A) :
    addToIndex (A ++ monthTagOf date ++ B) date ty slug desc =
      updateCount ((A ++ monthTagOf date) ++ str "\n" ++
        rowOf date ty slug desc ++ B) := by
  have hA2 : SafePre (monthTagOf date) A := by
    refine safePre_mono ?_ hA
    rw [monthTagOf_split]
    exact List.prefix_append _ _
  have h1 : jsIndexOf (A ++ monthTagOf date ++ B)
      (str "ls-group-month\"><td colspan=\"3\">" ++
        jsAtNum MONTHS (jsToNumber (jsAt (splitOnChar '-' date) 1)) ++ str "<") =
      (A.length : Int) := by
    rw [show A ++ monthTagOf date ++ B =
        A ++ (str "ls-group-month\"><td colspan=\"3\">" ++
          jsAtNum MONTHS (jsToNumber (jsAt (splitOnChar '-' date) 1)) ++ str "<") ++
        (str "/td></tr>" ++ B) from by
      rw [show monthTagOf date =
          (str "ls-group-month\"><td colspan=\"3\">" ++
            jsAtNum MONTHS (jsToNumber (jsAt (splitOnChar '-' date) 1)) ++ str "<") ++
          str "/td></tr>" from monthTagOf_split date]
      simp [List.append_assoc]]
    exact jsIndexOf_at (monthTag1_ne date) hA
  have h2 : jsIndexOf (A ++ monthTagOf date ++ B) (monthTagOf date) =
      (A.length : Int) := jsIndexOf_at (monthTag2_ne date) hA2
  simp only [addToIndex]
  rw [show str "ls-group-month\"><td colspan=\"3\">" ++
      jsAtNum MONTHS (jsToNumber (jsAt (splitOnChar '-' date) 1)) ++
      str "</td></tr>" = monthTagOf date from rfl]
  rw [h1]
  rw [if_pos (show (A.length : Int) > -1 from by omega)]
  rw [h2]
  have hslice1 : jsSlice (A ++ monthTagOf date ++ B) 0
      ((A.length : Int) + ((monthTagOf date).length : Int)) = A ++ monthTagOf date := by
    rw [show (A.length : Int) + ((monthTagOf date).length : Int) =
        (((A ++ monthTagOf date).length : Nat) : Int) from by
      simp [List.length_append]]
    rw [show A ++ monthTagOf date ++ B = (A ++ monthTagOf date) ++ B from rfl]
    exact jsSlice_prefix _ _
  have hslice2 : jsSliceFrom (A ++ monthTagOf date ++ B)
      ((A.length : Int) + ((monthTagOf date).length : Int)) = B := by
    rw [show (A.length : Int) + ((monthTagOf date).length : Int) =
        (((A ++ monthTagOf date).length : Nat) : Int) from by
      simp [List.length_append]]
    rw [show A ++ monthTagOf date ++ B = (A ++ monthTagOf date) ++ B from rfl]
    exact jsSliceFrom_at _ _
  rw [hslice1, hslice2]
  rfl

theorem updateCount_count {a c b : Str} (ha : SafePre countPre a)
    (hc : ∀ x ∈ c, x ≠ '<') :
    countOccur rowMarker (updateCount (a ++ countPre ++ (c ++ (str "</p>" ++ b)))) =
      countOccur rowMarker (a ++ countPre ++ (c ++ (str "</p>" ++ b))) := by
  rw [updateCount_at ha hc]
  rw [show a ++ countPre ++
      renderCount (countOccur rowMarker (a ++ countPre ++ (c ++ (str "</p>" ++ b)))) ++
      str "</p>" ++ b =
    a ++ countPre ++
      (renderCount (countOccur rowMarker (a ++ countPre ++ (c ++ (str "</p>" ++ b)))) ++
        (str "</p>" ++ b)) from by simp [List.append_assoc]]
  rw [countPara_count (renderCount_no_lt _), countPara_count hc]

theorem splitOnCharAux_mem {c : Char} :
    ∀ {s acc piece : Str}, piece ∈ splitOnCharAux c acc s →
      ∀ x ∈ piece, x ∈ acc ∨ x ∈ s := by
  intro s
  induction s with
  | nil =>
    intro acc piece hp x hx
    simp [splitOnCharAux] at hp
    subst hp
    exact Or.inl (by simpa using hx)
  | cons d rest ih =>
    intro acc piece hp x hx
    rw [splitOnCharAux] at hp
    by_cases hd : d = c
    · rw [if_pos hd] at hp
      rcases List.mem_cons.mp hp with h | h
      · subst h
        exact Or.inl (by simpa using hx)
      · rcases ih h x hx with h2 | h2
        · simp at h2
        · exact Or.inr (List.mem_cons_of_mem _ h2)
    · rw [if_neg hd] at hp
      rcases ih hp x hx with h2 | h2
      · rcases List.mem_cons.mp h2 with h3 | h3
        · subst h3
          exact Or.inr (List.mem_cons_self _ _)
        · exact Or.inl h3
      · exact Or.inr (List.mem_cons_of_mem _ h2)

theorem jsAt_mem {l : List Str} {i : Nat} {x : Char} (hx : x ∈ jsAt l i) :
    (∃ p ∈ l, x ∈ p) ∨ x ∈ str "undefined" := by
  unfold jsAt at hx
  by_cases h : i < l.length
  · rw [List.getD_eq_getElem _ _ h] at hx
    exact Or.inl ⟨l[i], List.getElem_mem h, hx⟩
  · rw [List.getD_eq_default _ _ (by omega)] at hx
    exact Or.inr hx

theorem splitDate_no_lt {date : Str} (hdate : ∀ x ∈ date, x ≠ '<') (i : Nat) :
    ∀ x ∈ jsAt (splitOnChar '-' date) i, x ≠ '<' := by
  intro x hx
  rcases jsAt_mem hx with ⟨p, hp, hxp⟩ | h
  · exact hdate x (by
      rcases splitOnCharAux_mem hp x hxp with h2 | h2
      · simp at h2
      · exact h2)
  · exact (by decide : ∀ x ∈ str "undefined", x ≠ '<') x h

/-- The row after its leading indent and `post-row` marker. -/
def rowRestOf (date : Str) (ty : PostType) (slug desc : Str) : Str :=
  str "\n          <tr class=\"" ++ ty.toStr ++
  str "\">\n            <td class=\"ls-date\" data-date=\"" ++ date ++ str "\">" ++
  jsAt (splitOnChar '-' date) 2 ++ str "</td>\n            <td class=\"ls-type " ++
  ty.toStr ++ str "\">" ++
  (match ty with | .spoken => str "spkn" | .written => str "writ") ++
  str "</td>\n            <td><a href=\"posts/" ++ slug ++ str ".html\">" ++
  slug ++ str "</a> <span class=\"ls-desc\">— " ++ esc desc ++
  str "</span></td>\n          </tr>\n          <!-- /post-row -->"

theorem rowOf_split (date : Str) (ty : PostType) (slug desc : Str) :
    rowOf date ty slug desc =
      str "          " ++ rowMarker ++ rowRestOf date ty slug desc := by
  unfold rowOf rowRestOf
  rw [show str "          <!-- post-row -->\n          <tr class=\"" =
      str "          " ++ rowMarker ++ str "\n          <tr class=\"" from by decide]
  simp [List.append_assoc]

theorem safePre_rowRest (date : Str) (ty : PostType) (slug desc : Str)
    (hslug : ∀ x ∈ slug, x ≠ '<') (hdate : ∀ x ∈ date, x ≠ '<') :
    SafePre rowMarker (rowRestOf date ty slug desc) := by
  have hpk : rowMarker.head? = some '<' := rfl
  unfold rowRestOf
  cases ty <;>
    repeat' apply safePre_append
  all_goals first
    | exact safePre_head hpk hslug
    | exact safePre_head hpk hdate
    | exact safePre_head hpk (splitDate_no_lt hdate 2)
    | exact safePre_head hpk (toStr_no_lt _)
    | exact safePre_head hpk fun x hx hxeq => esc_no_lt (hxeq ▸ hx)
    | exact safePre_of_cleanStarts (by decide)

theorem monthTag_close_suffix (date d : Str) :
    str "</td></tr>" <:+ d ++ monthTagOf date := by
  refine List.IsSuffix.trans ?_ (List.suffix_append d (monthTagOf date))
  unfold monthTagOf
  exact List.suffix_append _ _

/-- Inserting a row in the month branch raises the row-marker count by one,
and the count paragraph sitting before the month header is recomputed. -/
theorem addToIndex_month_count (a c d B date : Str) (ty : PostType)
    (slug desc : Str)
    (hac : SafePre countPre a) (hcc : ∀ x ∈ c, x ≠ '<')
    (hA : SafePre (str "ls-group-month\"><td colspan=\"3\">" ++
      jsAtNum MONTHS (jsToNumber (jsAt (splitOnChar '-' date) 1)) ++ str "<")
      (a ++ countPre ++ (c ++ (str "</p>" ++ d))))
    (hslug : ∀ x ∈ slug, x ≠ '<') (hdate : ∀ x ∈ date, x ≠ '<') :
    countOccur rowMarker
      (addToIndex ((a ++ countPre ++ (c ++ (str "</p>" ++ d))) ++
        monthTagOf date ++ B) date ty slug desc) =
    countOccur rowMarker
      ((a ++ countPre ++ (c ++ (str "</p>" ++ d))) ++ monthTagOf date ++ B) + 1 := by
  have hpk : rowMarker.head? = some '<' := rfl
  rw [addToIndex_month _ B date ty slug desc hA]
  rw [show ((a ++ countPre ++ (c ++ (str "</p>" ++ d))) ++ monthTagOf date) ++
      str "\n" ++ rowOf date ty slug desc ++ B =
    a ++ countPre ++ (c ++ (str "</p>" ++ (d ++ (monthTagOf date ++
      (str "\n" ++ (rowOf date ty slug desc ++ B)))))) from by
    simp [List.append_assoc]]
  rw [updateCount_count hac hcc]
  rw [countPara_count hcc]
  rw [show (a ++ countPre ++ (c ++ (str "</p>" ++ d))) ++ monthTagOf date ++ B =
    a ++ countPre ++ (c ++ (str "</p>" ++ (d ++ (monthTagOf date ++ B)))) from by
    simp [List.append_assoc]]
  rw [countPara_count hcc]
  rw [show d ++ (monthTagOf date ++ (str "\n" ++ (rowOf date ty slug desc ++ B))) =
    (d ++ monthTagOf date) ++ (str "\n" ++ (rowOf date ty slug desc ++ B)) from by
    simp [List.append_assoc]]
  rw [countOccur_append_of_noStraddle (by decide)
    (noStraddle_of_straddleFree (monthTag_close_suffix date d) (by decide))]
  rw [show str "\n" ++ (rowOf date ty slug desc ++ B) =
      str "\n          " ++ rowMarker ++ (rowRestOf date ty slug desc ++ B) from by
    rw [rowOf_split]
    rw [show str "\n          " = str "\n" ++ str "          " from by decide]
    simp [List.append_assoc]]
  rw [countOccur_at (by decide) (safePre_head hpk (by decide))]
  rw [countOccur_append_safe (by decide) (safePre_rowRest date ty slug desc hslug hdate)]
  rw [show d ++ (monthTagOf date ++ B) = (d ++ monthTagOf date) ++ B from by
    simp [List.append_assoc]]
  rw [countOccur_append_of_noStraddle (by decide)
    (noStraddle_of_straddleFree (monthTag_close_suffix date d) (by decide))]
  omega

/-! ## slugify -/

theorem collapse_mem_aux : ∀ (n : Nat) (s : Str), s.length ≤ n →
    ∀ c ∈ collapseNonAlnum s, isLowerAlnum c = true ∨ c = '-' := by
  intro n
  induction n with
  | zero =>
    intro s hs c hc
    have hnil : s = [] := List.eq_nil_of_length_eq_zero (by omega)
    subst hnil
    simp [collapseNonAlnum] at hc
  | succ n ih =>
    intro s hs c hc
    rcases s with _ | ⟨d, rest⟩
    · simp [collapseNonAlnum] at hc
    · rw [collapseNonAlnum] at hc
      by_cases hd : isLowerAlnum d
      · rw [if_pos hd] at hc
        rcases List.mem_cons.mp hc with h | h
        · subst h
          exact Or.inl hd
        · exact ih rest (by simp at hs; omega) c h
      · rw [if_neg hd] at hc
        rcases List.mem_cons.mp hc with h | h
        · subst h
          exact Or.inr rfl
        · refine ih _ ?_ c h
          have h1 := length_dropWhile_le_self (fun x => !isLowerAlnum x) rest
          simp at hs
          omega

theorem collapseNonAlnum_mem (s : Str) :
    ∀ c ∈ collapseNonAlnum s, isLowerAlnum c = true ∨ c = '-' :=
  collapse_mem_aux s.length s le_rfl

theorem dropWhile_head_alnum : ∀ (s : Str) {c : Char},
    ((s.dropWhile fun x => !isLowerAlnum x).head? = some c) → isLowerAlnum c = true := by
  intro s
  induction s with
  | nil =>
    intro c hc
    simp at hc
  | cons d rest ih =>
    intro c hc
    rw [List.dropWhile_cons] at hc
    by_cases hd : isLowerAlnum d
    · rw [if_neg (by simp [hd])] at hc
      simp at hc
      rw [← hc]
      exact hd
    · rw [if_pos (by simp [hd])] at hc
      exact ih hc

theorem collapse_cons_hyphen {s rest : Str}
    (h : collapseNonAlnum s = '-' :: rest) :
    rest = [] ∨ ∃ c rest', rest = c :: rest' ∧ isLowerAlnum c = true := by
  rcases s with _ | ⟨d, t⟩
  · simp [collapseNonAlnum] at h
  · rw [collapseNonAlnum] at h
    by_cases hd : isLowerAlnum d
    · rw [if_pos hd] at h
      have hd' : d = '-' := (List.cons.injEq _ _ _ _).mp h |>.1
      subst hd'
      simp [isLowerAlnum] at hd
    · rw [if_neg hd] at h
      have hrest : rest = collapseNonAlnum (t.dropWhile fun x => !isLowerAlnum x) :=
        ((List.cons.injEq _ _ _ _).mp h).2.symm
      rcases hdw : t.dropWhile (fun x => !isLowerAlnum x) with _ | ⟨e, es⟩
      · left
        rw [hrest, hdw, collapseNonAlnum]
      · right
        have he : isLowerAlnum e = true := by
          refine dropWhile_head_alnum t ?_
          rw [hdw]
          rfl
        rw [hrest, hdw, collapseNonAlnum, if_pos he]
        exact ⟨e, _, rfl, he⟩

theorem head?_take_pos {α : Type} {l : List α} {n : Nat} (hn : 0 < n) :
    (l.take n).head? = l.head? := by
  rcases l with _ | ⟨a, t⟩
  · simp
  · rcases n with _ | m
    · omega
    · simp

theorem head?_dropLast {α : Type} {l : List α} {c : α}
    (h : l.dropLast.head? = some c) : l.head? = some c := by
  rcases l with _ | ⟨a, t⟩
  · simp at h
  · rcases t with _ | ⟨b, t2⟩
    · simp at h
    · simpa using h

theorem stripEdgeHyphens_mem (s : Str) : ∀ c ∈ stripEdgeHyphens s, c ∈ s := by
  intro c hc
  simp only [stripEdgeHyphens] at hc
  have hsub : ∀ x ∈ (match s with | '-' :: t => t | t => t), x ∈ s := by
    intro x hx
    split at hx
    · exact List.mem_cons_of_mem _ hx
    · exact hx
  split at hc
  · exact hsub c (List.dropLast_sublist _ |>.subset hc)
  · exact hsub c hc

theorem slugify_chars (t : Str) :
    ∀ c ∈ slugify t, isLowerAlnum c = true ∨ c = '-' := by
  intro c hc
  unfold slugify at hc
  exact collapseNonAlnum_mem _ c
    (stripEdgeHyphens_mem _ c (List.take_subset _ _ hc))

theorem slugify_length (t : Str) : (slugify t).length ≤ 50 := by
  unfold slugify
  simp [List.length_take]

theorem stripEdgeHyphens_head {s : Str}
    (hhyp : ∀ rest, s = '-' :: rest →
      rest = [] ∨ ∃ e rest', rest = e :: rest' ∧ isLowerAlnum e = true) :
    ∀ c, (stripEdgeHyphens s).head? = some c → c ≠ '-' := by
  intro c hc hcon
  subst hcon
  simp only [stripEdgeHyphens] at hc
  rcases s with _ | ⟨d, ds⟩
  · have hc2 : ((if ([] : Str).getLast? = some '-' then List.dropLast ([] : Str)
        else ([] : Str))).head? = some '-' := hc
    simp at hc2
  · by_cases hd : d = '-'
    · subst hd
      have hc2 : (if ds.getLast? = some '-' then List.dropLast ds else ds).head? =
          some '-' := hc
      have hds : ds.head? = some '-' := by
        by_cases hL : ds.getLast? = some '-'
        · rw [if_pos hL] at hc2
          exact head?_dropLast hc2
        · rwa [if_neg hL] at hc2
      rcases hhyp ds rfl with h | ⟨e, es, he1, he2⟩
      · rw [h] at hds
        simp at hds
      · rw [he1] at hds
        simp at hds
        rw [hds] at he2
        simp [isLowerAlnum] at he2
    · split at hc
      · have hM := head?_dropLast hc
        split at hM
        · rename_i heq
          exact hd ((List.cons.injEq _ _ _ _).mp heq).1
        · simp at hM
          exact hd hM
      · split at hc
        · rename_i heq
          exact hd ((List.cons.injEq _ _ _ _).mp heq).1
        · simp at hc
          exact hd hc

theorem slugify_head (t : Str) :
    ∀ c, (slugify t).head? = some c → c ≠ '-' := by
  intro c hc
  unfold slugify at hc
  rw [head?_take_pos (by omega)] at hc
  refine stripEdgeHyphens_head ?_ c hc
  intro rest hr
  exact collapse_cons_hyphen hr

/-! ## Fuel-indexed evaluators

The recursive scans above are defined by well-founded recursion, which the
kernel cannot unfold.  The following structural (fuel-indexed) forms are
proved equal to them when given enough fuel; the `…E` wrappers choose the
fuel from the input, so concrete instances reduce and `decide` can settle
them. -/

/-- Accumulator form of `splitOnFirst`: the recursive call is in tail
position, so evaluating it takes constant stack. -/
def splitOnFirstTR (pat : Str) : Str → Str → Option (Str × Str)
  | acc, [] => if pat.isEmpty then some (acc.reverse, []) else none
  | acc, c :: rest =>
    if pat.isPrefixOf (c :: rest) then
      some (acc.reverse, (c :: rest).drop pat.length)
    else splitOnFirstTR pat (c :: acc) rest

theorem splitOnFirstTR_eq (pat : Str) :
    ∀ (s acc : Str), splitOnFirstTR pat acc s =
      (splitOnFirst pat s).map fun x => (acc.reverse ++ x.1, x.2) := by
  intro s
  induction s with
  | nil =>
    intro acc
    by_cases hp : pat.isEmpty
    · simp only [splitOnFirstTR, splitOnFirst, if_pos hp]
      simp
    · simp only [splitOnFirstTR, splitOnFirst, if_neg hp]
      rfl
  | cons c rest ih =>
    intro acc
    by_cases hp : pat.isPrefixOf (c :: rest)
    · simp only [splitOnFirstTR, splitOnFirst, if_pos hp]
      simp
    · simp only [splitOnFirstTR, splitOnFirst, if_neg hp]
      rw [ih (c :: acc)]
      rcases splitOnFirst pat rest with _ | ⟨a, b⟩
      · rfl
      · simp [List.append_assoc]

def splitOnFirstE (pat s : Str) : Option (Str × Str) := splitOnFirstTR pat [] s

theorem splitOnFirstE_def : splitOnFirstE = splitOnFirst := by
  funext pat s
  rw [show splitOnFirstE pat s = splitOnFirstTR pat [] s from rfl,
    splitOnFirstTR_eq pat s []]
  rcases splitOnFirst pat s with _ | ⟨a, b⟩ <;> simp

def jsIndexOfE (s pat : Str) (start : Nat) : Int :=
  match splitOnFirstE pat (s.drop start) with
  | some (a, _) => ((start + a.length : Nat) : Int)
  | none => -1

theorem jsIndexOfE_eq (s pat : Str) (start : Nat) :
    jsIndexOfE s pat start = jsIndexOf s pat start := by
  simp only [jsIndexOfE, jsIndexOf, splitOnFirstE_def]

theorem jsIndexOfE_def : jsIndexOfE = @jsIndexOf :=
  funext fun s => funext fun pat => funext fun start => jsIndexOfE_eq s pat start

theorem countOccur_nil_pat (s : Str) : countOccur [] s = 0 := by
  rw [countOccur, dif_pos rfl]

theorem collectAll_nil_pat (s : Str) : collectAll [] s = [] := by
  rw [collectAll, dif_pos rfl]

def countOccurFuel (pat : Str) : Nat → Str → Nat
  | 0, _ => 0
  | fuel + 1, s =>
    if pat = [] then 0
    else
      match splitOnFirstE pat s with
      | none => 0
      | some x => 1 + countOccurFuel pat fuel x.2

theorem countOccurFuel_eq (pat : Str) :
    ∀ (fuel : Nat) (s : Str), s.length ≤ fuel →
      countOccurFuel pat fuel s = countOccur pat s := by
  intro fuel
  induction fuel with
  | zero =>
    intro s hs
    have hs0 : s = [] := List.eq_nil_of_length_eq_zero (Nat.le_zero.mp hs)
    subst hs0
    by_cases hp : pat = []
    · subst hp
      rw [countOccur_nil_pat]
      rfl
    · rw [countOccur_of_split_none hp (split_none_of_safe hp (safePre_nil pat))]
      rfl
  | succ fuel ih =>
    intro s hs
    by_cases hp : pat = []
    · subst hp
      rw [countOccur_nil_pat]
      simp only [countOccurFuel]
      simp
    · simp only [countOccurFuel, splitOnFirstE_def]
      rw [if_neg hp]
      rcases hsp : splitOnFirst pat s with _ | ⟨a, b⟩
      · rw [countOccur_of_split_none hp hsp]
      · rw [countOccur_of_split_some hp hsp]
        dsimp only
        have hb : b.length ≤ fuel := by
          have := @splitOnFirst_snd_lt pat s a b hp hsp
          omega
        rw [ih b hb]

def collectAllFuel (pat : Str) : Nat → Str → List Str
  | 0, _ => []
  | fuel + 1, s =>
    if pat = [] then []
    else
      match splitOnFirstE pat s with
      | none => []
      | some x => takeUntil '<' x.2 :: collectAllFuel pat fuel x.2

theorem collectAllFuel_eq (pat : Str) :
    ∀ (fuel : Nat) (s : Str), s.length ≤ fuel →
      collectAllFuel pat fuel s = collectAll pat s := by
  intro fuel
  induction fuel with
  | zero =>
    intro s hs
    have hs0 : s = [] := List.eq_nil_of_length_eq_zero (Nat.le_zero.mp hs)
    subst hs0
    by_cases hp : pat = []
    · subst hp
      rw [collectAll_nil_pat]
      rfl
    · rw [collectAll_of_split_none hp (split_none_of_safe hp (safePre_nil pat))]
      rfl
  | succ fuel ih =>
    intro s hs
    by_cases hp : pat = []
    · subst hp
      rw [collectAll_nil_pat]
      simp only [collectAllFuel]
      simp
    · simp only [collectAllFuel, splitOnFirstE_def]
      rw [if_neg hp]
      rcases hsp : splitOnFirst pat s with _ | ⟨a, b⟩
      · rw [collectAll_of_split_none hp hsp]
      · rw [collectAll_of_split_some hp hsp]
        dsimp only
        have hb : b.length ≤ fuel := by
          have := @splitOnFirst_snd_lt pat s a b hp hsp
          omega
        rw [ih b hb]

theorem unescape_amp_pre {rest : Str} (h : (str "amp;").isPrefixOf rest = true) :
    unescape ('&' :: rest) = '&' :: unescape (rest.drop 4) := by
  rw [unescape, if_pos rfl, if_pos h]

theorem unescape_lt_pre {rest : Str} (h1 : ¬ (str "amp;").isPrefixOf rest = true)
    (h2 : (str "lt;").isPrefixOf rest = true) :
    unescape ('&' :: rest) = '<' :: unescape (rest.drop 3) := by
  rw [unescape, if_pos rfl, if_neg h1, if_pos h2]

theorem unescape_gt_pre {rest : Str} (h1 : ¬ (str "amp;").isPrefixOf rest = true)
    (h2 : ¬ (str "lt;").isPrefixOf rest = true)
    (h3 : (str "gt;").isPrefixOf rest = true) :
    unescape ('&' :: rest) = '>' :: unescape (rest.drop 3) := by
  rw [unescape, if_pos rfl, if_neg h1, if_neg h2, if_pos h3]

theorem unescape_amp_bare {rest : Str} (h1 : ¬ (str "amp;").isPrefixOf rest = true)
    (h2 : ¬ (str "lt;").isPrefixOf rest = true)
    (h3 : ¬ (str "gt;").isPrefixOf rest = true) :
    unescape ('&' :: rest) = '&' :: unescape rest := by
  rw [unescape, if_pos rfl, if_neg h1, if_neg h2, if_neg h3]

def unescapeFuel : Nat → Str → Str
  | 0, _ => []
  | _ + 1, [] => []
  | fuel + 1, c :: rest =>
    if c = '&' then
      if (str "amp;").isPrefixOf rest then '&' :: unescapeFuel fuel (rest.drop 4)
      else if (str "lt;").isPrefixOf rest then '<' :: unescapeFuel fuel (rest.drop 3)
      else if (str "gt;").isPrefixOf rest then '>' :: unescapeFuel fuel (rest.drop 3)
      else '&' :: unescapeFuel fuel rest
    else c :: unescapeFuel fuel rest

theorem unescapeFuel_eq :
    ∀ (fuel : Nat) (s : Str), s.length ≤ fuel → unescapeFuel fuel s = unescape s := by
  intro fuel
  induction fuel with
  | zero =>
    intro s hs
    have hs0 : s = [] := List.eq_nil_of_length_eq_zero (Nat.le_zero.mp hs)
    subst hs0
    rw [unescape_nil]
    rfl
  | succ fuel ih =>
    intro s hs
    rcases s with _ | ⟨c, rest⟩
    · rw [unescape_nil]
      rfl
    · have hr : rest.length ≤ fuel := by
        simp at hs
        omega
      simp only [unescapeFuel]
      by_cases hc : c = '&'
      · subst hc
        rw [if_pos rfl]
        by_cases h1 : (str "amp;").isPrefixOf rest = true
        · rw [if_pos h1, unescape_amp_pre h1,
            ih _ (le_trans (by simpa using List.length_drop_le 4 rest) hr)]
        · rw [if_neg h1]
          by_cases h2 : (str "lt;").isPrefixOf rest = true
          · rw [if_pos h2, unescape_lt_pre h1 h2,
              ih _ (le_trans (by simpa using List.length_drop_le 3 rest) hr)]
          · rw [if_neg h2]
            by_cases h3 : (str "gt;").isPrefixOf rest = true
            · rw [if_pos h3, unescape_gt_pre h1 h2 h3,
                ih _ (le_trans (by simpa using List.length_drop_le 3 rest) hr)]
            · rw [if_neg h3, unescape_amp_bare h1 h2 h3, ih _ hr]
      · rw [if_neg hc, unescape_cons_ne rest hc, ih _ hr]

def splitParasAuxFuel : Nat → Str → Str → List Str
  | 0, acc, _ => [acc.reverse]
  | _ + 1, acc, [] => [acc.reverse]
  | fuel + 1, acc, c :: rest =>
    if c = '\n' ∧ rest.head? = some '\n' then
      acc.reverse :: splitParasAuxFuel fuel [] (rest.dropWhile (· = '\n'))
    else splitParasAuxFuel fuel (c :: acc) rest

theorem splitParasAuxFuel_eq :
    ∀ (fuel : Nat) (acc s : Str), s.length ≤ fuel →
      splitParasAuxFuel fuel acc s = splitParasAux acc s := by
  intro fuel
  induction fuel with
  | zero =>
    intro acc s hs
    have hs0 : s = [] := List.eq_nil_of_length_eq_zero (Nat.le_zero.mp hs)
    subst hs0
    rw [splitParasAux_nil]
    rfl
  | succ fuel ih =>
    intro acc s hs
    rcases s with _ | ⟨c, rest⟩
    · rw [splitParasAux_nil]
      rfl
    · have hr : rest.length ≤ fuel := by
        simp at hs
        omega
      simp only [splitParasAuxFuel]
      by_cases hc : c = '\n' ∧ rest.head? = some '\n'
      · rw [if_pos hc]
        obtain ⟨hc1, hc2⟩ := hc
        subst hc1
        rw [splitParasAux_cons_sep hc2,
          ih [] _ (le_trans (length_dropWhile_le_self _ rest) hr)]
      · rw [if_neg hc, splitParasAux_cons_keep hc, ih (c :: acc) rest hr]

theorem collapseNA_nil : collapseNonAlnum [] = [] := by
  rw [collapseNonAlnum]

theorem collapseNA_cons_alnum {c : Char} (rest : Str) (h : isLowerAlnum c = true) :
    collapseNonAlnum (c :: rest) = c :: collapseNonAlnum rest := by
  rw [collapseNonAlnum, if_pos h]

theorem collapseNA_cons_other {c : Char} (rest : Str)
    (h : ¬ isLowerAlnum c = true) :
    collapseNonAlnum (c :: rest) =
      '-' :: collapseNonAlnum (rest.dropWhile fun x => !isLowerAlnum x) := by
  rw [collapseNonAlnum, if_neg h]

def collapseNonAlnumFuel : Nat → Str → Str
  | 0, _ => []
  | _ + 1, [] => []
  | fuel + 1, c :: rest =>
    if isLowerAlnum c then c :: collapseNonAlnumFuel fuel rest
    else '-' :: collapseNonAlnumFuel fuel (rest.dropWhile fun x => !isLowerAlnum x)

theorem collapseNonAlnumFuel_eq :
    ∀ (fuel : Nat) (s : Str), s.length ≤ fuel →
      collapseNonAlnumFuel fuel s = collapseNonAlnum s := by
  intro fuel
  induction fuel with
  | zero =>
    intro s hs
    have hs0 : s = [] := List.eq_nil_of_length_eq_zero (Nat.le_zero.mp hs)
    subst hs0
    rw [collapseNA_nil]
    rfl
  | succ fuel ih =>
    intro s hs
    rcases s with _ | ⟨c, rest⟩
    · rw [collapseNA_nil]
      rfl
    · have hr : rest.length ≤ fuel := by
        simp at hs
        omega
      simp only [collapseNonAlnumFuel]
      by_cases hc : isLowerAlnum c = true
      · rw [if_pos hc, collapseNA_cons_alnum rest hc, ih rest hr]
      · rw [if_neg hc, collapseNA_cons_other rest hc,
          ih _ (le_trans (length_dropWhile_le_self _ rest) hr)]

theorem findCountPara_of_split_none {s : Str}
    (h : splitOnFirst countPre s = none) : findCountPara s = none := by
  rw [findCountPara]
  split
  · rfl
  · rename_i x heq
    rw [heq] at h
    simp at h

theorem findCountPara_split_hit {s a b : Str}
    (h : splitOnFirst countPre s = some (a, b))
    (hpre : (str "</p>").isPrefixOf (b.drop (takeUntil '<' b).length) = true) :
    findCountPara s =
      some (a, takeUntil '<' b, (b.drop (takeUntil '<' b).length).drop 4) := by
  rw [findCountPara]
  split
  · rename_i heq
    rw [heq] at h
    simp at h
  · rename_i x heq
    rw [heq] at h
    injection h with h
    subst h
    dsimp only
    rw [if_pos hpre]

theorem findCountPara_split_miss_none {s a b : Str}
    (h : splitOnFirst countPre s = some (a, b))
    (hpre : ¬ (str "</p>").isPrefixOf (b.drop (takeUntil '<' b).length) = true)
    (hrec : findCountPara b = none) : findCountPara s = none := by
  rw [findCountPara]
  split
  · rfl
  · rename_i x heq
    rw [heq] at h
    injection h with h
    subst h
    dsimp only
    rw [if_neg hpre, hrec]

theorem findCountPara_split_miss_some {s a b a2 c2 b2 : Str}
    (h : splitOnFirst countPre s = some (a, b))
    (hpre : ¬ (str "</p>").isPrefixOf (b.drop (takeUntil '<' b).length) = true)
    (hrec : findCountPara b = some (a2, c2, b2)) :
    findCountPara s = some (a ++ countPre ++ a2, c2, b2) := by
  rw [findCountPara]
  split
  · rename_i heq
    rw [heq] at h
    simp at h
  · rename_i x heq
    rw [heq] at h
    injection h with h
    subst h
    dsimp only
    rw [if_neg hpre, hrec]

def findCountParaFuel : Nat → Str → Option (Str × Str × Str)
  | 0, _ => none
  | fuel + 1, s =>
    match splitOnFirstE countPre s with
    | none => none
    | some x =>
      let cur := takeUntil '<' x.2
      if (str "</p>").isPrefixOf (x.2.drop cur.length) then
        some (x.1, cur, (x.2.drop cur.length).drop 4)
      else
        match findCountParaFuel fuel x.2 with
        | none => none
        | some y => some (x.1 ++ countPre ++ y.1, y.2.1, y.2.2)

theorem findCountParaFuel_eq :
    ∀ (fuel : Nat) (s : Str), s.length ≤ fuel →
      findCountParaFuel fuel s = findCountPara s := by
  intro fuel
  induction fuel with
  | zero =>
    intro s hs
    have hs0 : s = [] := List.eq_nil_of_length_eq_zero (Nat.le_zero.mp hs)
    subst hs0
    rw [findCountPara_of_split_none
      (split_none_of_safe (by decide) (safePre_nil _))]
    rfl
  | succ fuel ih =>
    intro s hs
    rcases hsp : splitOnFirst countPre s with _ | ⟨a, b⟩
    · rw [findCountPara_of_split_none hsp]
      simp only [findCountParaFuel, splitOnFirstE_def]
      rw [hsp]
    · have hb : b.length ≤ fuel := by
        have := @splitOnFirst_snd_lt countPre s a b (by decide) hsp
        omega
      simp only [findCountParaFuel, splitOnFirstE_def]
      rw [hsp]
      dsimp only
      by_cases hpre : (str "</p>").isPrefixOf (b.drop (takeUntil '<' b).length) = true
      · rw [if_pos hpre, findCountPara_split_hit hsp hpre]
      · rw [if_neg hpre, ih b hb]
        rcases hrec : findCountPara b with _ | ⟨a2, c2, b2⟩
        · rw [findCountPara_split_miss_none hsp hpre hrec]
        · rw [findCountPara_split_miss_some hsp hpre hrec]

def natDigitsFuel : Nat → Nat → Str
  | 0, _ => []
  | fuel + 1, n =>
    if n < 10 then [Char.ofNat (48 + n)]
    else natDigitsFuel fuel (n / 10) ++ [Char.ofNat (48 + n % 10)]

theorem natDigitsFuel_eq :
    ∀ (fuel n : Nat), n < fuel → natDigitsFuel fuel n = natDigits n := by
  intro fuel
  induction fuel with
  | zero =>
    intro n hn
    omega
  | succ fuel ih =>
    intro n hn
    simp only [natDigitsFuel]
    rw [natDigits]
    by_cases h : n < 10
    · simp only [if_pos h]
    · simp only [if_neg h]
      have h10 : n / 10 < fuel := by
        have := Nat.div_lt_self (show 0 < n by omega) (show 1 < 10 by decide)
        omega
      rw [ih (n / 10) h10]

theorem rowSlugsAux_of_split_none {s : Str}
    (h : splitOnFirst (str "<a href=\"posts/") s = none) : rowSlugsAux s = [] := by
  rw [rowSlugsAux]
  split
  · rfl
  · rename_i x heq
    rw [heq] at h
    simp at h

theorem rowSlugsAux_of_split_some {s a b : Str}
    (h : splitOnFirst (str "<a href=\"posts/") s = some (a, b)) :
    rowSlugsAux s = takeUntil '.' b :: rowSlugsAux b := by
  rw [rowSlugsAux]
  split
  · rename_i heq
    rw [heq] at h
    simp at h
  · rename_i x heq
    rw [heq] at h
    injection h with h
    subst h
    rfl

def rowSlugsAuxFuel : Nat → Str → List Str
  | 0, _ => []
  | fuel + 1, s =>
    match splitOnFirstE (str "<a href=\"posts/") s with
    | none => []
    | some x => takeUntil '.' x.2 :: rowSlugsAuxFuel fuel x.2

theorem rowSlugsAuxFuel_eq :
    ∀ (fuel : Nat) (s : Str), s.length ≤ fuel →
      rowSlugsAuxFuel fuel s = rowSlugsAux s := by
  intro fuel
  induction fuel with
  | zero =>
    intro s hs
    have hs0 : s = [] := List.eq_nil_of_length_eq_zero (Nat.le_zero.mp hs)
    subst hs0
    rw [rowSlugsAux_of_split_none
      (split_none_of_safe (by decide) (safePre_nil _))]
    rfl
  | succ fuel ih =>
    intro s hs
    rcases hsp : splitOnFirst (str "<a href=\"posts/") s with _ | ⟨a, b⟩
    · rw [rowSlugsAux_of_split_none hsp]
      simp only [rowSlugsAuxFuel, splitOnFirstE_def]
      rw [hsp]
    · have hb : b.length ≤ fuel := by
        have := @splitOnFirst_snd_lt (str "<a href=\"posts/") s a b (by decide) hsp
        omega
      rw [rowSlugsAux_of_split_some hsp]
      simp only [rowSlugsAuxFuel, splitOnFirstE_def]
      rw [hsp]
      dsimp only
      rw [ih b hb]

/-! ### Self-fuelled wrappers -/

def countOccurE (pat s : Str) : Nat := countOccurFuel pat (s.length + 1) s

theorem countOccurE_def : countOccurE = countOccur :=
  funext fun pat => funext fun s =>
    countOccurFuel_eq pat (s.length + 1) s (by omega)

def collectAllE (pat s : Str) : List Str := collectAllFuel pat (s.length + 1) s

theorem collectAllE_def : collectAllE = collectAll :=
  funext fun pat => funext fun s =>
    collectAllFuel_eq pat (s.length + 1) s (by omega)

def unescapeE (s : Str) : Str := unescapeFuel (s.length + 1) s

theorem unescapeE_def : unescapeE = unescape :=
  funext fun s => unescapeFuel_eq (s.length + 1) s (by omega)

def textOfE (s : Str) : Str := trimStr (unescapeE s)

theorem textOfE_def : textOfE = textOf := by
  funext s
  simp only [textOfE, textOf, unescapeE_def]

def splitParasE (s : Str) : List Str :=
  (splitParasAuxFuel (s.length + 1) [] s).filter fun p => !p.isEmpty

theorem splitParasE_def : splitParasE = splitParas := by
  funext s
  simp only [splitParasE, splitParas,
    splitParasAuxFuel_eq (s.length + 1) [] s (by omega)]

def collapseNonAlnumE (s : Str) : Str := collapseNonAlnumFuel (s.length + 1) s

theorem collapseNonAlnumE_def : collapseNonAlnumE = collapseNonAlnum :=
  funext fun s => collapseNonAlnumFuel_eq (s.length + 1) s (by omega)

def findCountParaE (s : Str) : Option (Str × Str × Str) :=
  findCountParaFuel (s.length + 1) s

theorem findCountParaE_def : findCountParaE = findCountPara :=
  funext fun s => findCountParaFuel_eq (s.length + 1) s (by omega)

def natDigitsE (n : Nat) : Str := natDigitsFuel (n + 1) n

theorem natDigitsE_def : natDigitsE = natDigits :=
  funext fun n => natDigitsFuel_eq (n + 1) n (by omega)

def renderCountE (n : Nat) : Str :=
  if n = 1 then str "1 entry" else natDigitsE n ++ str " entries"

theorem renderCountE_def : renderCountE = renderCount := by
  funext n
  simp only [renderCountE, renderCount, natDigitsE_def]

def rowSlugsE (html : Str) : List Str := rowSlugsAuxFuel (html.length + 1) html

theorem rowSlugsE_def : rowSlugsE = rowSlugs := by
  funext html
  simp only [rowSlugsE, rowSlugs,
    rowSlugsAuxFuel_eq (html.length + 1) html (by omega)]

def slugifyE (t : Str) : Str :=
  (stripEdgeHyphens (collapseNonAlnumE (t.map Char.toLower))).take 50

theorem slugifyE_def : slugifyE = slugify := by
  funext t
  simp only [slugifyE, slugify, collapseNonAlnumE_def]

def updateCountE (html : Str) : Str :=
  let n := countOccurE rowMarker html
  match findCountParaE html with
  | none => html
  | some (a, _, b) => a ++ countPre ++ renderCountE n ++ str "</p>" ++ b

theorem updateCountE_def : updateCountE = updateCount := by
  funext html
  simp only [updateCountE, updateCount, countOccurE_def, findCountParaE_def,
    renderCountE_def]

def removeFromIndexE (html : Str) (slug : Str) : Str :=
  let marker := str "posts/" ++ slug ++ str ".html"
  let pos := jsIndexOfE html marker 0
  if pos = -1 then html
  else
    let posN := pos.toNat
    let s0 := jsLastIndexOf html rowMarker posN
    let e := jsIndexOfE html rowEndMarker posN + 18
    let s1 : Int := if s0 ≤ 0 then s0 else (backOverSpaces html s0.toNat : Int)
    let s2 : Int :=
      if s1 > 0 ∧ html.getD (s1.toNat - 1) '\x00' = '\n' then s1 - 1 else s1
    updateCountE (jsSlice html 0 s2 ++ jsSliceFrom html e)

theorem removeFromIndexE_def : removeFromIndexE = removeFromIndex := by
  funext html slug
  simp only [removeFromIndexE, removeFromIndex, updateCountE_def, jsIndexOfE_def]

def addToIndexE (html0 : Str) (date : Str) (ty : PostType) (slug desc : Str) : Str :=
  let parts := splitOnChar '-' date
  let day := jsAt parts 2
  let ts := match ty with | .spoken => str "spkn" | .written => str "writ"
  let month := jsAtNum MONTHS (jsToNumber (jsAt parts 1))
  let year := jsAt parts 0
  let row :=
    str "          <!-- post-row -->\n          <tr class=\"" ++ ty.toStr ++
    str "\">\n            <td class=\"ls-date\" data-date=\"" ++ date ++ str "\">" ++
    day ++ str "</td>\n            <td class=\"ls-type " ++ ty.toStr ++ str "\">" ++
    ts ++ str "</td>\n            <td><a href=\"posts/" ++ slug ++ str ".html\">" ++
    slug ++ str "</a> <span class=\"ls-desc\">— " ++ esc desc ++
    str "</span></td>\n          </tr>\n          <!-- /post-row -->"
  let hasYear :=
    jsIndexOfE html0 (str "ls-group-year\"><td colspan=\"3\">" ++ year ++ str "<") 0 > -1
  let hasMonth :=
    jsIndexOfE html0 (str "ls-group-month\"><td colspan=\"3\">" ++ month ++ str "<") 0 > -1
  let html1 :=
    if hasMonth then
      let tag := str "ls-group-month\"><td colspan=\"3\">" ++ month ++ str "</td></tr>"
      let pos := jsIndexOfE html0 tag 0 + tag.length
      jsSlice html0 0 pos ++ str "\n" ++ row ++ jsSliceFrom html0 pos
    else if hasYear then
      let tag := str "ls-group-year\"><td colspan=\"3\">" ++ year ++ str "</td></tr>"
      let pos := jsIndexOfE html0 tag 0 + tag.length
      jsSlice html0 0 pos ++
        str "\n          <tr class=\"ls-group-month\"><td colspan=\"3\">" ++ month ++
        str "</td></tr>\n" ++ row ++ jsSliceFrom html0 pos
    else
      let pos := jsIndexOfE html0 (str "<tbody>") 0 + 7
      jsSlice html0 0 pos ++
        str "\n          <tr class=\"ls-group-year\"><td colspan=\"3\">" ++ year ++
        str "</td></tr>\n          <tr class=\"ls-group-month\"><td colspan=\"3\">" ++
        month ++ str "</td></tr>\n" ++ row ++ jsSliceFrom html0 pos
  updateCountE html1

theorem addToIndexE_def : addToIndexE = addToIndex := by
  funext html0 date ty slug desc
  simp only [addToIndexE, addToIndex, updateCountE_def, jsIndexOfE_def]

def parsePostE (html : Str) : Post :=
  let content :=
    match between transcriptOpen (str "</div>") html with
    | some region =>
        List.intercalate (str "\n\n") ((collectAllE pOpen region).map textOfE)
    | none =>
        match between mainOpen (str "</main>") html with
        | some region =>
            List.intercalate (str "\n\n") ((collectAllE pOpen region).map textOfE)
        | none => []
  let ty : PostType :=
    match splitOnFirst typeOpen html with
    | some (_, rest) =>
        if (splitOnChar ' ' (takeUntil '"' rest)).contains (str "spoken") then .spoken
        else .written
    | none => .written
  let slug :=
    match splitOnFirst h1Open html with
    | some (_, rest) => unescapeE (takeUntil '<' rest)
    | none => []
  let date :=
    match splitOnFirst timeOpen html with
    | some (_, rest) => unescapeE (takeUntil '"' rest)
    | none => []
  let tags := (collectAllE tagOpen html).map textOfE
  let navRegion := between navOpenTag (str "</nav>") html
  let prevSlug :=
    match navRegion with
    | none => none
    | some r =>
      match splitOnFirst prevOpen r with
      | some (_, rest) =>
          some (replaceFirst (str ".html") [] (unescapeE (takeUntil '"' rest)))
      | none => none
  let nextSlug :=
    match navRegion with
    | none => none
    | some r =>
      match splitOnFirst nextOpen r with
      | some (_, rest) =>
          some (replaceFirst (str ".html") [] (unescapeE (takeUntil '"' rest)))
      | none => none
  { slug := slug, date := date, type := ty, content := content, tags := tags,
    prevSlug := prevSlug, nextSlug := nextSlug }

theorem parsePostE_def : parsePostE = parsePost := by
  funext html
  simp only [parsePostE, parsePost, collectAllE_def, textOfE_def, unescapeE_def]

def generatePostE (o : Post) : Str :=
  let paras :=
    List.intercalate (str "\n\n")
      ((splitParasE o.content).map fun p =>
        str "      <p>\n        " ++
          replaceAllChar '\n' (str "\n        ") (esc (trimStr p)) ++
          str "\n      </p>")
  let body :=
    match o.type with
    | .spoken =>
        str "    <div class=\"spoken-transcript\">\n      <p class=\"spoken-label\">transcribed via spokenly · lightly edited</p>\n\n" ++
          paras ++ str "\n    </div>"
    | .written => paras
  let tags :=
    List.intercalate (str "\n")
      (o.tags.map fun t => str "      <span class=\"tag\">" ++ esc t ++ str "</span>")
  let nav := navLinks o.prevSlug o.nextSlug
  str "<!DOCTYPE html>\n<html lang=\"en\">\n<head>\n" ++
  str "  <meta charset=\"UTF-8\">\n  <meta name=\"viewport\" content=\"width=device-width, initial-scale=1.0\">\n" ++
  str "  <title>" ++ o.slug ++ str " — log</title>\n" ++
  str "  <link rel=\"stylesheet\" href=\"../assets/css/style.css\">\n</head>\n<body>\n" ++
  str "  <header>\n    <nav style=\"font-size: 0.8rem; color: var(--fg-dim);\">\n" ++
  str "      <a href=\"../index.html\">~/log</a> / " ++ o.slug ++ str "\n    </nav>\n  </header>\n\n" ++
  str "  <main class=\"post-content\">\n" ++
  str "    <div class=\"post-meta\">\n      <time datetime=\"" ++ o.date ++ str "\">" ++
    o.date ++ str "</time>\n" ++
  str "      <span class=\"post-type " ++ o.type.toStr ++ str "\">" ++ o.type.toStr ++
    str "</span>\n    </div>\n" ++
  str "    <h1>" ++ o.slug ++ str "</h1>\n\n" ++
  body ++ str "\n\n" ++
  str "    <div class=\"post-tags\">\n" ++ tags ++ str "\n    </div>\n  </main>\n\n" ++
  str "  <nav class=\"post-nav\">\n" ++ List.intercalate (str "\n") nav ++
    str "\n  </nav>\n\n" ++
  str "  <footer>\n    <p class=\"vim-hint\">← → between posts · backspace ~/log · e edit</p>\n" ++
  str "    <p class=\"footer-eof\">EOF</p>\n  </footer>\n\n" ++
  str "  <script src=\"../assets/js/main.js\"></script>\n</body>\n</html>\n"

theorem generatePostE_def : generatePostE = generatePost := by
  funext o
  simp only [generatePostE, generatePost, splitParasE_def]

/-! ## Decidable discharge helpers for the validity predicates -/

theorem slugOk_of_b {s : Str}
    (h : (s.all fun c => isLowerAlnum c || c == '-') = true) : slugOk s := by
  intro c hc
  have h2 := List.all_eq_true.mp h c hc
  simp only [Bool.or_eq_true, beq_iff_eq, isLowerAlnum, Bool.and_eq_true,
    decide_eq_true_eq] at h2
  unfold slugChar
  tauto

theorem dateOk_of_b {d : Str}
    (h : (d.all fun c => c.isDigit || c == '-') = true) : dateOk d := by
  intro c hc
  have h2 := List.all_eq_true.mp h c hc
  simp only [Bool.or_eq_true, beq_iff_eq] at h2
  unfold dateChar
  tauto

def paraOkB (p : Str) : Bool :=
  !p.isEmpty && (p.all fun c => c != '\n') &&
    (match p.head? with | none => true | some c => !isJsWS c) &&
    (match p.getLast? with | none => true | some c => !isJsWS c)

theorem paraOk_of_b {p : Str} (h : paraOkB p = true) : paraOk p := by
  unfold paraOkB at h
  simp only [Bool.and_eq_true] at h
  obtain ⟨⟨⟨h1, h2⟩, h3⟩, h4⟩ := h
  refine ⟨?_, ?_, ?_, ?_⟩
  · intro hcon
    rw [hcon] at h1
    simp at h1
  · intro hcon
    have h5 := List.all_eq_true.mp h2 '\n' hcon
    simp at h5
  · intro c hc
    rw [hc] at h3
    simpa using h3
  · intro c hc
    rw [hc] at h4
    simpa using h4

def tagOkB (t : Str) : Bool :=
  (match t.head? with | none => true | some c => !isJsWS c) &&
    (match t.getLast? with | none => true | some c => !isJsWS c)

theorem tagOk_of_b {t : Str} (h : tagOkB t = true) : tagOk t := by
  unfold tagOkB at h
  simp only [Bool.and_eq_true] at h
  obtain ⟨h1, h2⟩ := h
  refine ⟨?_, ?_⟩
  · intro c hc
    rw [hc] at h1
    simpa using h1
  · intro c hc
    rw [hc] at h2
    simpa using h2

theorem jsAtNum_no_lt (i : Option Nat) :
    ∀ x ∈ jsAtNum MONTHS i, x ≠ '<' := by
  rcases i with _ | k <;> intro x hx <;> simp only [jsAtNum] at hx
  · exact (show ∀ y ∈ str "undefined", y ≠ '<' by decide) x hx
  · rcases jsAt_mem hx with ⟨p, hp, hxp⟩ | hx2
    · exact (show ∀ q ∈ MONTHS, ∀ y ∈ q, y ≠ '<' by decide) p hp x hxp
    · exact (show ∀ y ∈ str "undefined", y ≠ '<' by decide) x hx2

theorem safePre_rowMarker_monthTag (date : Str) :
    SafePre rowMarker (monthTagOf date) := by
  have hpkR : rowMarker.head? = some '<' := rfl
  unfold monthTagOf
  refine safePre_append (safePre_append (safePre_of_cleanStarts (by decide)) ?_)
    (safePre_of_cleanStarts (by decide))
  exact safePre_head hpkR (jsAtNum_no_lt _)

/-! ## The claims -/

/-- C8 (amended): every `slugify` output consists only of lowercase
alphanumerics and hyphens, never starts with a hyphen, and is at most 50
characters long.  (The no-trailing-hyphen part of the claim fails; see the
counterexample.) -/
theorem c8_slugify_props (t : Str) :
    (∀ c ∈ slugify t, isLowerAlnum c = true ∨ c = '-') ∧
    (∀ c, (slugify t).head? = some c → c ≠ '-') ∧
    (slugify t).length ≤ 50 :=
  ⟨slugify_chars t, slugify_head t, slugify_length t⟩

def c8title : Str :=
  str "aaaaaaaaaaaaaaaaaaaaaaaaaaaaaaaaaaaaaaaaaaaaaaaaa b"

set_option maxRecDepth 100000 in
/-- C8 counterexample: a 49-letter word followed by `" b"` slugifies to a
50-character string ending in a hyphen, because the `slice(0, 50)` truncation
runs after the edge hyphens were stripped. -/
theorem c8_trailing_hyphen_cex :
    (slugify c8title).getLast? = some '-' ∧ (slugify c8title).length = 50 := by
  rw [← slugifyE_def]
  exact ⟨by decide, by decide⟩

/-- C10: when `"posts/" ++ slug ++ ".html"` does not occur in the index
document, `removeFromIndex` returns the document unchanged (the count
paragraph is not recomputed). -/
theorem c10_remove_absent_identity (html slug : Str)
    (h : ∀ a b, html ≠ a ++ (str "posts/" ++ slug ++ str ".html") ++ b) :
    removeFromIndex html slug = html := by
  have hsp : splitOnFirst (str "posts/" ++ slug ++ str ".html") html = none := by
    rcases hs : splitOnFirst (str "posts/" ++ slug ++ str ".html") html with _ | ⟨a, b⟩
    · rfl
    · exact absurd (splitOnFirst_sound hs) (h a b)
  simp only [removeFromIndex]
  rw [jsIndexOf_none hsp]
  rw [if_pos rfl]

/-- C10 witness: a concrete index with no row for slug `"x"` is returned
byte-for-byte unchanged. -/
theorem c10_remove_absent_identity_witness :
    removeFromIndex (str "<tbody></tbody>") (str "x") = str "<tbody></tbody>" :=
  c10_remove_absent_identity (str "<tbody></tbody>") (str "x")
    (no_occurrence_of_split_none (by decide) (by decide))

/-- C9 (amended): when a commit fails with status 401 or 403, the create and
edit flows clear the stored token and no remote content changes for any of
the three flows; the delete flow surfaces the error in the status line but
(contrary to the claim) does not clear the token — see the counterexample. -/
theorem c9_auth_failure (st : AppState) (files : List FileEntry) (body : Str)
    (code : Nat) (hcode : code = 401 ∨ code = 403) :
    (runOp .create st files (.failed code body)).token = none ∧
    (runOp .edit st files (.failed code body)).token = none ∧
    (runOp .create st files (.failed code body)).remote = st.remote ∧
    (runOp .edit st files (.failed code body)).remote = st.remote ∧
    (runOp .delete st files (.failed code body)).remote = st.remote ∧
    (runOp .delete st files (.failed code body)).status =
      str "error: " ++ ghErrorMsg code body := by
  have hidx : jsIndexOf (ghErrorMsg code body) (str "401") > -1 ∨
      jsIndexOf (ghErrorMsg code body) (str "403") > -1 := by
    rcases hcode with h | h <;> subst h
    · left
      rw [show ghErrorMsg 401 body = [] ++ str "401" ++ (str ": " ++ body) from by
        unfold ghErrorMsg
        rw [show (Nat.repr 401).data = str "401" from by decide]
        simp]
      rw [jsIndexOf_at (by decide) (safePre_nil _)]
      decide
    · right
      rw [show ghErrorMsg 403 body = [] ++ str "403" ++ (str ": " ++ body) from by
        unfold ghErrorMsg
        rw [show (Nat.repr 403).data = str "403" from by decide]
        simp]
      rw [jsIndexOf_at (by decide) (safePre_nil _)]
      decide
  unfold runOp saveRejection deleteRejection
  dsimp only
  rw [if_pos hidx]
  exact ⟨rfl, rfl, rfl, rfl, rfl, rfl⟩

/-- C9 witness: a concrete 401 failure on a create clears the token and
leaves the remote store untouched in all three flows. -/
theorem c9_auth_failure_witness :
    (runOp .create ⟨some (str "t"), [], []⟩ [] (.failed 401 (str "no"))).token = none ∧
    (runOp .edit ⟨some (str "t"), [], []⟩ [] (.failed 401 (str "no"))).token = none ∧
    (runOp .create ⟨some (str "t"), [], []⟩ [] (.failed 401 (str "no"))).remote =
      (⟨some (str "t"), [], []⟩ : AppState).remote ∧
    (runOp .edit ⟨some (str "t"), [], []⟩ [] (.failed 401 (str "no"))).remote =
      (⟨some (str "t"), [], []⟩ : AppState).remote ∧
    (runOp .delete ⟨some (str "t"), [], []⟩ [] (.failed 401 (str "no"))).remote =
      (⟨some (str "t"), [], []⟩ : AppState).remote ∧
    (runOp .delete ⟨some (str "t"), [], []⟩ [] (.failed 401 (str "no"))).status =
      str "error: " ++ ghErrorMsg 401 (str "no") :=
  c9_auth_failure ⟨some (str "t"), [], []⟩ [] (str "no") 401 (Or.inl rfl)

/-- C9 counterexample: a delete that fails with 403 keeps the stored token;
the claim's "for every operation ... the stored credential is cleared" fails
for the delete flow. -/
theorem c9_delete_keeps_token_cex :
    (runOp .delete ⟨some (str "t"), [], []⟩ [] (.failed 403 (str "forbidden"))).token =
      some (str "t") := by
  decide

/-- C6 (amended): `updateCount` rewrites the count paragraph to display
exactly `renderCount` of the number of row markers of its own result, and
the display rule is "1 entry" for one and "`n` entries" otherwise.  (The
claim's universal form fails on `removeFromIndex` of an absent slug, which
returns without recomputing the count; see the counterexample.) -/
theorem c6_update_count_correct (a c b : Str) (ha : SafePre countPre a)
    (hc : ∀ x ∈ c, x ≠ '<') :
    findCountPara (updateCount (a ++ countPre ++ (c ++ (str "</p>" ++ b)))) =
      some (a,
        renderCount (countOccur rowMarker
          (updateCount (a ++ countPre ++ (c ++ (str "</p>" ++ b))))), b) ∧
    renderCount 1 = str "1 entry" ∧
    (∀ n, n ≠ 1 → renderCount n = natDigits n ++ str " entries") := by
  refine ⟨?_, rfl, ?_⟩
  · rw [updateCount_count ha hc, updateCount_at ha hc]
    set k := countOccur rowMarker (a ++ countPre ++ (c ++ (str "</p>" ++ b))) with hk
    rw [show a ++ countPre ++ renderCount k ++ str "</p>" ++ b =
        a ++ countPre ++ (renderCount k ++ (str "</p>" ++ b)) from by
      simp [List.append_assoc]]
    exact findCountPara_at ha (renderCount_no_lt _)
  · intro n hn
    unfold renderCount
    rw [if_neg hn]

/-- C6 witness: on a concrete document the rewritten count paragraph
displays the row-marker count of the result. -/
theorem c6_update_count_correct_witness :
    findCountPara (updateCount (str "<body>" ++ countPre ++
        (str "9 entries" ++ (str "</p>" ++ str "</body>")))) =
      some (str "<body>",
        renderCount (countOccur rowMarker
          (updateCount (str "<body>" ++ countPre ++
            (str "9 entries" ++ (str "</p>" ++ str "</body>"))))), str "</body>") ∧
    renderCount 1 = str "1 entry" ∧
    (∀ n, n ≠ 1 → renderCount n = natDigits n ++ str " entries") :=
  c6_update_count_correct (str "<body>") (str "9 entries") (str "</body>")
    (safePre_of_cleanStarts (by decide)) (by decide)

def c6stale : Str :=
  str "<body>\n<p class=\"ls-count\">5 entries</p>\n<tbody>\n<!-- post-row --><tr><td><a href=\"posts/b.html\">b</a></td></tr><!-- /post-row -->\n</tbody></body>"

set_option maxRecDepth 100000 in
/-- C6 counterexample: an index whose count paragraph reads "5 entries" but
holds one row marker passes through `removeFromIndex` of an absent slug
unchanged, so after that removeRow the rendered count still differs from the
row count of the result. -/
theorem c6_stale_count_cex :
    removeFromIndex c6stale (str "gone") = c6stale ∧
    countOccur rowMarker c6stale = 1 ∧
    findCountPara c6stale = some (str "<body>\n", str "5 entries",
      str "\n<tbody>\n<!-- post-row --><tr><td><a href=\"posts/b.html\">b</a></td></tr><!-- /post-row -->\n</tbody></body>") ∧
    str "5 entries" ≠ renderCount 1 := by
  refine ⟨?_, ?_, ?_, by decide⟩
  · rw [← removeFromIndexE_def]
    decide
  · rw [← countOccurE_def]
    decide
  · rw [← findCountParaE_def]
    decide

def c4skel : Str :=
  str "<body>\n<p class=\"ls-count\">0 entries</p>\n<table><tbody>\n        </tbody></table></body>"

def c4idx2 : Str :=
  addToIndex (addToIndex c4skel (str "2025-01-05") .written (str "b") (str "post b"))
    (str "2025-01-10") .spoken (str "a") (str "post a")

def c4idx3 : Str :=
  addToIndex (removeFromIndex c4idx2 (str "b")) (str "2025-01-05") .written
    (str "b") (str "post b")

def c4posts : List Post :=
  [{ slug := str "a", date := str "2025-01-10", type := .spoken, content := str "x",
     tags := [], prevSlug := none, nextSlug := some (str "b") },
   { slug := str "b", date := str "2025-01-05", type := .written, content := str "x",
     tags := [], prevSlug := some (str "a"), nextSlug := none }]

set_option maxHeartbeats 4000000 in
set_option maxRecDepth 100000 in
/-- C4: after creating post `b` (2025-01-05) and then post `a` (2025-01-10)
the index row order equals the chronology walk `a, b`; the edit flow's
remove-and-reinsert of `b`'s row (same date, unchanged linkage) then yields
row order `b, a`, breaking the invariant, because `addToIndex` inserts at the
top of the month group regardless of day order. -/
theorem c4_chronology_invariant_broken :
    rowSlugs c4idx2 = chronWalk c4posts ∧
    rowSlugs c4idx3 ≠ chronWalk c4posts := by
  simp only [c4idx2, c4idx3]
  rw [← addToIndexE_def, ← removeFromIndexE_def, ← rowSlugsE_def]
  exact ⟨by decide, by decide⟩

def c5j2 : Str :=
  addToIndex (addToIndex c4skel (str "2024-12-05") .written (str "a") (str "pa"))
    (str "2025-02-01") .written (str "b") (str "pb")

def c5j3 : Str := addToIndex c5j2 (str "2025-12-03") .written (str "c") (str "pc")

set_option maxHeartbeats 4000000 in
set_option maxRecDepth 100000 in
/-- C5: inserting a December 2025 row into an index holding a 2025 year group
(February) and a 2024 year group (December) creates no new month header and
puts the new row after the 2024 year header — inside the 2024 group — because
the month lookup matches the first "december" header anywhere in the document
rather than within the 2025 year group. -/
theorem c5_row_in_wrong_year_group :
    jsIndexOf c5j2 (str "ls-group-year\"><td colspan=\"3\">2025<") > -1 ∧
    countOccur (str "ls-group-month\"><td colspan=\"3\">december</td></tr>") c5j3 = 1 ∧
    jsIndexOf c5j3 (str "ls-group-year\"><td colspan=\"3\">2024<") <
      jsIndexOf c5j3 (str "posts/c.html") ∧
    rowSlugs c5j3 = [str "b", str "c", str "a"] := by
  simp only [c5j2, c5j3]
  rw [← addToIndexE_def, ← countOccurE_def, ← rowSlugsE_def, ← jsIndexOfE_def]
  exact ⟨by decide, by decide, by decide, by decide⟩

/-- C1 (amended): `parsePost` inverts `generatePost` on every post whose
slug and date use their usual character sets, whose content is a sequence of
newline-free trimmed paragraphs, whose tags are trimmed, and whose nav
payloads, when present, are non-empty slugs. -/
theorem c1_round_trip (o : Post) (paras : List Str)
    (hslug : slugOk o.slug) (hdate : dateOk o.date)
    (hcontent : o.content = List.intercalate (str "\n\n") paras)
    (hparas : ∀ q ∈ paras, paraOk q)
    (htags : ∀ t ∈ o.tags, tagOk t)
    (hp : navOk o.prevSlug) (hn : navOk o.nextSlug)
    (hpne : ∀ q, o.prevSlug = some q → q ≠ [])
    (hnne : ∀ q, o.nextSlug = some q → q ≠ []) :
    parsePost (generatePost o) = o := by
  rw [generatePost_eq]
  rw [parsePost_assembled o [] o.prevSlug o.nextSlug paras hslug hdate hcontent
    hparas htags hp hn (fun c hc => absurd hc (List.not_mem_nil c))]
  rw [jsTruthyOpt_eq_self hpne, jsTruthyOpt_eq_self hnne]

def c1wpost : Post :=
  { slug := str "hello-world", date := str "2025-02-03", type := .spoken,
    content := str "hello", tags := [str "t1"], prevSlug := none,
    nextSlug := some (str "next-post") }

/-- C1 witness: the round trip at a concrete valid post. -/
theorem c1_round_trip_witness : parsePost (generatePost c1wpost) = c1wpost :=
  c1_round_trip c1wpost [str "hello"]
    (slugOk_of_b (by decide))
    (dateOk_of_b (by decide))
    (by decide)
    (fun q hq => by
      rw [List.mem_singleton] at hq
      subst hq
      exact paraOk_of_b (by decide))
    (fun t ht => by
      have ht2 : t ∈ [str "t1"] := ht
      rw [List.mem_singleton] at ht2
      subst ht2
      exact tagOk_of_b (by decide))
    trivial
    (show slugOk (str "next-post") from slugOk_of_b (by decide))
    (fun q hq => by simp [c1wpost] at hq)
    (fun q hq => by
      simp only [c1wpost, Option.some.injEq] at hq
      subst hq
      decide)

def c1post : Post :=
  { slug := str "a", date := str "2025-01-01", type := .written,
    content := str "x\ny", tags := [], prevSlug := none, nextSlug := none }

set_option maxRecDepth 100000 in
/-- C1 counterexample: a valid single-paragraph post whose paragraph contains
an internal newline does not survive the round trip — the generator indents
continuation lines with eight spaces and the parser keeps them — so
`decode(encode(p))` differs from `p` in content. -/
theorem c1_multiline_paragraph_cex :
    parsePost (generatePost c1post) ≠ c1post := by
  have hty : c1post.type = .written := rfl
  have hslug : slugOk c1post.slug := slugOk_of_b (by decide)
  have hdate : dateOk c1post.date := dateOk_of_b (by decide)
  have hTr := between_transcript_written c1post [] none none hty hslug hdate
    trivial trivial (fun c hc => absurd hc (List.not_mem_nil c))
  have hMain := between_main_written c1post [] none none hty hslug hdate
  have hcontent2 : List.intercalate (str "\n\n")
      ((collectAll pOpen (midMain c1post)).map textOf) = str "x\n        y" := by
    rw [← collectAllE_def, ← textOfE_def]
    simp only [midMain]
    rw [← splitParasE_def]
    decide
  intro hcon
  have hc : (parsePost (generatePost c1post)).content = c1post.content := by
    rw [hcon]
  rw [generatePost_eq, show c1post.prevSlug = none from rfl,
    show c1post.nextSlug = none from rfl] at hc
  simp only [parsePost] at hc
  rw [hTr, hMain] at hc
  dsimp only at hc
  rw [hcontent2] at hc
  exact absurd hc (by decide)

set_option maxRecDepth 100000 in
/-- C2: a create commits the new document with prevSlug null and nextSlug the
index's newest slug, plus the index with the new row added.  When the index
has no newest slug the changeset is exactly those two files and the new
document decodes back with both nav fields null; when the newest slug is `h`
the changeset moreover carries `h`'s document with its nav rewritten to
prev = the new slug while its next payload is preserved, and both written
documents decode back to the stated posts. -/
theorem c2_create_insert_at_head (idx date : Str) (r : EditorSaveResult)
    (fp : Str → Str) (h : Str) (oh : Post) (indh : Str) (ph nh : Option Str)
    (parasN parasH : List Str)
    (hrslug : slugOk r.slug) (hrne : r.slug ≠ []) (hdate : dateOk date)
    (hcN : r.content = List.intercalate (str "\n\n") parasN)
    (hpN : ∀ q ∈ parasN, paraOk q) (htN : ∀ t ∈ r.tags, tagOk t)
    (hhs : slugOk h)
    (hfp : fp h = docAssembled oh indh ph nh)
    (hohslug : slugOk oh.slug) (hohdate : dateOk oh.date)
    (hcH : oh.content = List.intercalate (str "\n\n") parasH)
    (hpH : ∀ q ∈ parasH, paraOk q) (htH : ∀ t ∈ oh.tags, tagOk t)
    (hph : navOk ph) (hnh : navOk nh) (hind : ∀ c ∈ indh, c = ' ') :
    (getNewestSlug idx = none →
      newEntryFiles idx date r fp =
        [⟨str "posts/" ++ r.slug ++ str ".html",
          some (generatePost ⟨r.slug, date, r.type, r.content, r.tags,
            none, none⟩), false⟩,
         ⟨str "index.html", some (addToIndex idx date r.type r.slug r.desc),
          false⟩] ∧
      parsePost (generatePost ⟨r.slug, date, r.type, r.content, r.tags,
          none, none⟩) =
        { slug := r.slug, date := date, type := r.type, content := r.content,
          tags := r.tags, prevSlug := none, nextSlug := none }) ∧
    (getNewestSlug idx = some h →
      newEntryFiles idx date r fp =
        [⟨str "posts/" ++ r.slug ++ str ".html",
          some (generatePost ⟨r.slug, date, r.type, r.content, r.tags,
            none, some h⟩), false⟩,
         ⟨str "index.html", some (addToIndex idx date r.type r.slug r.desc),
          false⟩,
         ⟨str "posts/" ++ h ++ str ".html",
          some (docAssembled oh (indh ++ str "  ") (some r.slug)
            (jsTruthyOpt nh)), false⟩] ∧
      parsePost (generatePost ⟨r.slug, date, r.type, r.content, r.tags,
          none, some h⟩) =
        { slug := r.slug, date := date, type := r.type, content := r.content,
          tags := r.tags, prevSlug := none, nextSlug := some h } ∧
      parsePost (docAssembled oh (indh ++ str "  ") (some r.slug)
          (jsTruthyOpt nh)) =
        { slug := oh.slug, date := oh.date, type := oh.type,
          content := oh.content, tags := oh.tags, prevSlug := some r.slug,
          nextSlug := jsTruthyOpt nh }) := by
  have hparseH := parsePost_assembled oh indh ph nh parasH hohslug hohdate hcH hpH
    htH hph hnh hind
  have hind2 : ∀ c ∈ indh ++ str "  ", c = ' ' := by
    intro c hc
    rcases List.mem_append.mp hc with h1 | h1
    · exact hind c h1
    · have h2 : c ∈ [' ', ' '] := h1
      rcases List.mem_cons.mp h2 with e | h3
      · exact e
      · rcases List.mem_cons.mp h3 with e | h4
        · exact e
        · exact absurd h4 (List.not_mem_nil c)
  refine ⟨fun hg0 => ⟨?_, ?_⟩, fun hg => ⟨?_, ?_, ?_⟩⟩
  · simp only [newEntryFiles]
    rw [hg0]
  · rw [generatePost_eq]
    dsimp only
    rw [parsePost_assembled ⟨r.slug, date, r.type, r.content, r.tags, none, none⟩
      [] none none parasN hrslug hdate hcN hpN htN trivial trivial
      (fun c hc => absurd hc (List.not_mem_nil c))]
    rfl
  · simp only [newEntryFiles]
    rw [hg]
    dsimp only
    rw [hfp, hparseH]
    dsimp only
    rw [updatePostNav_assembled oh indh ph nh (some r.slug) (jsTruthyOpt nh)
      hohslug hohdate hph hnh hind]
    simp only [List.cons_append, List.nil_append]
  · rw [generatePost_eq]
    dsimp only
    rw [parsePost_assembled ⟨r.slug, date, r.type, r.content, r.tags, none, some h⟩
      [] none (some h) parasN hrslug hdate hcN hpN htN trivial hhs
      (fun c hc => absurd hc (List.not_mem_nil c))]
    rw [@jsTruthyOpt_eq_self (some h) (fun q hq => by
      injection hq with e
      exact e ▸ getNewestSlug_ne hg)]
    rfl
  · rw [parsePost_assembled oh (indh ++ str "  ") (some r.slug) (jsTruthyOpt nh)
      parasH hohslug hohdate hcH hpH htH hrslug (navOk_truthyOpt hnh) hind2]
    rw [jsTruthyOpt_idem nh]
    rw [@jsTruthyOpt_eq_self (some r.slug) (fun q hq => by
      injection hq with e
      exact e ▸ hrne)]

def c2oh : Post :=
  { slug := str "b", date := str "2025-01-05", type := .written,
    content := str "x", tags := [], prevSlug := none, nextSlug := none }

def c2idx : Str :=
  str "<p class=\"ls-count\">1 entry</p>\n<tbody>\n<!-- post-row --><tr><td><a href=\"posts/b.html\">b</a></td></tr><!-- /post-row -->\n</tbody>"

def c2r : EditorSaveResult :=
  { slug := str "new-post", type := .spoken, content := str "z",
    desc := str "pd", tags := [] }

set_option maxRecDepth 100000 in
/-- C2 witness: the create changeset at a concrete index whose newest slug
is `b`, covering both conclusion branches. -/
theorem c2_create_insert_at_head_witness :
    (getNewestSlug c2idx = none →
      newEntryFiles c2idx (str "2025-02-01") c2r
          (fun _ => docAssembled c2oh [] none none) =
        [⟨str "posts/" ++ c2r.slug ++ str ".html",
          some (generatePost ⟨c2r.slug, str "2025-02-01", c2r.type, c2r.content,
            c2r.tags, none, none⟩), false⟩,
         ⟨str "index.html",
          some (addToIndex c2idx (str "2025-02-01") c2r.type c2r.slug c2r.desc),
          false⟩] ∧
      parsePost (generatePost ⟨c2r.slug, str "2025-02-01", c2r.type, c2r.content,
          c2r.tags, none, none⟩) =
        { slug := c2r.slug, date := str "2025-02-01", type := c2r.type,
          content := c2r.content, tags := c2r.tags, prevSlug := none,
          nextSlug := none }) ∧
    (getNewestSlug c2idx = some (str "b") →
      newEntryFiles c2idx (str "2025-02-01") c2r
          (fun _ => docAssembled c2oh [] none none) =
        [⟨str "posts/" ++ c2r.slug ++ str ".html",
          some (generatePost ⟨c2r.slug, str "2025-02-01", c2r.type, c2r.content,
            c2r.tags, none, some (str "b")⟩), false⟩,
         ⟨str "index.html",
          some (addToIndex c2idx (str "2025-02-01") c2r.type c2r.slug c2r.desc),
          false⟩,
         ⟨str "posts/" ++ str "b" ++ str ".html",
          some (docAssembled c2oh ([] ++ str "  ") (some c2r.slug)
            (jsTruthyOpt none)), false⟩] ∧
      parsePost (generatePost ⟨c2r.slug, str "2025-02-01", c2r.type, c2r.content,
          c2r.tags, none, some (str "b")⟩) =
        { slug := c2r.slug, date := str "2025-02-01", type := c2r.type,
          content := c2r.content, tags := c2r.tags, prevSlug := none,
          nextSlug := some (str "b") } ∧
      parsePost (docAssembled c2oh ([] ++ str "  ") (some c2r.slug)
          (jsTruthyOpt none)) =
        { slug := c2oh.slug, date := c2oh.date, type := c2oh.type,
          content := c2oh.content, tags := c2oh.tags, prevSlug := some c2r.slug,
          nextSlug := jsTruthyOpt none }) :=
  c2_create_insert_at_head c2idx (str "2025-02-01") c2r
    (fun _ => docAssembled c2oh [] none none) (str "b") c2oh [] none none
    [str "z"] [str "x"]
    (slugOk_of_b (by decide)) (by decide) (dateOk_of_b (by decide))
    (by decide)
    (fun q hq => by
      rw [List.mem_singleton] at hq
      subst hq
      exact paraOk_of_b (by decide))
    (fun t ht => absurd ht (List.not_mem_nil t))
    (slugOk_of_b (by decide))
    rfl
    (slugOk_of_b (by decide)) (dateOk_of_b (by decide))
    (by decide)
    (fun q hq => by
      rw [List.mem_singleton] at hq
      subst hq
      exact paraOk_of_b (by decide))
    (fun t ht => absurd ht (List.not_mem_nil t))
    trivial trivial
    (fun c hc => absurd hc (List.not_mem_nil c))

set_option maxRecDepth 100000 in
/-- C3: a delete of `D` always commits `D`'s path marked deleted and the
index with `D`'s row removed; when `D`'s decoded prev payload is truthy the
changeset also carries that neighbour's document with nav rewritten to
next = `D`'s next payload (null when that is absent) while its own prev
payload is preserved; symmetrically, when `D`'s next payload is truthy it
carries that neighbour's document with nav rewritten to prev = `D`'s prev
payload (null when absent) while its own next payload is preserved; nothing
else is committed in any of the four presence cases, and every rewritten
document decodes to its old post with only the stated nav field changed. -/
theorem c3_delete_relink (slug idx : Str) (fp : Str → Str)
    (oD : Post) (indD : Str) (pD nD : Option Str)
    (oP : Post) (indP : Str) (pP nP : Option Str)
    (oN : Post) (indN : Str) (pN nN : Option Str)
    (parasD parasP parasN2 : List Str)
    (hfpD : fp slug = docAssembled oD indD pD nD)
    (hDslug : slugOk oD.slug) (hDdate : dateOk oD.date)
    (hcD : oD.content = List.intercalate (str "\n\n") parasD)
    (hpD : ∀ q ∈ parasD, paraOk q) (htD : ∀ t ∈ oD.tags, tagOk t)
    (hpDn : navOk pD) (hnDn : navOk nD) (hindD : ∀ c ∈ indD, c = ' ')
    (hfpP : ∀ p, jsTruthyOpt pD = some p → fp p = docAssembled oP indP pP nP)
    (hPslug : slugOk oP.slug) (hPdate : dateOk oP.date)
    (hcP : oP.content = List.intercalate (str "\n\n") parasP)
    (hpP2 : ∀ q ∈ parasP, paraOk q) (htP : ∀ t ∈ oP.tags, tagOk t)
    (hppP : navOk pP) (hnnP : navOk nP) (hindP : ∀ c ∈ indP, c = ' ')
    (hfpN : ∀ nx, jsTruthyOpt nD = some nx → fp nx = docAssembled oN indN pN nN)
    (hNslug : slugOk oN.slug) (hNdate : dateOk oN.date)
    (hcN2 : oN.content = List.intercalate (str "\n\n") parasN2)
    (hpN2 : ∀ q ∈ parasN2, paraOk q) (htN2 : ∀ t ∈ oN.tags, tagOk t)
    (hppN : navOk pN) (hnnN : navOk nN) (hindN : ∀ c ∈ indN, c = ' ') :
    (jsTruthyOpt pD = none → jsTruthyOpt nD = none →
      deleteEntryFiles slug idx fp =
        [⟨str "posts/" ++ slug ++ str ".html", none, true⟩,
         ⟨str "index.html", some (removeFromIndex idx slug), false⟩]) ∧
    (∀ p, jsTruthyOpt pD = some p → jsTruthyOpt nD = none →
      deleteEntryFiles slug idx fp =
        [⟨str "posts/" ++ slug ++ str ".html", none, true⟩,
         ⟨str "index.html", some (removeFromIndex idx slug), false⟩,
         ⟨str "posts/" ++ p ++ str ".html",
          some (docAssembled oP (indP ++ str "  ") (jsTruthyOpt pP) none),
          false⟩] ∧
      parsePost (docAssembled oP (indP ++ str "  ") (jsTruthyOpt pP) none) =
        { slug := oP.slug, date := oP.date, type := oP.type,
          content := oP.content, tags := oP.tags, prevSlug := jsTruthyOpt pP,
          nextSlug := none }) ∧
    (∀ nx, jsTruthyOpt pD = none → jsTruthyOpt nD = some nx →
      deleteEntryFiles slug idx fp =
        [⟨str "posts/" ++ slug ++ str ".html", none, true⟩,
         ⟨str "index.html", some (removeFromIndex idx slug), false⟩,
         ⟨str "posts/" ++ nx ++ str ".html",
          some (docAssembled oN (indN ++ str "  ") none (jsTruthyOpt nN)),
          false⟩] ∧
      parsePost (docAssembled oN (indN ++ str "  ") none (jsTruthyOpt nN)) =
        { slug := oN.slug, date := oN.date, type := oN.type,
          content := oN.content, tags := oN.tags, prevSlug := none,
          nextSlug := jsTruthyOpt nN }) ∧
    (∀ p nx, jsTruthyOpt pD = some p → jsTruthyOpt nD = some nx →
      deleteEntryFiles slug idx fp =
        [⟨str "posts/" ++ slug ++ str ".html", none, true⟩,
         ⟨str "index.html", some (removeFromIndex idx slug), false⟩,
         ⟨str "posts/" ++ p ++ str ".html",
          some (docAssembled oP (indP ++ str "  ") (jsTruthyOpt pP) (some nx)),
          false⟩,
         ⟨str "posts/" ++ nx ++ str ".html",
          some (docAssembled oN (indN ++ str "  ") (some p) (jsTruthyOpt nN)),
          false⟩] ∧
      parsePost (docAssembled oP (indP ++ str "  ") (jsTruthyOpt pP) (some nx)) =
        { slug := oP.slug, date := oP.date, type := oP.type,
          content := oP.content, tags := oP.tags, prevSlug := jsTruthyOpt pP,
          nextSlug := some nx } ∧
      parsePost (docAssembled oN (indN ++ str "  ") (some p) (jsTruthyOpt nN)) =
        { slug := oN.slug, date := oN.date, type := oN.type,
          content := oN.content, tags := oN.tags, prevSlug := some p,
          nextSlug := jsTruthyOpt nN }) := by
  have hparseD : parsePost (fp slug) =
      { slug := oD.slug, date := oD.date, type := oD.type, content := oD.content,
        tags := oD.tags, prevSlug := jsTruthyOpt pD,
        nextSlug := jsTruthyOpt nD } := by
    rw [hfpD]
    exact parsePost_assembled oD indD pD nD parasD hDslug hDdate hcD hpD htD
      hpDn hnDn hindD
  have hindP2 : ∀ c ∈ indP ++ str "  ", c = ' ' := by
    intro c hc
    rcases List.mem_append.mp hc with h1 | h1
    · exact hindP c h1
    · have h2 : c ∈ [' ', ' '] := h1
      rcases List.mem_cons.mp h2 with e | h3
      · exact e
      · rcases List.mem_cons.mp h3 with e | h4
        · exact e
        · exact absurd h4 (List.not_mem_nil c)
  have hindN2 : ∀ c ∈ indN ++ str "  ", c = ' ' := by
    intro c hc
    rcases List.mem_append.mp hc with h1 | h1
    · exact hindN c h1
    · have h2 : c ∈ [' ', ' '] := h1
      rcases List.mem_cons.mp h2 with e | h3
      · exact e
      · rcases List.mem_cons.mp h3 with e | h4
        · exact e
        · exact absurd h4 (List.not_mem_nil c)
  refine ⟨?_, ?_, ?_, ?_⟩
  · intro hP0 hN0
    simp only [deleteEntryFiles]
    rw [hparseD]
    dsimp only
    rw [hP0, hN0]
    dsimp only
    simp only [List.append_nil]
  · intro p hPs hN0
    have hpne : p ≠ [] := jsTruthyOpt_ne hPs
    have hpB : (!p.isEmpty) = true := by
      cases p with
      | nil => exact absurd rfl hpne
      | cons c cs => rfl
    have hps : slugOk p := by
      have hnav := navOk_truthyOpt hpDn
      rw [hPs] at hnav
      exact hnav
    refine ⟨?_, ?_⟩
    · simp only [deleteEntryFiles]
      rw [hparseD]
      dsimp only
      rw [hPs, hN0]
      dsimp only
      rw [if_pos hpB]
      rw [hfpP p hPs, parsePost_assembled oP indP pP nP parasP hPslug hPdate hcP
        hpP2 htP hppP hnnP hindP]
      dsimp only
      rw [updatePostNav_assembled oP indP pP nP (jsTruthyOpt pP) none
        hPslug hPdate hppP hnnP hindP]
      simp only [List.append_nil, List.cons_append, List.nil_append]
    · rw [parsePost_assembled oP (indP ++ str "  ") (jsTruthyOpt pP) none
        parasP hPslug hPdate hcP hpP2 htP (navOk_truthyOpt hppP) trivial hindP2]
      rw [jsTruthyOpt_idem pP]
      rfl
  · intro nx hP0 hNs
    have hnxne : nx ≠ [] := jsTruthyOpt_ne hNs
    have hnxB : (!nx.isEmpty) = true := by
      cases nx with
      | nil => exact absurd rfl hnxne
      | cons c cs => rfl
    have hnxs : slugOk nx := by
      have hnav := navOk_truthyOpt hnDn
      rw [hNs] at hnav
      exact hnav
    refine ⟨?_, ?_⟩
    · simp only [deleteEntryFiles]
      rw [hparseD]
      dsimp only
      rw [hP0, hNs]
      dsimp only
      rw [if_pos hnxB]
      rw [hfpN nx hNs, parsePost_assembled oN indN pN nN parasN2 hNslug hNdate
        hcN2 hpN2 htN2 hppN hnnN hindN]
      dsimp only
      rw [updatePostNav_assembled oN indN pN nN none (jsTruthyOpt nN)
        hNslug hNdate hppN hnnN hindN]
      simp only [List.append_nil, List.cons_append, List.nil_append]
    · rw [parsePost_assembled oN (indN ++ str "  ") none (jsTruthyOpt nN)
        parasN2 hNslug hNdate hcN2 hpN2 htN2 trivial (navOk_truthyOpt hnnN)
        hindN2]
      rw [jsTruthyOpt_idem nN]
      rfl
  · intro p nx hPs hNs
    have hpne : p ≠ [] := jsTruthyOpt_ne hPs
    have hnxne : nx ≠ [] := jsTruthyOpt_ne hNs
    have hpB : (!p.isEmpty) = true := by
      cases p with
      | nil => exact absurd rfl hpne
      | cons c cs => rfl
    have hnxB : (!nx.isEmpty) = true := by
      cases nx with
      | nil => exact absurd rfl hnxne
      | cons c cs => rfl
    have hps : slugOk p := by
      have hnav := navOk_truthyOpt hpDn
      rw [hPs] at hnav
      exact hnav
    have hnxs : slugOk nx := by
      have hnav := navOk_truthyOpt hnDn
      rw [hNs] at hnav
      exact hnav
    have hjp : jsTruthyOpt (some p) = some p :=
      jsTruthyOpt_eq_self (fun q hq => by
        injection hq with e
        exact e ▸ hpne)
    have hjnx : jsTruthyOpt (some nx) = some nx :=
      jsTruthyOpt_eq_self (fun q hq => by
        injection hq with e
        exact e ▸ hnxne)
    refine ⟨?_, ?_, ?_⟩
    · simp only [deleteEntryFiles]
      rw [hparseD]
      dsimp only
      rw [hPs, hNs]
      dsimp only
      rw [if_pos hpB, if_pos hnxB]
      rw [hfpP p hPs, parsePost_assembled oP indP pP nP parasP hPslug hPdate hcP
        hpP2 htP hppP hnnP hindP]
      rw [hfpN nx hNs, parsePost_assembled oN indN pN nN parasN2 hNslug hNdate
        hcN2 hpN2 htN2 hppN hnnN hindN]
      dsimp only
      rw [updatePostNav_assembled oP indP pP nP (jsTruthyOpt pP) (some nx)
        hPslug hPdate hppP hnnP hindP]
      rw [updatePostNav_assembled oN indN pN nN (some p) (jsTruthyOpt nN)
        hNslug hNdate hppN hnnN hindN]
      simp only [List.cons_append, List.nil_append]
    · rw [parsePost_assembled oP (indP ++ str "  ") (jsTruthyOpt pP) (some nx)
        parasP hPslug hPdate hcP hpP2 htP (navOk_truthyOpt hppP) hnxs hindP2]
      rw [jsTruthyOpt_idem pP, hjnx]
    · rw [parsePost_assembled oN (indN ++ str "  ") (some p) (jsTruthyOpt nN)
        parasN2 hNslug hNdate hcN2 hpN2 htN2 hps (navOk_truthyOpt hnnN) hindN2]
      rw [jsTruthyOpt_idem nN, hjp]

def c3oD : Post :=
  { slug := str "b", date := str "2025-01-07", type := .written,
    content := str "x", tags := [], prevSlug := some (str "a"),
    nextSlug := some (str "c") }

def c3oP : Post :=
  { slug := str "a", date := str "2025-01-09", type := .written,
    content := str "x", tags := [], prevSlug := none,
    nextSlug := some (str "b") }

def c3oN : Post :=
  { slug := str "c", date := str "2025-01-05", type := .spoken,
    content := str "x", tags := [], prevSlug := some (str "b"),
    nextSlug := none }

def c3fp : Str → Str := fun s =>
  if s = str "b" then docAssembled c3oD [] (some (str "a")) (some (str "c"))
  else if s = str "a" then docAssembled c3oP [] none (some (str "b"))
  else docAssembled c3oN [] (some (str "b")) none

set_option maxRecDepth 100000 in
/-- C3 witness: the delete changeset for the middle post of a concrete
three-post chain `a → b → c`, covering every conclusion branch. -/
theorem c3_delete_relink_witness :
    (jsTruthyOpt (some (str "a")) = none → jsTruthyOpt (some (str "c")) = none →
      deleteEntryFiles (str "b") (str "idx") c3fp =
        [⟨str "posts/" ++ str "b" ++ str ".html", none, true⟩,
         ⟨str "index.html", some (removeFromIndex (str "idx") (str "b")),
          false⟩]) ∧
    (∀ p, jsTruthyOpt (some (str "a")) = some p →
      jsTruthyOpt (some (str "c")) = none →
      deleteEntryFiles (str "b") (str "idx") c3fp =
        [⟨str "posts/" ++ str "b" ++ str ".html", none, true⟩,
         ⟨str "index.html", some (removeFromIndex (str "idx") (str "b")),
          false⟩,
         ⟨str "posts/" ++ p ++ str ".html",
          some (docAssembled c3oP ([] ++ str "  ") (jsTruthyOpt none) none),
          false⟩] ∧
      parsePost (docAssembled c3oP ([] ++ str "  ") (jsTruthyOpt none) none) =
        { slug := c3oP.slug, date := c3oP.date, type := c3oP.type,
          content := c3oP.content, tags := c3oP.tags,
          prevSlug := jsTruthyOpt none, nextSlug := none }) ∧
    (∀ nx, jsTruthyOpt (some (str "a")) = none →
      jsTruthyOpt (some (str "c")) = some nx →
      deleteEntryFiles (str "b") (str "idx") c3fp =
        [⟨str "posts/" ++ str "b" ++ str ".html", none, true⟩,
         ⟨str "index.html", some (removeFromIndex (str "idx") (str "b")),
          false⟩,
         ⟨str "posts/" ++ nx ++ str ".html",
          some (docAssembled c3oN ([] ++ str "  ") none (jsTruthyOpt none)),
          false⟩] ∧
      parsePost (docAssembled c3oN ([] ++ str "  ") none (jsTruthyOpt none)) =
        { slug := c3oN.slug, date := c3oN.date, type := c3oN.type,
          content := c3oN.content, tags := c3oN.tags, prevSlug := none,
          nextSlug := jsTruthyOpt none }) ∧
    (∀ p nx, jsTruthyOpt (some (str "a")) = some p →
      jsTruthyOpt (some (str "c")) = some nx →
      deleteEntryFiles (str "b") (str "idx") c3fp =
        [⟨str "posts/" ++ str "b" ++ str ".html", none, true⟩,
         ⟨str "index.html", some (removeFromIndex (str "idx") (str "b")),
          false⟩,
         ⟨str "posts/" ++ p ++ str ".html",
          some (docAssembled c3oP ([] ++ str "  ") (jsTruthyOpt none)
            (some nx)), false⟩,
         ⟨str "posts/" ++ nx ++ str ".html",
          some (docAssembled c3oN ([] ++ str "  ") (some p)
            (jsTruthyOpt none)), false⟩] ∧
      parsePost (docAssembled c3oP ([] ++ str "  ") (jsTruthyOpt none)
          (some nx)) =
        { slug := c3oP.slug, date := c3oP.date, type := c3oP.type,
          content := c3oP.content, tags := c3oP.tags,
          prevSlug := jsTruthyOpt none, nextSlug := some nx } ∧
      parsePost (docAssembled c3oN ([] ++ str "  ") (some p)
          (jsTruthyOpt none)) =
        { slug := c3oN.slug, date := c3oN.date, type := c3oN.type,
          content := c3oN.content, tags := c3oN.tags, prevSlug := some p,
          nextSlug := jsTruthyOpt none }) :=
  c3_delete_relink (str "b") (str "idx") c3fp c3oD []
    (some (str "a")) (some (str "c"))
    c3oP [] none (some (str "b")) c3oN [] (some (str "b")) none
    [str "x"] [str "x"] [str "x"]
    rfl
    (slugOk_of_b (by decide)) (dateOk_of_b (by decide))
    (by decide)
    (fun q hq => by
      rw [List.mem_singleton] at hq
      subst hq
      exact paraOk_of_b (by decide))
    (fun t ht => absurd ht (List.not_mem_nil t))
    (show slugOk (str "a") from slugOk_of_b (by decide))
    (show slugOk (str "c") from slugOk_of_b (by decide))
    (fun c hc => absurd hc (List.not_mem_nil c))
    (fun p hp => by
      have h2 : (some (str "a") : Option Str) = some p := hp
      injection h2 with e
      subst e
      rfl)
    (slugOk_of_b (by decide)) (dateOk_of_b (by decide))
    (by decide)
    (fun q hq => by
      rw [List.mem_singleton] at hq
      subst hq
      exact paraOk_of_b (by decide))
    (fun t ht => absurd ht (List.not_mem_nil t))
    trivial (show slugOk (str "b") from slugOk_of_b (by decide))
    (fun c hc => absurd hc (List.not_mem_nil c))
    (fun nx hnx => by
      have h2 : (some (str "c") : Option Str) = some nx := hnx
      injection h2 with e
      subst e
      rfl)
    (slugOk_of_b (by decide)) (dateOk_of_b (by decide))
    (by decide)
    (fun q hq => by
      rw [List.mem_singleton] at hq
      subst hq
      exact paraOk_of_b (by decide))
    (fun t ht => absurd ht (List.not_mem_nil t))
    (show slugOk (str "b") from slugOk_of_b (by decide)) trivial
    (fun c hc => absurd hc (List.not_mem_nil c))

set_option maxRecDepth 100000 in
/-- C7: an edit of `slug` commits exactly two files — the re-encoded post and
the reworked index — the re-encoded post decodes back with the decoded post's
date, prevSlug and nextSlug intact (only content, type and tags taken from
the form), and the remove-then-reinsert of the row leaves the index's
row-marker count unchanged.  The edited row may sit anywhere in the index:
below other rows of its own month group (`G`) and above arbitrary further
rows and groups (`R`), with arbitrary material, other months' headers and
rows included, before its month header (`d`). -/
theorem c7_edit_frame (slug doc idx : Str) (r : EditorSaveResult)
    (oe : Post) (inde : Str) (pe ne2 : Option Str) (parasE parasR : List Str)
    (a c0 d G W M Q R : Str)
    (hdoc : doc = docAssembled oe inde pe ne2)
    (heslug : slugOk oe.slug) (hedate : dateOk oe.date)
    (hcE : oe.content = List.intercalate (str "\n\n") parasE)
    (hpE : ∀ q ∈ parasE, paraOk q) (htE : ∀ t ∈ oe.tags, tagOk t)
    (hpe : navOk pe) (hne : navOk ne2) (hinde : ∀ c ∈ inde, c = ' ')
    (hrslug : slugOk slug)
    (hcR : r.content = List.intercalate (str "\n\n") parasR)
    (hpR : ∀ q ∈ parasR, paraOk q) (htR : ∀ t ∈ r.tags, tagOk t)
    (hidx : idx = ((a ++ countPre ++ (c0 ++ (str "</p>" ++ d))) ++
      monthTagOf oe.date ++ G) ++ str "\n" ++ W ++ rowMarker ++ M ++
      (str "posts/" ++ slug ++ str ".html") ++ Q ++ rowEndMarker ++ R)
    (hW : ∀ c ∈ W, c = ' ')
    (ha : SafePre countPre a) (hc0 : ∀ x ∈ c0, x ≠ '<')
    (haM : SafePre (str "ls-group-month\"><td colspan=\"3\">" ++
      jsAtNum MONTHS (jsToNumber (jsAt (splitOnChar '-' oe.date) 1)) ++
      str "<") a)
    (hdM : SafePre (str "ls-group-month\"><td colspan=\"3\">" ++
      jsAtNum MONTHS (jsToNumber (jsAt (splitOnChar '-' oe.date) 1)) ++
      str "<") d)
    (hGend : str ">" <:+ monthTagOf oe.date ++ G)
    (hM : SafePre (str "posts/" ++ slug ++ str ".html")
      (((a ++ countPre ++ (c0 ++ (str "</p>" ++ d))) ++ monthTagOf oe.date ++
        G) ++ str "\n" ++ W ++ rowMarker ++ M))
    (hRow : SafePre rowMarker (str "!-- post-row -->" ++
      (M ++ (str "posts/" ++ slug ++ str ".html"))))
    (hEnd : SafePre rowEndMarker ((str "posts/" ++ slug ++ str ".html") ++ Q))
    (hMsafe : SafePre rowMarker (M ++ ((str "posts/" ++ slug ++ str ".html") ++ Q))) :
    editEntryFiles slug doc idx r =
      [⟨str "posts/" ++ slug ++ str ".html",
        some (generatePost ⟨slug, oe.date, r.type, r.content, r.tags,
          jsTruthyOpt pe, jsTruthyOpt ne2⟩), false⟩,
       ⟨str "index.html",
        some (addToIndex (removeFromIndex idx slug) oe.date r.type slug r.desc),
        false⟩] ∧
    parsePost (generatePost ⟨slug, oe.date, r.type, r.content, r.tags,
        jsTruthyOpt pe, jsTruthyOpt ne2⟩) =
      { slug := slug, date := oe.date, type := r.type, content := r.content,
        tags := r.tags, prevSlug := jsTruthyOpt pe,
        nextSlug := jsTruthyOpt ne2 } ∧
    countOccur rowMarker
        (addToIndex (removeFromIndex idx slug) oe.date r.type slug r.desc) =
      countOccur rowMarker idx := by
  have hpkR : rowMarker.head? = some '<' := rfl
  have hpkM : (str "ls-group-month\"><td colspan=\"3\">" ++
      jsAtNum MONTHS (jsToNumber (jsAt (splitOnChar '-' oe.date) 1)) ++
      str "<").head? = some 'l' := rfl
  have hmono : (str "ls-group-month\"><td colspan=\"3\">") <+:
      (str "ls-group-month\"><td colspan=\"3\">" ++
        jsAtNum MONTHS (jsToNumber (jsAt (splitOnChar '-' oe.date) 1)) ++
        str "<") := by
    rw [List.append_assoc]
    exact List.prefix_append _ _
  have hslug2 : ∀ x ∈ slug, x ≠ '<' := slugOk_no_lt hrslug
  have hdate2 : ∀ x ∈ oe.date, x ≠ '<' := dateOk_no_lt hedate
  have hsP1 : str ">" <:+ (a ++ countPre ++ (c0 ++ (str "</p>" ++ d))) ++
      monthTagOf oe.date ++ G := by
    rw [List.append_assoc]
    exact hGend.trans (List.suffix_append _ _)
  have hsDG : str ">" <:+ (d ++ monthTagOf oe.date) ++ G := by
    rw [List.append_assoc]
    exact hGend.trans (List.suffix_append _ _)
  refine ⟨?_, ?_, ?_⟩
  · simp only [editEntryFiles]
    rw [hdoc, parsePost_assembled oe inde pe ne2 parasE heslug hedate hcE hpE htE
      hpe hne hinde]
  · rw [generatePost_eq]
    dsimp only
    rw [parsePost_assembled ⟨slug, oe.date, r.type, r.content, r.tags,
        jsTruthyOpt pe, jsTruthyOpt ne2⟩
      [] (jsTruthyOpt pe) (jsTruthyOpt ne2) parasR hrslug hedate hcR hpR htR
      (navOk_truthyOpt hpe) (navOk_truthyOpt hne)
      (fun c hc => absurd hc (List.not_mem_nil c))]
    rw [jsTruthyOpt_idem pe, jsTruthyOpt_idem ne2]
  · rw [hidx]
    rw [removeFromIndex_at ((a ++ countPre ++ (c0 ++ (str "</p>" ++ d))) ++
      monthTagOf oe.date ++ G) W M Q R slug hW hM hRow hEnd]
    rw [show ((a ++ countPre ++ (c0 ++ (str "</p>" ++ d))) ++
        monthTagOf oe.date ++ G) ++ R =
        a ++ countPre ++ (c0 ++ (str "</p>" ++
          (d ++ (monthTagOf oe.date ++ (G ++ R)))))
        from by simp [List.append_assoc]]
    rw [updateCount_at ha hc0]
    set k1 := countOccur rowMarker
      (a ++ countPre ++ (c0 ++ (str "</p>" ++
        (d ++ (monthTagOf oe.date ++ (G ++ R)))))) with hk1
    rw [show a ++ countPre ++ renderCount k1 ++ str "</p>" ++
        (d ++ (monthTagOf oe.date ++ (G ++ R))) =
        (a ++ countPre ++ (renderCount k1 ++ (str "</p>" ++ d))) ++
          monthTagOf oe.date ++ (G ++ R) from by simp [List.append_assoc]]
    have hA2 : SafePre (str "ls-group-month\"><td colspan=\"3\">" ++
        jsAtNum MONTHS (jsToNumber (jsAt (splitOnChar '-' oe.date) 1)) ++ str "<")
        (a ++ countPre ++ (renderCount k1 ++ (str "</p>" ++ d))) := by
      refine safePre_append (safePre_append haM
        (safePre_mono hmono (safePre_of_cleanStarts (by decide)))) ?_
      refine safePre_append (safePre_head hpkM (renderCount_no_l k1)) ?_
      exact safePre_append (safePre_head hpkM (by decide)) hdM
    rw [addToIndex_month_count a (renderCount k1) d (G ++ R) oe.date r.type slug
      r.desc ha (renderCount_no_lt k1) hA2 hslug2 hdate2]
    rw [show (a ++ countPre ++ (renderCount k1 ++ (str "</p>" ++ d))) ++
        monthTagOf oe.date ++ (G ++ R) =
        a ++ countPre ++ (renderCount k1 ++ (str "</p>" ++
          (d ++ (monthTagOf oe.date ++ (G ++ R))))) from by
      simp [List.append_assoc]]
    rw [countPara_count (renderCount_no_lt k1)]
    rw [show d ++ (monthTagOf oe.date ++ (G ++ R)) =
        ((d ++ monthTagOf oe.date) ++ G) ++ R from by simp [List.append_assoc]]
    rw [countOccur_append_of_noStraddle (by decide)
      (noStraddle_of_straddleFree hsDG (by decide))]
    rw [show ((a ++ countPre ++ (c0 ++ (str "</p>" ++ d))) ++
        monthTagOf oe.date ++ G) ++ str "\n" ++ W ++ rowMarker ++ M ++
        (str "posts/" ++ slug ++ str ".html") ++ Q ++ rowEndMarker ++ R =
        ((a ++ countPre ++ (c0 ++ (str "</p>" ++ d))) ++
          monthTagOf oe.date ++ G) ++
        (((str "\n" ++ W) ++ rowMarker ++
          ((M ++ ((str "posts/" ++ slug ++ str ".html") ++ Q)) ++
            rowEndMarker)) ++ R) from by simp [List.append_assoc]]
    rw [countOccur_append_of_noStraddle (by decide)
      (noStraddle_of_straddleFree hsP1 (by decide))]
    rw [countOccur_append_of_noStraddle (by decide)
      (noStraddle_of_straddleFree (show rowEndMarker <:+
        (str "\n" ++ W) ++ rowMarker ++
          ((M ++ ((str "posts/" ++ slug ++ str ".html") ++ Q)) ++ rowEndMarker)
        from (List.suffix_append _ _).trans (List.suffix_append _ _))
        (by decide))]
    rw [countOccur_at (by decide) (safePre_append
      (safePre_of_cleanStarts (by decide)) (safePre_spaces hpkR hW))]
    rw [countOccur_zero_of_safe (by decide)
      (safePre_append hMsafe (safePre_of_cleanStarts (by decide)))]
    rw [show (a ++ countPre ++ (c0 ++ (str "</p>" ++ d))) ++
        monthTagOf oe.date ++ G =
        a ++ countPre ++ (c0 ++ (str "</p>" ++ (d ++ (monthTagOf oe.date ++ G))))
        from by simp [List.append_assoc]]
    rw [countPara_count hc0]
    rw [show d ++ (monthTagOf oe.date ++ G) = (d ++ monthTagOf oe.date) ++ G
        from by simp [List.append_assoc]]
    omega

def c7oe : Post :=
  { slug := str "b", date := str "2025-01-05", type := .written,
    content := str "x", tags := [], prevSlug := none, nextSlug := none }

def c7r : EditorSaveResult :=
  { slug := str "b", type := .spoken, content := str "y", desc := str "pb",
    tags := [] }

def c7idx : Str :=
  ((str "<body>\n" ++ countPre ++ (str "3 entries" ++ (str "</p>" ++
    str "\n<tbody>\n  "))) ++ monthTagOf (str "2025-01-05") ++
    (str "\n  " ++ rowMarker ++
      str "<tr><td><a href=\"posts/a.html\">a</a></td></tr>" ++
      rowEndMarker)) ++ str "\n" ++
  str "  " ++ rowMarker ++ str "<tr><td><a href=\"" ++
  (str "posts/" ++ str "b" ++ str ".html") ++ str "\">b</a></td></tr>" ++
  rowEndMarker ++
  (str "\n  " ++ rowMarker ++
    str "<tr><td><a href=\"posts/c.html\">c</a></td></tr>" ++ rowEndMarker ++
    str "\n</tbody>")

set_option maxRecDepth 100000 in
/-- C7 witness: the edit changeset for a concrete three-row index in which
the edited row sits below a sibling row of its month group and above a
further row. -/
theorem c7_edit_frame_witness :
    editEntryFiles (str "b") (docAssembled c7oe [] none none) c7idx c7r =
      [⟨str "posts/" ++ str "b" ++ str ".html",
        some (generatePost ⟨str "b", c7oe.date, c7r.type, c7r.content, c7r.tags,
          jsTruthyOpt none, jsTruthyOpt none⟩), false⟩,
       ⟨str "index.html",
        some (addToIndex (removeFromIndex c7idx (str "b")) c7oe.date c7r.type
          (str "b") c7r.desc), false⟩] ∧
    parsePost (generatePost ⟨str "b", c7oe.date, c7r.type, c7r.content, c7r.tags,
        jsTruthyOpt none, jsTruthyOpt none⟩) =
      { slug := str "b", date := c7oe.date, type := c7r.type,
        content := c7r.content, tags := c7r.tags, prevSlug := jsTruthyOpt none,
        nextSlug := jsTruthyOpt none } ∧
    countOccur rowMarker
        (addToIndex (removeFromIndex c7idx (str "b")) c7oe.date c7r.type
          (str "b") c7r.desc) =
      countOccur rowMarker c7idx :=
  c7_edit_frame (str "b") (docAssembled c7oe [] none none) c7idx c7r c7oe []
    none none [str "x"] [str "y"]
    (str "<body>\n") (str "3 entries") (str "\n<tbody>\n  ")
    (str "\n  " ++ rowMarker ++
      str "<tr><td><a href=\"posts/a.html\">a</a></td></tr>" ++ rowEndMarker)
    (str "  ")
    (str "<tr><td><a href=\"") (str "\">b</a></td></tr>")
    (str "\n  " ++ rowMarker ++
      str "<tr><td><a href=\"posts/c.html\">c</a></td></tr>" ++ rowEndMarker ++
      str "\n</tbody>")
    rfl
    (slugOk_of_b (by decide)) (dateOk_of_b (by decide))
    (by decide)
    (fun q hq => by
      rw [List.mem_singleton] at hq
      subst hq
      exact paraOk_of_b (by decide))
    (fun t ht => absurd ht (List.not_mem_nil t))
    trivial trivial
    (fun c hc => absurd hc (List.not_mem_nil c))
    (slugOk_of_b (by decide))
    (by decide)
    (fun q hq => by
      rw [List.mem_singleton] at hq
      subst hq
      exact paraOk_of_b (by decide))
    (fun t ht => absurd ht (List.not_mem_nil t))
    rfl
    (by decide)
    (safePre_of_cleanStarts (by decide)) (by decide)
    (safePre_of_cleanStarts (by decide)) (safePre_of_cleanStarts (by decide))
    (by decide)
    (safePre_of_cleanStarts (by decide))
    (safePre_of_cleanStarts (by decide))
    (safePre_of_cleanStarts (by decide))
    (safePre_of_cleanStarts (by decide))

end Vimsite